import Mathlib

/-!
# Application controller: revision history, resource application, status aggregation

A shallow embedding of `controllers/history.go`, `controllers/application_controller.go`
and the API types of `api/v1beta1`, followed by theorems about them.

Conventions of the embedding

* Go `int`, `int32`, `int64` values are `Int`; `wrap64` is applied where the source computes
  in `int64` and may leave the range.
* A Go `error` result is an `Option APIError` (`none` is `nil`).
* The object store (`client.Client`) is a record of transition functions on an abstract
  store state; every call the controller issues is appended to a log of events, so that
  "which calls were issued, in which order, with which result" is part of the result.
  Reads (`Get`, `List`) do not change the store.
* A run-time panic of the Go code (nil dereference, write to a nil map) is an explicit
  outcome.
* `runtime.RawExtension.Raw` of an object read from the store is either `nil` or the
  bytes of one well-formed JSON value; the bytes are represented by their syntax tree
  (object fields in the order they are written, string literals by their content, written
  back with the escapes of `encoding/json`). The numbers of a document are integer
  literals of at most 256 digits. `json.Marshal` fails on these types for malformed raw
  bytes only, and `json.Unmarshal` of its output fails for a number outside the range of
  `float64` only, so in the embedding neither fails.
* `sort.Sort` and the status interpreter `status` are parameters of the functions that
  call them; the helpers that write conditions, which are not among the sources, are
  modelled from the specification.
-/

namespace AppController

/-! ## JSON documents -/

/-- The bound of the integer literals of a document: a literal has at most 256 digits, and
so lies in the range of `float64`. -/
def numberBound : Nat := 10 ^ 256

/-- An integer literal of a document. -/
structure Number where
  val : Int
  inRange : val.natAbs < numberBound
  deriving DecidableEq

mutual
/-- A JSON value as written: the fields of an object keep their textual order. -/
inductive JSON where
  | null
  | bool (b : Bool)
  | num (n : Number)
  | str (s : String)
  | arr (items : JList)
  | obj (fields : JFields)
  deriving DecidableEq
/-- The elements of a JSON array. -/
inductive JList where
  | nil
  | cons (head : JSON) (tail : JList)
  deriving DecidableEq
/-- The fields of a JSON object, in textual order. -/
inductive JFields where
  | nil
  | cons (key : String) (value : JSON) (tail : JFields)
  deriving DecidableEq
end

/-- Array of JSON values from a list. -/
def JList.ofList : List JSON → JList
  | [] => .nil
  | x :: xs => .cons x (JList.ofList xs)

/-- Object fields from an association list. -/
def JFields.ofList : List (String × JSON) → JFields
  | [] => .nil
  | (k, v) :: xs => .cons k v (JFields.ofList xs)

/-- The number `json.Marshal` writes for a Go integer (`int32`, `int64`); the value of a
Go integer is within the bound of the literals. -/
def JSON.int (n : Int) : JSON :=
  if h : n.natAbs < numberBound then JSON.num ⟨n, h⟩ else JSON.null

/-- Look up a key of an object (`m[key]` on the decoded map: the last occurrence wins). -/
def JFields.lookup (key : String) : JFields → Option JSON
  | .nil => none
  | .cons k v t =>
    match JFields.lookup key t with
    | some x => some x
    | none => if k = key then some v else none

/-- Hexadecimal digit, lower case. -/
def hexDigit (n : Nat) : Char :=
  if n < 10 then Char.ofNat (48 + n) else Char.ofNat (87 + n)

/-- The `\u00XX` escape of a code point below 256. -/
def escapeU00 (n : Nat) : List Char :=
  ['\\', 'u', '0', '0', hexDigit (n / 16), hexDigit (n % 16)]

/-- Escaping of one character by `encoding/json` (HTML escaping on, as `json.Marshal` has). -/
def jsonEscapeChar (ch : Char) : List Char :=
  if ch = '"' then ['\\', '"']
  else if ch = '\\' then ['\\', '\\']
  else if ch = '\n' then ['\\', 'n']
  else if ch = '\r' then ['\\', 'r']
  else if ch = '\t' then ['\\', 't']
  else if ch.toNat < 32 then escapeU00 ch.toNat
  else if ch = '<' ∨ ch = '>' ∨ ch = '&' then escapeU00 ch.toNat
  else if ch.toNat = 0x2028 then ['\\', 'u', '2', '0', '2', '8']
  else if ch.toNat = 0x2029 then ['\\', 'u', '2', '0', '2', '9']
  else [ch]

/-- A JSON string literal as `encoding/json` writes it. -/
def jsonQuote (s : String) : String :=
  String.mk ('"' :: (s.data.flatMap jsonEscapeChar ++ ['"']))

mutual
/-- Compact text of a JSON value, fields in the order given (`json.Marshal` of a struct,
and of a `RawExtension`, whose bytes are compacted and kept in their order). -/
def JSON.render : JSON → String
  | .null => "null"
  | .bool true => "true"
  | .bool false => "false"
  | .num n => toString n.val
  | .str s => jsonQuote s
  | .arr l => "[" ++ JList.render l ++ "]"
  | .obj f => "\x7b" ++ JFields.render f ++ "\x7d"
/-- Comma separated elements. -/
def JList.render : JList → String
  | .nil => ""
  | .cons h .nil => JSON.render h
  | .cons h t => JSON.render h ++ "," ++ JList.render t
/-- Comma separated `"key":value` pairs. -/
def JFields.render : JFields → String
  | .nil => ""
  | .cons k v .nil => jsonQuote k ++ ":" ++ JSON.render v
  | .cons k v t => jsonQuote k ++ ":" ++ JSON.render v ++ "," ++ JFields.render t
end

/-- Whether an object has a field of this key. -/
def JFields.hasKey (key : String) : JFields → Bool
  | .nil => false
  | .cons k _ t => k == key || JFields.hasKey key t

/-- Go's `<` on strings (byte-wise, which on UTF-8 is the order of the code points). -/
def strLess (a b : String) : Bool := decide (a.data < b.data)

/-- Put a key that the key-sorted field list does not hold at its place. -/
def JFields.insertSorted (key : String) (value : JSON) : JFields → JFields
  | .nil => .cons key value .nil
  | .cons k v t =>
    if strLess key k then .cons key value (.cons k v t)
    else .cons k v (JFields.insertSorted key value t)

mutual
/-- The value `json.Unmarshal` stores into an `interface{}`: every object has become a
map, whose keys are unique (of two fields of one key the later one is kept) and which
`json.Marshal` writes in sorted order. A number has become the `float64` nearest to its
literal; the literal stands for it here, and `JSON.marshal` writes the `float64`. -/
def JSON.normalize : JSON → JSON
  | .null => .null
  | .bool b => .bool b
  | .num n => .num n
  | .str s => .str s
  | .arr l => .arr (JList.normalize l)
  | .obj f => .obj (JFields.normalize f)
/-- Normalise the elements of an array. -/
def JList.normalize : JList → JList
  | .nil => .nil
  | .cons h t => .cons (JSON.normalize h) (JList.normalize t)
/-- The map of the fields of an object. -/
def JFields.normalize : JFields → JFields
  | .nil => .nil
  | .cons k v t =>
    if JFields.hasKey k t then JFields.normalize t
    else JFields.insertSorted k (JSON.normalize v) (JFields.normalize t)
end

/-! ## Numbers decoded into `float64` -/

/-- The number of binary digits of a number, found in at most `fuel` halvings. -/
def bitsCore : Nat → Nat → Nat
  | 0, _ => 0
  | fuel + 1, m => if m = 0 then 0 else bitsCore fuel (m / 2) + 1

/-- The number of binary digits of a number. -/
def bitLength (m : Nat) : Nat := bitsCore m m

/-- The value of the `float64` nearest to a natural number in the range of `float64`
(`strconv.ParseFloat`: of two nearest values the one of even mantissa). -/
def roundFloat64 (m : Nat) : Nat :=
  if m < 2 ^ 53 then m
  else
    let e := bitLength m - 53
    let q := m >>> e
    let r := m - (q <<< e)
    let half := 1 <<< (e - 1)
    if r > half ∨ (r = half ∧ q % 2 = 1) then (q + 1) <<< e else q <<< e

/-- The search of `strconv` for the shortest decimal that reads back as the `float64` of
value `v`. `lo2` and `hi2` are twice the bounds of the numbers that round to `v`; the
bounds themselves count when `inclusive` holds (the mantissa is even). The last argument
is the number of digits dropped: the digits kept are rounded down or up, whichever stays
within the bounds, and to the nearest when both do. -/
def shortestFrom (v lo2 hi2 : Nat) (inclusive : Bool) : Nat → Nat
  | 0 => v
  | k + 1 =>
    let unit := 10 ^ (k + 1)
    let down := v / unit * unit
    let up := down + unit
    let okdown := if inclusive then decide (lo2 ≤ 2 * down) else decide (lo2 < 2 * down)
    let okup := if inclusive then decide (2 * up ≤ hi2) else decide (2 * up < hi2)
    if okdown && okup then
      if v - down < up - v then down
      else if up - v < v - down then up
      else if (down / unit) % 2 = 0 then down else up
    else if okdown then down
    else if okup then up
    else shortestFrom v lo2 hi2 inclusive k

/-- The shortest decimal that reads back as the `float64` of value `v`, for `v` from
`2 ^ 53` on (`strconv.FormatFloat` with precision -1). -/
def shortestDecimal (v : Nat) : Nat :=
  let e := bitLength v - 53
  let mant := v >>> e
  let hi2 := 2 * v + (1 <<< e)
  let lo2 := if mant = 2 ^ 52 then 2 * v - (1 <<< (e - 1)) else 2 * v - (1 <<< e)
  shortestFrom v lo2 hi2 (mant % 2 == 0) (Nat.toDigits 10 v).length

/-- Drop the zeros at the end of a list of digits. -/
def trimZeros (ds : List Char) : List Char :=
  (ds.reverse.dropWhile (fun ch => ch == '0')).reverse

/-- The text of the format `e` with the shortest digits, for the integer `s`: one digit,
the further digits after a point, and the exponent with its sign and two digits at
least. -/
def exponentForm (s : Nat) : String :=
  let ds := Nat.toDigits 10 s
  let x := ds.length - 1
  match trimZeros ds with
  | [] => "0"
  | d :: rest =>
    String.mk (d :: (if rest.isEmpty then [] else '.' :: rest))
      ++ "e+" ++ (if x < 10 then "0" else "") ++ toString x

/-- The text `json.Marshal` writes for the `float64` that an integer literal of magnitude
`m` is decoded into: the shortest decimal that reads back as this `float64`, in the format
`f` below `1e21` and in the format `e` from there on. A `float64` below `2 ^ 53` that is
an integer is written with all its digits. -/
def floatMagnitudeText (m : Nat) : String :=
  let v := roundFloat64 m
  if v < 2 ^ 53 then toString v
  else if v < 10 ^ 21 then toString (shortestDecimal v)
  else exponentForm (shortestDecimal v)

/-- The text `json.Marshal` writes for the `float64` an integer literal is decoded
into. -/
def floatText (n : Int) : String :=
  if n < 0 then "-" ++ floatMagnitudeText n.natAbs else floatMagnitudeText n.natAbs

mutual
/-- The text `json.Marshal` writes for a decoded value (`JSON.normalize`): as
`JSON.render`, with every number written as the `float64` it was decoded into. -/
def JSON.marshal : JSON → String
  | .null => "null"
  | .bool true => "true"
  | .bool false => "false"
  | .num n => floatText n.val
  | .str s => jsonQuote s
  | .arr l => "[" ++ JList.marshal l ++ "]"
  | .obj f => "\x7b" ++ JFields.marshal f ++ "\x7d"
/-- Comma separated elements. -/
def JList.marshal : JList → String
  | .nil => ""
  | .cons h .nil => JSON.marshal h
  | .cons h t => JSON.marshal h ++ "," ++ JList.marshal t
/-- Comma separated `"key":value` pairs. -/
def JFields.marshal : JFields → String
  | .nil => ""
  | .cons k v .nil => jsonQuote k ++ ":" ++ JSON.marshal v
  | .cons k v t => jsonQuote k ++ ":" ++ JSON.marshal v ++ "," ++ JFields.marshal t
end

/-! ## Hashing (`hash/fnv`, `github.com/kr/pretty`, `rand.SafeEncodeString`) -/

/-- UTF-8 bytes of a string. -/
def utf8Bytes (s : String) : List Nat :=
  s.data.flatMap (fun ch => (String.utf8EncodeChar ch).map UInt8.toNat)

/-- One step of FNV-1a on 32 bits. -/
def fnv32aStep (h : Nat) (b : Nat) : Nat :=
  ((Nat.xor h b) * 16777619) % 2 ^ 32

/-- The sum of `fnv.New32a` after writing the bytes. -/
def fnv32a (bytes : List Nat) : Nat :=
  bytes.foldl fnv32aStep 2166136261

/-- The alphabet of `rand.SafeEncodeString`. -/
def alphanums : List Char := "bcdfghjklmnpqrstvwxz2456789".data

/-- The text of `rand.SafeEncodeString s`. -/
def SafeEncodeString (s : String) : String :=
  String.mk (s.data.map (fun ch => alphanums.getD (ch.toNat % alphanums.length) 'b'))

/-- The ten digits. -/
def decimalDigits : List Char := ['0', '1', '2', '3', '4', '5', '6', '7', '8', '9']

/-- The number a list of digits writes, read after the number `acc`. -/
def readDigits (acc : Nat) (ds : List Char) : Nat :=
  ds.foldl (fun a ch => 10 * a + (ch.toNat - 48)) acc

/-- DeepHashObject resets the hasher and writes the object to it with
`pretty.Fprintf(hasher, "%# v", objectToWrite)`. The object is a string: `pretty.Fprintf`
wraps it in a formatter that does not quote, so a string at the top is written as it is,
and the text of the one caller (the output of `json.Marshal`) holds none of the
characters the tab writer of the formatter treats. The result is the sum of the hasher. -/
def DeepHashObject (objectToWrite : String) : Nat :=
  fnv32a (utf8Bytes objectToWrite)

/-! ## Errors -/

/-- The reasons of a failed store call that the controller tells apart. -/
inductive StatusReason where
  | NotFound
  | AlreadyExists
  | Conflict
  | Other
  deriving DecidableEq, Repr

/-- A non-nil Go `error`: its reason and the text of `Error()`. -/
structure APIError where
  Reason : StatusReason
  Message : String
  deriving DecidableEq, Repr

deriving instance DecidableEq for Except

/-- The predicate `errors.IsNotFound` on a non-nil error. -/
def IsNotFound (e : APIError) : Bool := e.Reason = StatusReason.NotFound

/-- The predicate `errors.IsAlreadyExists` on a non-nil error. -/
def IsAlreadyExists (e : APIError) : Bool := e.Reason = StatusReason.AlreadyExists

/-- The predicate `errors.IsConflict` on a non-nil error. -/
def IsConflict (e : APIError) : Bool := e.Reason = StatusReason.Conflict

/-! ## API types (`api/v1beta1/application_types.go` and the Kubernetes types used) -/

/-- A Go `map[string]string` as an association list. -/
abbrev StringMap := List (String × String)

/-- The owner reference of `metav1`. -/
structure OwnerReference where
  APIVersion : String
  Kind : String
  Name : String
  UID : String
  Controller : Option Bool
  BlockOwnerDeletion : Option Bool
  deriving DecidableEq

/-- The fields of `metav1.ObjectMeta` the controller reads or writes. A `nil` map is
`none`. -/
structure ObjectMeta where
  Name : String
  Namespace : String
  UID : String
  Generation : Int
  ResourceVersion : String
  DeletionTimestamp : Option String
  Labels : Option StringMap
  Annotations : Option StringMap
  OwnerReferences : List OwnerReference
  deriving DecidableEq

/-- The requirement of a label selector. -/
structure LabelSelectorRequirement where
  Key : String
  Operator : String
  Values : List String
  deriving DecidableEq

/-- The label selector of `metav1`. -/
structure LabelSelector where
  MatchLabels : StringMap
  MatchExpressions : List LabelSelectorRequirement
  deriving DecidableEq

/-- ResourceTemplate embeds a `runtime.RawExtension`: `Raw` is `none` for nil bytes. -/
structure ResourceTemplate where
  Raw : Option JSON
  deriving DecidableEq

/-- ImageSpec contains information about an image used as an icon. -/
structure ImageSpec where
  Source : String
  Size : String
  Typ : String
  deriving DecidableEq

/-- ContactData contains information about an individual or organization. -/
structure ContactData where
  Name : String
  URL : String
  Email : String
  deriving DecidableEq

/-- Link contains information about an URL. -/
structure Link where
  Description : String
  URL : String
  deriving DecidableEq

/-- Descriptor defines the metadata and informations about the Application. -/
structure Descriptor where
  Typ : String
  Version : String
  Description : String
  Icons : List ImageSpec
  Maintainers : List ContactData
  Owners : List ContactData
  Keywords : List String
  Links : List Link
  Notes : String
  deriving DecidableEq

/-- ApplicationSpec defines the desired state of Application. -/
structure ApplicationSpec where
  Selector : Option LabelSelector
  Resources : List ResourceTemplate
  Descriptor : Descriptor
  RevisionHistoryLimit : Option Int
  deriving DecidableEq

/-- The value of `corev1.ConditionStatus`. -/
inductive ConditionStatus where
  | True
  | False
  | Unknown
  deriving DecidableEq, Repr

/-- Condition describes the state of an object at a certain point (the two time stamps
are left out). -/
structure Condition where
  Typ : String
  Status : ConditionStatus
  Reason : String
  Message : String
  deriving DecidableEq

/-- ResourceReference locates the referenced resource inside the cluster. -/
structure ResourceReference where
  APIVersion : String
  Kind : String
  Namespace : String
  Name : String
  ResourceVersion : String
  deriving DecidableEq

/-- ResourceStatus represents the current status of the resource on a cluster. -/
structure ResourceStatus where
  Resource : ResourceReference
  ComputedStatus : String
  Status : Option JSON
  deriving DecidableEq

/-- ApplicationStatus defines the observed state of Application. -/
structure ApplicationStatus where
  ObservedGeneration : Int
  Conditions : List Condition
  ResourceStatuses : List ResourceStatus
  ComponentsReady : String
  deriving DecidableEq

/-- Application is the schema for the applications API. -/
structure Application extends ObjectMeta where
  Spec : ApplicationSpec
  Status : ApplicationStatus
  deriving DecidableEq

/-- The controller revision of `apps/v1`: `Data` holds the bytes of `Data.Raw`. -/
structure ControllerRevision extends ObjectMeta where
  Data : String
  Revision : Int
  deriving DecidableEq

/-- The condition type `Ready`. -/
def Ready : String := "Ready"

/-- The condition type `Error`. -/
def Error : String := "Error"

/-- The computed status `Ready` (the values of `ComputedStatus` are InProgress, Ready,
Unknown). -/
def StatusReady : String := "Ready"

/-- The label key `apps.ControllerRevisionHashLabelKey`. -/
def ControllerRevisionHashLabelKey : String := "controller-revision-hash"

/-- The label key `apps.DefaultDaemonSetUniqueLabelKey`, which `apps/v1` defines as
`ControllerRevisionHashLabelKey`. -/
def DefaultDaemonSetUniqueLabelKey : String := ControllerRevisionHashLabelKey

/-- The text of `GroupVersion.String()`; the group is the one of the kubebuilder markers
(`groups=applications.app.io`, version `v1beta1`). -/
def GroupVersion : String := "applications.app.io/v1beta1"

/-- Reduce to the range of `int64` (two's complement). -/
def wrap64 (x : Int) : Int := (x + 2 ^ 63) % 2 ^ 64 - 2 ^ 63

/-! ## `json.Marshal` of the API types -/

/-- A string field tagged `omitempty`. -/
def omitEmptyString (key value : String) : List (String × JSON) :=
  if value = "" then [] else [(key, JSON.str value)]

/-- A slice field tagged `omitempty`. -/
def omitEmptyList (key : String) (items : List JSON) : List (String × JSON) :=
  if items.isEmpty then [] else [(key, JSON.arr (JList.ofList items))]

/-- A `map[string]string`: `json.Marshal` writes the keys in sorted order. -/
def stringMapJSON (m : StringMap) : JSON :=
  JSON.obj (JFields.normalize (JFields.ofList (m.map (fun kv => (kv.1, JSON.str kv.2)))))

/-- A map field tagged `omitempty`. -/
def omitEmptyMap (key : String) (m : StringMap) : List (String × JSON) :=
  if m.isEmpty then [] else [(key, stringMapJSON m)]

/-- The JSON form of a label selector requirement. -/
def LabelSelectorRequirement.toJSON (r : LabelSelectorRequirement) : JSON :=
  JSON.obj (JFields.ofList
    ([("key", JSON.str r.Key), ("operator", JSON.str r.Operator)]
      ++ omitEmptyList "values" (r.Values.map JSON.str)))

/-- The JSON form of a label selector. -/
def LabelSelector.toJSON (sel : LabelSelector) : JSON :=
  JSON.obj (JFields.ofList
    (omitEmptyMap "matchLabels" sel.MatchLabels
      ++ omitEmptyList "matchExpressions"
          (sel.MatchExpressions.map LabelSelectorRequirement.toJSON)))

/-- A resource template marshals through `RawExtension.MarshalJSON`: its raw bytes, or
`null` when they are nil. -/
def ResourceTemplate.toJSON (t : ResourceTemplate) : JSON :=
  match t.Raw with
  | none => JSON.null
  | some doc => doc

/-- The JSON form of an image. -/
def ImageSpec.toJSON (i : ImageSpec) : JSON :=
  JSON.obj (JFields.ofList
    ([("src", JSON.str i.Source)] ++ omitEmptyString "size" i.Size
      ++ omitEmptyString "type" i.Typ))

/-- The JSON form of a contact. -/
def ContactData.toJSON (d : ContactData) : JSON :=
  JSON.obj (JFields.ofList
    (omitEmptyString "name" d.Name ++ omitEmptyString "url" d.URL
      ++ omitEmptyString "email" d.Email))

/-- The JSON form of a link. -/
def Link.toJSON (l : Link) : JSON :=
  JSON.obj (JFields.ofList
    (omitEmptyString "description" l.Description ++ omitEmptyString "url" l.URL))

/-- The JSON form of a descriptor. -/
def Descriptor.toJSON (d : Descriptor) : JSON :=
  JSON.obj (JFields.ofList
    (omitEmptyString "type" d.Typ ++ omitEmptyString "version" d.Version
      ++ omitEmptyString "description" d.Description
      ++ omitEmptyList "icons" (d.Icons.map ImageSpec.toJSON)
      ++ omitEmptyList "maintainers" (d.Maintainers.map ContactData.toJSON)
      ++ omitEmptyList "owners" (d.Owners.map ContactData.toJSON)
      ++ omitEmptyList "keywords" (d.Keywords.map JSON.str)
      ++ omitEmptyList "links" (d.Links.map Link.toJSON)
      ++ omitEmptyString "notes" d.Notes))

/-- The JSON form of an application spec, fields in the order of the struct. The descriptor
is a struct, which `omitempty` never omits. -/
def ApplicationSpec.toJSON (spec : ApplicationSpec) : JSON :=
  JSON.obj (JFields.ofList
    ((match spec.Selector with
      | none => []
      | some sel => [("selector", sel.toJSON)])
      ++ omitEmptyList "resources" (spec.Resources.map ResourceTemplate.toJSON)
      ++ [("descriptor", spec.Descriptor.toJSON)]
      ++ (match spec.RevisionHistoryLimit with
          | none => []
          | some limit => [("revisionHistoryLimit", JSON.int limit)])))

/-- The JSON form of the metadata (the fields of the model). -/
def ObjectMeta.toJSON (m : ObjectMeta) : JSON :=
  JSON.obj (JFields.ofList
    (omitEmptyString "name" m.Name ++ omitEmptyString "namespace" m.Namespace
      ++ omitEmptyString "uid" m.UID
      ++ omitEmptyString "resourceVersion" m.ResourceVersion
      ++ (if m.Generation = 0 then [] else [("generation", JSON.int m.Generation)])
      ++ (match m.DeletionTimestamp with
          | none => []
          | some t => [("deletionTimestamp", JSON.str t)])
      ++ omitEmptyMap "labels" (m.Labels.getD [])
      ++ omitEmptyMap "annotations" (m.Annotations.getD [])))

/-- The JSON form of a condition. -/
def Condition.toJSON (cond : Condition) : JSON :=
  JSON.obj (JFields.ofList
    ([("type", JSON.str cond.Typ),
      ("status", JSON.str (match cond.Status with
        | .True => "True"
        | .False => "False"
        | .Unknown => "Unknown"))]
      ++ omitEmptyString "reason" cond.Reason ++ omitEmptyString "message" cond.Message))

/-- The JSON form of a resource status. -/
def ResourceStatus.toJSON (rs : ResourceStatus) : JSON :=
  JSON.obj (JFields.ofList
    ([("resource", JSON.obj (JFields.ofList
        ([("apiVersion", JSON.str rs.Resource.APIVersion), ("kind", JSON.str rs.Resource.Kind)]
          ++ omitEmptyString "namespace" rs.Resource.Namespace
          ++ [("name", JSON.str rs.Resource.Name)]
          ++ omitEmptyString "resourceVersion" rs.Resource.ResourceVersion)))]
      ++ omitEmptyString "computedStatus" rs.ComputedStatus
      ++ [("status", match rs.Status with
          | none => JSON.null
          | some doc => doc)]))

/-- The JSON form of the status. -/
def ApplicationStatus.toJSON (st : ApplicationStatus) : JSON :=
  JSON.obj (JFields.ofList
    ((if st.ObservedGeneration = 0 then []
      else [("observedGeneration", JSON.int st.ObservedGeneration)])
      ++ omitEmptyList "conditions" (st.Conditions.map Condition.toJSON)
      ++ omitEmptyList "resourceStatuses" (st.ResourceStatuses.map ResourceStatus.toJSON)
      ++ omitEmptyString "componentsReady" st.ComponentsReady))

/-- The fields `json.Marshal` writes for an application: metadata, spec and status are
structs and are always written. -/
def Application.toJSON (app : Application) : JFields :=
  JFields.ofList
    [("metadata", app.toObjectMeta.toJSON), ("spec", app.Spec.toJSON),
     ("status", app.Status.toJSON)]

/-! ## `controllers/history.go`: the functions without store access -/

/-- getPatch returns the resource section of interest: the application is marshalled,
decoded into a map, and the value of `spec` is put, with `$patch: replace`, into a new
map, which is marshalled. The map always holds `spec` (the struct field is always
written), so the branch of a missing key, where the type assertion of the source would
fail, is never taken. -/
def getPatch (ds : Application) : Except APIError String :=
  let raw := JFields.normalize ds.toJSON
  match JFields.lookup "spec" raw with
  | none => .error { Reason := .Other, Message := "interface conversion" }
  | some spec =>
    let objCopy := JFields.insertSorted "spec" spec
      (JFields.insertSorted "$patch" (JSON.str "replace") JFields.nil)
    .ok (JSON.marshal (JSON.obj objCopy))

/-- Match checks whether the application's patch equals the data stored in the revision. -/
def Match (app : Application) (history : ControllerRevision) : Except APIError Bool :=
  match getPatch app with
  | .error err => .error err
  | .ok patch => .ok (patch = history.Data)

/-- maxRevision returns the max revision number of the given list of histories. -/
def maxRevision (histories : List ControllerRevision) : Int :=
  histories.foldl (fun max history => if history.Revision > max then history.Revision else max) 0

/-- ComputeHash generates the hash of the controller revision name. -/
def ComputeHash (appSpec : ApplicationSpec) : String :=
  let data := JSON.render appSpec.toJSON
  SafeEncodeString (toString (DeepHashObject data))

/-- Assignment `m[key] = value` on a map held as an association list. -/
def StringMap.set (m : StringMap) (key value : String) : StringMap :=
  match m with
  | [] => [(key, value)]
  | (k, v) :: rest => if k = key then (key, value) :: rest else (k, v) :: StringMap.set rest key value

/-- CloneAndAddLabel clones the given map and returns a new map with the given key and
value added; it returns the given map if the key is empty. -/
def CloneAndAddLabel (labels : Option StringMap) (labelKey labelValue : String) :
    Option StringMap :=
  if labelKey = "" then labels
  else
    let newLabels := (labels.getD []).foldl (fun acc kv => StringMap.set acc kv.1 kv.2) []
    some (StringMap.set newLabels labelKey labelValue)

/-- The order `historiesByRevision.Less`. -/
def Less (a b : ControllerRevision) : Bool := decide (a.Revision < b.Revision)

/-! ## Unstructured child resources -/

/-- An `unstructured.Unstructured`: the values its accessors read, and the whole decoded
document. -/
structure Unstructured where
  APIVersion : String
  Kind : String
  Namespace : String
  Name : String
  ResourceVersion : String
  OwnerReferences : List OwnerReference
  Object : JFields
  deriving DecidableEq

/-- The string at a key, or the empty string (`getNestedString`). -/
def fieldString (key : String) (m : JFields) : String :=
  match JFields.lookup key m with
  | some (JSON.str v) => v
  | _ => ""

/-- The boolean at a key, when there is one (`NestedBool`). -/
def fieldBool (key : String) (m : JFields) : Option Bool :=
  match JFields.lookup key m with
  | some (JSON.bool b) => some b
  | _ => none

/-- The map at a key, or the empty map. -/
def fieldObject (key : String) (m : JFields) : JFields :=
  match JFields.lookup key m with
  | some (JSON.obj v) => v
  | _ => JFields.nil

/-- The owner reference written in a map (`extractOwnerReference`). -/
def extractOwnerReference (v : JFields) : OwnerReference :=
  { APIVersion := fieldString "apiVersion" v, Kind := fieldString "kind" v,
    Name := fieldString "name" v, UID := fieldString "uid" v,
    Controller := fieldBool "controller" v,
    BlockOwnerDeletion := fieldBool "blockOwnerDeletion" v }

/-- The owner references of a list of values; `none` when one of them is not a map. -/
def extractOwnerReferences : JList → Option (List OwnerReference)
  | .nil => some []
  | .cons (JSON.obj o) rest =>
    match extractOwnerReferences rest with
    | some refs => some (extractOwnerReference o :: refs)
    | none => none
  | .cons _ _ => none

/-- The value of `GetOwnerReferences` on a decoded document. -/
def documentOwnerReferences (m : JFields) : List OwnerReference :=
  match JFields.lookup "ownerReferences" (fieldObject "metadata" m) with
  | some (JSON.arr items) => (extractOwnerReferences items).getD []
  | _ => []

/-- The pieces of a text between its slashes. -/
def splitSlash : List Char → List (List Char)
  | [] => [[]]
  | ch :: rest =>
    match splitSlash rest with
    | [] => [[ch]]
    | piece :: pieces => if ch = '/' then [] :: piece :: pieces else (ch :: piece) :: pieces

/-- The group of an API version (`schema.ParseGroupVersion`); `none` when the text does not
parse. -/
def parseGroup (apiVersion : String) : Option String :=
  match splitSlash apiVersion.data with
  | [_] => some ""
  | [g, _] => some (String.mk g)
  | _ => none

/-- The name `encoding/json` has for a JSON value in the text of a type error. -/
def jsonValueName : JSON → String
  | .null => "null"
  | .bool _ => "bool"
  | .num _ => "number"
  | .str _ => "string"
  | .arr _ => "array"
  | .obj _ => "object"

/-- The method `Unstructured.UnmarshalJSON` on the raw bytes of a template. The bytes are
decoded into a map: no bytes and a value that is neither an object nor `null` are errors
of the decoder, and `null` leaves the map empty. Then the kind of the object is asked for
(`GroupVersionKind`), which is empty when `kind` is, and also when `apiVersion` does not
parse; an empty kind is the error of a missing kind, whose text quotes the bytes. -/
def UnmarshalJSON (raw : Option JSON) : Except APIError Unstructured :=
  match raw with
  | none => .error { Reason := .Other, Message := "unexpected end of JSON input" }
  | some doc =>
    let decoded : Except APIError JFields :=
      match doc with
      | JSON.obj m => .ok m
      | JSON.null => .ok JFields.nil
      | other =>
        .error { Reason := .Other,
                 Message := "json: cannot unmarshal " ++ jsonValueName other
                   ++ " into Go value of type map[string]interface \x7b\x7d" }
    match decoded with
    | .error err => .error err
    | .ok m =>
      if (parseGroup (fieldString "apiVersion" m)).isNone || fieldString "kind" m = "" then
        .error { Reason := .Other,
                 Message := "Object 'Kind' is missing in '" ++ JSON.render doc ++ "'" }
      else
        .ok { APIVersion := fieldString "apiVersion" m, Kind := fieldString "kind" m,
              Namespace := fieldString "namespace" (fieldObject "metadata" m),
              Name := fieldString "name" (fieldObject "metadata" m),
              ResourceVersion := fieldString "resourceVersion" (fieldObject "metadata" m),
              OwnerReferences := documentOwnerReferences m,
              Object := m }

/-- Whether the setters of `Unstructured` can write below `metadata`: the key is absent
(the setter then makes the map) or holds a map. Otherwise `SetNestedField` returns an
error, which the setters drop, and the object stays as it is. -/
def metadataWritable (m : JFields) : Bool :=
  match JFields.lookup "metadata" m with
  | none => true
  | some (JSON.obj _) => true
  | some _ => false

/-- The method `SetNamespace` (for the empty namespace the field is removed). -/
def SetNamespace (u : Unstructured) (ns : String) : Unstructured :=
  if metadataWritable u.Object then { u with Namespace := ns } else u

/-- The method `SetResourceVersion` (for the empty version the field is removed). -/
def SetResourceVersion (u : Unstructured) (resourceVersion : String) : Unstructured :=
  if metadataWritable u.Object then { u with ResourceVersion := resourceVersion } else u

/-- The method `SetOwnerReferences`. -/
def SetOwnerReferences (u : Unstructured) (references : List OwnerReference) : Unstructured :=
  if metadataWritable u.Object then { u with OwnerReferences := references } else u

/-- Whether two owner references point to the same object (`referSameObject`). -/
def referSameObject (a b : OwnerReference) : Bool :=
  match parseGroup a.APIVersion, parseGroup b.APIVersion with
  | some ga, some gb => ga = gb && a.Kind = b.Kind && a.Name = b.Name
  | _, _ => false

/-- The controlling owner reference of an object, if any (`metav1.GetControllerOf`). -/
def GetControllerOf (refs : List OwnerReference) : Option OwnerReference :=
  refs.find? (fun ref => ref.Controller = some true)

/-- The predicate `metav1.IsControlledBy obj owner`. -/
def IsControlledBy (refs : List OwnerReference) (owner : Application) : Bool :=
  match GetControllerOf refs with
  | none => false
  | some ref => ref.UID = owner.UID

/-- The reference `metav1.NewControllerRef` builds for the application. -/
def NewControllerRef (app : Application) : OwnerReference :=
  { APIVersion := GroupVersion, Kind := "Application", Name := app.Name, UID := app.UID,
    Controller := some true, BlockOwnerDeletion := some true }

/-- Replace the first reference to the same object, or append (`upsertOwnerRef`). -/
def upsertOwnerRef (ref : OwnerReference) : List OwnerReference → List OwnerReference
  | [] => [ref]
  | r :: rest => if referSameObject r ref then ref :: rest else r :: upsertOwnerRef ref rest

/-- The check `validateOwner` of `controllerutil`: an owner that has a namespace owns
objects of its own namespace only. -/
def validateOwner (owner : Application) (object : Unstructured) : Bool :=
  owner.Namespace = "" || (object.Namespace ≠ "" && owner.Namespace = object.Namespace)

/-- The effect of `controllerutil.SetControllerReference` on the object, for an owner of
a registered kind. The object stays as it is when the owner is not valid for it and when
another controller owns it already (the error is what the caller drops); else the
reference is upserted. -/
def SetControllerReference (app : Application) (resource : Unstructured) : Unstructured :=
  if !validateOwner app resource then resource
  else
    let ref := NewControllerRef app
    match GetControllerOf resource.OwnerReferences with
    | some existing =>
      if referSameObject existing ref then
        SetOwnerReferences resource (upsertOwnerRef ref resource.OwnerReferences)
      else resource
    | none => SetOwnerReferences resource (upsertOwnerRef ref resource.OwnerReferences)

/-! ## The object store -/

/-- The calls of `client.Client` the controller uses, on a store state of type `σ`. A read
returns its result; a write returns the new state and its error. `Create` and `Patch`
write the answer of the store back into the object they were given, which is the object
they return here. -/
structure Client (σ : Type) where
  GetApplication : σ → String → String → Except APIError Application
  ListRevisions : σ → String → Except APIError (List ControllerRevision)
  GetRevision : σ → String → String → Except APIError ControllerRevision
  CreateRevision : σ → ControllerRevision → σ × Except APIError ControllerRevision
  UpdateRevision : σ → ControllerRevision → σ × Option APIError
  DeleteRevision : σ → ControllerRevision → σ × Option APIError
  GetResource : σ → String → String → Unstructured → Except APIError Unstructured
  CreateResource : σ → Unstructured → σ × Except APIError Unstructured
  PatchResource : σ → Unstructured → σ × Except APIError Unstructured
  UpdateStatus : σ → Application → σ × Option APIError

/-- A call issued to the store, with the error it returned. -/
inductive Event where
  | getApplication (ns name : String) (err : Option APIError)
  | listRevisions (ns : String) (err : Option APIError)
  | getRevision (ns name : String) (err : Option APIError)
  | createRevision (r : ControllerRevision) (err : Option APIError)
  | updateRevision (r : ControllerRevision) (err : Option APIError)
  | deleteRevision (r : ControllerRevision) (err : Option APIError)
  | getResource (ns name : String) (obj : Unstructured) (err : Option APIError)
  | createResource (obj : Unstructured) (err : Option APIError)
  | patchResource (obj : Unstructured) (err : Option APIError)
  | updateStatus (app : Application) (err : Option APIError)
  deriving DecidableEq

/-- The store state together with the calls issued so far, oldest first. -/
structure World (σ : Type) where
  st : σ
  log : List Event

/-- The error of a read. -/
def errorOf {α : Type} : Except APIError α → Option APIError
  | .ok _ => none
  | .error e => some e

/-- Issue `Get` for an application. -/
def World.getApplication {σ : Type} (c : Client σ) (w : World σ) (ns name : String) :
    World σ × Except APIError Application :=
  let res := c.GetApplication w.st ns name
  ({ w with log := w.log ++ [Event.getApplication ns name (errorOf res)] }, res)

/-- Issue `List` for the controller revisions of a namespace. -/
def World.listRevisions {σ : Type} (c : Client σ) (w : World σ) (ns : String) :
    World σ × Except APIError (List ControllerRevision) :=
  let res := c.ListRevisions w.st ns
  ({ w with log := w.log ++ [Event.listRevisions ns (errorOf res)] }, res)

/-- Issue `Get` for a controller revision. -/
def World.getRevision {σ : Type} (c : Client σ) (w : World σ) (ns name : String) :
    World σ × Except APIError ControllerRevision :=
  let res := c.GetRevision w.st ns name
  ({ w with log := w.log ++ [Event.getRevision ns name (errorOf res)] }, res)

/-- Issue `Create` for a controller revision. -/
def World.createRevision {σ : Type} (c : Client σ) (w : World σ) (r : ControllerRevision) :
    World σ × Except APIError ControllerRevision :=
  let res := c.CreateRevision w.st r
  ({ st := res.1, log := w.log ++ [Event.createRevision r (errorOf res.2)] }, res.2)

/-- Issue `Update` for a controller revision. -/
def World.updateRevision {σ : Type} (c : Client σ) (w : World σ) (r : ControllerRevision) :
    World σ × Option APIError :=
  let res := c.UpdateRevision w.st r
  ({ st := res.1, log := w.log ++ [Event.updateRevision r res.2] }, res.2)

/-- Issue `Delete` for a controller revision. -/
def World.deleteRevision {σ : Type} (c : Client σ) (w : World σ) (r : ControllerRevision) :
    World σ × Option APIError :=
  let res := c.DeleteRevision w.st r
  ({ st := res.1, log := w.log ++ [Event.deleteRevision r res.2] }, res.2)

/-- Issue `Get` for a child resource. -/
def World.getResource {σ : Type} (c : Client σ) (w : World σ) (ns name : String)
    (obj : Unstructured) : World σ × Except APIError Unstructured :=
  let res := c.GetResource w.st ns name obj
  ({ w with log := w.log ++ [Event.getResource ns name obj (errorOf res)] }, res)

/-- Issue `Create` for a child resource. -/
def World.createResource {σ : Type} (c : Client σ) (w : World σ) (obj : Unstructured) :
    World σ × Except APIError Unstructured :=
  let res := c.CreateResource w.st obj
  ({ st := res.1, log := w.log ++ [Event.createResource obj (errorOf res.2)] }, res.2)

/-- Issue a merge `Patch` for a child resource. -/
def World.patchResource {σ : Type} (c : Client σ) (w : World σ) (obj : Unstructured) :
    World σ × Except APIError Unstructured :=
  let res := c.PatchResource w.st obj
  ({ st := res.1, log := w.log ++ [Event.patchResource obj (errorOf res.2)] }, res.2)

/-- Issue `Status().Update` for an application. -/
def World.updateStatus {σ : Type} (c : Client σ) (w : World σ) (app : Application) :
    World σ × Option APIError :=
  let res := c.UpdateStatus w.st app
  ({ st := res.1, log := w.log ++ [Event.updateStatus app res.2] }, res.2)

/-- How a call of a controller function ends: with a result, with an error, or in a
panic; in each case with the world it leaves. -/
inductive Outcome (σ : Type) (α : Type) where
  | ok (w : World σ) (a : α)
  | fail (w : World σ) (err : APIError)
  | panic (w : World σ) (msg : String)

/-- The world an outcome leaves. -/
def Outcome.world {σ α : Type} : Outcome σ α → World σ
  | .ok w _ => w
  | .fail w _ => w
  | .panic w _ => w

/-- The error an outcome returns, if it returns one. -/
def Outcome.error {σ α : Type} : Outcome σ α → Option APIError
  | .fail _ err => some err
  | _ => none

/-! ## `controllers/history.go`: the functions with store access -/

/-- Whether a map holds a key (`_, ok := m[key]`; a nil map holds none). -/
def hasLabel (labels : Option StringMap) (key : String) : Bool :=
  (labels.getD []).any (fun kv => kv.1 = key)

/-- The body of the loop of cleanupHistory: delete from the front while `toKill` is
positive; a delete that fails otherwise than by not-found ends the loop with its error. -/
def cleanupLoop {σ : Type} (c : Client σ) :
    World σ → Int → List ControllerRevision → Outcome σ Unit
  | w, _, [] => .ok w ()
  | w, toKill, history :: rest =>
    if toKill ≤ 0 then .ok w ()
    else
      match w.deleteRevision c history with
      | (w1, some err) =>
        if !IsNotFound err then .fail w1 err else cleanupLoop c w1 (toKill - 1) rest
      | (w1, none) => cleanupLoop c w1 (toKill - 1) rest

/-- cleanupHistory cleans up the history by the application's revisionHistoryLimit.
`sortFn` is `sort.Sort` on `historiesByRevision`. -/
def cleanupHistory {σ : Type} (sortFn : List ControllerRevision → List ControllerRevision)
    (c : Client σ) (w : World σ) (app : Application) (olds : List ControllerRevision) :
    Outcome σ Unit :=
  match app.Spec.RevisionHistoryLimit with
  | none => .panic w "invalid memory address or nil pointer dereference"
  | some limit =>
    let toKeep : Int := limit
    let toKill : Int := (olds.length : Int) - toKeep
    if toKill ≤ 0 then .ok w ()
    else cleanupLoop c w toKill (sortFn olds)

/-- The controller revision snapshot builds: its name is the name of the application and
the hash, its data the patch. -/
def newHistory (app : Application) (patch : String) (revision : Int) : ControllerRevision :=
  { Name := app.Name ++ "-" ++ ComputeHash app.Spec, Namespace := app.Namespace, UID := "",
    Generation := 0, ResourceVersion := "", DeletionTimestamp := none,
    Labels := CloneAndAddLabel app.Labels ControllerRevisionHashLabelKey (ComputeHash app.Spec),
    Annotations := app.Annotations,
    OwnerReferences := [NewControllerRef app],
    Data := patch, Revision := revision }

/-- snapshot creates a controller revision from the current application. -/
def snapshot {σ : Type} (c : Client σ) (w : World σ) (app : Application) (revision : Int) :
    Outcome σ ControllerRevision :=
  match getPatch app with
  | .error err => .fail w err
  | .ok patch =>
    let hash := ComputeHash app.Spec
    let name := app.Name ++ "-" ++ hash
    let history := newHistory app patch revision
    match w.createRevision c history with
    | (w1, .ok created) => .ok w1 created
    | (w1, .error outerErr) =>
      if IsAlreadyExists outerErr then
        match w1.getRevision c app.Namespace name with
        | (w2, .error getErr) => .fail w2 getErr
        | (w2, .ok existedHistory) =>
          match Match app existedHistory with
          | .error matchErr => .fail w2 matchErr
          | .ok done => if done then .ok w2 existedHistory else .fail w2 outerErr
      else .fail w1 outerErr

/-- One step of the first loop of dedupCurHistories, on the pair of `maxRevision` and
`keepCur`. -/
def keepStep (acc : Int × Option ControllerRevision) (cur : ControllerRevision) :
    Int × Option ControllerRevision :=
  if cur.Revision ≥ acc.1 then (cur.Revision, some cur) else acc

/-- The second loop of dedupCurHistories: delete every revision whose name is not the name
of `keepCur`. -/
def dedupLoop {σ : Type} (c : Client σ) (keepCur : Option ControllerRevision) :
    World σ → List ControllerRevision → Outcome σ Unit
  | w, [] => .ok w ()
  | w, cur :: rest =>
    match keepCur with
    | none => .panic w "invalid memory address or nil pointer dereference"
    | some keep =>
      if cur.Name = keep.Name then dedupLoop c keepCur w rest
      else
        match w.deleteRevision c cur with
        | (w1, some err) => .fail w1 err
        | (w1, none) => dedupLoop c keepCur w1 rest

/-- dedupCurHistories returns the max revision controller revision. -/
def dedupCurHistories {σ : Type} (c : Client σ) (w : World σ)
    (curHistories : List ControllerRevision) : Outcome σ (Option ControllerRevision) :=
  match curHistories with
  | [single] => .ok w (some single)
  | _ =>
    let keepCur := (curHistories.foldl keepStep (0, none)).2
    match dedupLoop c keepCur w curHistories with
    | .ok w1 _ => .ok w1 keepCur
    | .fail w1 err => .fail w1 err
    | .panic w1 msg => .panic w1 msg

/-- The first statement of the loop body of constructHistory: add the unique label if it
is not already added to the history. The write goes to a copy; the listed item stays as
it is. -/
def addUniqueLabel {σ : Type} (c : Client σ) (w : World σ) (history : ControllerRevision) :
    Outcome σ Unit :=
  if hasLabel history.Labels DefaultDaemonSetUniqueLabelKey then .ok w ()
  else
    match history.Labels with
    | none => .panic w "assignment to entry in nil map"
    | some labels =>
      let toUpdate : ControllerRevision :=
        { history with
          Labels := some (StringMap.set labels DefaultDaemonSetUniqueLabelKey history.Name) }
      match w.updateRevision c toUpdate with
      | (w1, some err) => .fail w1 err
      | (w1, none) => .ok w1 ()

/-- The loop of constructHistory over the listed revisions: add the unique label where it
is missing, then separate the current histories from the old ones. The result is the pair
`(olds, currentHistories)`. -/
def classifyLoop {σ : Type} (c : Client σ) (app : Application) :
    World σ → List ControllerRevision → List ControllerRevision → List ControllerRevision →
    Outcome σ (List ControllerRevision × List ControllerRevision)
  | w, [], olds, currentHistories => .ok w (olds, currentHistories)
  | w, history :: rest, olds, currentHistories =>
    match addUniqueLabel c w history with
    | .panic w1 msg => .panic w1 msg
    | .fail w1 err => .fail w1 err
    | .ok w1 _ =>
      match Match app history with
      | .error err => .fail w1 err
      | .ok found =>
        if found then classifyLoop c app w1 rest olds (currentHistories ++ [history])
        else classifyLoop c app w1 rest (olds ++ [history]) currentHistories

/-- constructHistory ensures the controller revision; it returns the current controller
revision and the history controller revisions. In the branch of one or more current
histories the revision found is bound to a new variable of the branch, and the variable
that is returned keeps its nil value. -/
def constructHistory {σ : Type} (c : Client σ) (w : World σ) (app : Application) :
    Outcome σ (Option ControllerRevision × List ControllerRevision) :=
  match w.listRevisions c app.Namespace with
  | (w1, .error err) => .fail w1 err
  | (w1, .ok items) =>
    match classifyLoop c app w1 items [] [] with
    | .panic w2 msg => .panic w2 msg
    | .fail w2 err => .fail w2 err
    | .ok w2 (olds, currentHistories) =>
      let currRevision := wrap64 (maxRevision olds + 1)
      match currentHistories with
      | [] =>
        match snapshot c w2 app currRevision with
        | .panic w3 msg => .panic w3 msg
        | .fail w3 err => .fail w3 err
        | .ok w3 cur => .ok w3 (some cur, olds)
      | _ :: _ =>
        match dedupCurHistories c w2 currentHistories with
        | .panic w3 msg => .panic w3 msg
        | .fail w3 err => .fail w3 err
        | .ok w3 none => .panic w3 "invalid memory address or nil pointer dereference"
        | .ok w3 (some cur) =>
          if cur.Revision < currRevision then
            let toUpdate : ControllerRevision := { cur with Revision := currRevision }
            match w3.updateRevision c toUpdate with
            | (w4, some err) => .fail w4 err
            | (w4, none) => .ok w4 (none, olds)
          else .ok w3 (none, olds)

/-- The revisions for which a delete was issued, in the order of the calls. -/
def deletedRevisions : List Event → List ControllerRevision
  | [] => []
  | Event.deleteRevision r _ :: rest => r :: deletedRevisions rest
  | _ :: rest => deletedRevisions rest

/-- The calls an outcome has added to the log of the world it started from. -/
def issued {σ α : Type} (w : World σ) (out : Outcome σ α) : List Event :=
  out.world.log.drop w.log.length

/-- Insert a revision after the revisions that are not greater. -/
def insertByRevision (r : ControllerRevision) : List ControllerRevision → List ControllerRevision
  | [] => [r]
  | x :: rest => if Less r x then r :: x :: rest else x :: insertByRevision r rest

/-- Insertion sort by `historiesByRevision.Less`: a sort that meets the contract of
`sort.Sort` (the result is a permutation, in an order in which no element is less than
one before it). -/
def sortByRevision (l : List ControllerRevision) : List ControllerRevision :=
  l.foldl (fun acc r => insertByRevision r acc) []

/-! ## `controllers/application_controller.go` -/

/-- The first loop of ensureResources: decode every template; a template that does not
decode adds its error and is skipped, for the others the namespace of the application and
the controller reference are set (both calls may leave the object as it is, and neither
result is looked at). The result is the pair `(resources, errs)`. -/
def decodeTemplates (app : Application) :
    List ResourceTemplate → List Unstructured → List APIError →
    List Unstructured × List APIError
  | [], resources, errs => (resources, errs)
  | template :: rest, resources, errs =>
    match UnmarshalJSON template.Raw with
    | .error err => decodeTemplates app rest resources (errs ++ [err])
    | .ok resource =>
      let resource := SetControllerReference app (SetNamespace resource app.Namespace)
      decodeTemplates app rest (resources ++ [resource]) errs

/-- The error ensureResources builds for a child that another resource controls. -/
def conflictError (applied : Unstructured) : APIError :=
  { Reason := .Other,
    Message := "the resource " ++ applied.Kind ++ "/" ++ applied.Name
      ++ " is controlled by other resource" }

/-- The second loop of ensureResources. The third argument holds the resources already
handled (as the calls left them), the fourth the errors so far. After a `Get` that reports
not-found and a `Create` that succeeds, control reaches the statement after the inner `if`,
which appends the error of the `Get`. -/
def ensureLoop {σ : Type} (c : Client σ) (app : Application) :
    World σ → List Unstructured → List Unstructured → List APIError →
    World σ × List Unstructured × List APIError
  | w, [], done, errs => (w, done, errs)
  | w, resource :: rest, done, errs =>
    match w.getResource c resource.Namespace resource.Name resource with
    | (w1, .error err) =>
      if IsNotFound err then
        match w1.createResource c resource with
        | (w2, .error createErr) =>
          ensureLoop c app w2 rest (done ++ [resource]) (errs ++ [createErr])
        | (w2, .ok created) =>
          ensureLoop c app w2 rest (done ++ [created]) (errs ++ [err])
      else ensureLoop c app w1 rest (done ++ [resource]) (errs ++ [err])
    | (w1, .ok applied) =>
      if !IsControlledBy applied.OwnerReferences app && applied.OwnerReferences.length > 0 then
        ensureLoop c app w1 rest (done ++ [resource]) (errs ++ [conflictError applied])
      else
        let resource := SetResourceVersion resource applied.ResourceVersion
        match w1.patchResource c resource with
        | (w2, .error patchErr) =>
          ensureLoop c app w2 rest (done ++ [resource]) (errs ++ [patchErr])
        | (w2, .ok patched) => ensureLoop c app w2 rest (done ++ [patched]) errs

/-- ensureResources reconciles the application's resources; it returns the resources and
the errors. -/
def ensureResources {σ : Type} (c : Client σ) (w : World σ) (app : Application) :
    World σ × List Unstructured × List APIError :=
  let decoded := decodeTemplates app app.Spec.Resources [] []
  ensureLoop c app w decoded.1 [] decoded.2

/-- resourceStatuses gets the status of the application's resources; an error of the
status interpreter `status` is appended to the errors. The result is the pair of the
statuses and the errors. -/
def resourceStatuses (status : Unstructured → String × Option APIError) :
    List Unstructured → List ResourceStatus → List APIError →
    List ResourceStatus × List APIError
  | [], statuses, errs => (statuses, errs)
  | resource :: rest, statuses, errs =>
    let resourceReference : ResourceReference :=
      { APIVersion := resource.APIVersion, Kind := resource.Kind,
        Namespace := resource.Namespace, Name := resource.Name,
        ResourceVersion := resource.ResourceVersion }
    let res := status resource
    let errs := match res.2 with
      | some err => errs ++ [err]
      | none => errs
    resourceStatuses status rest
      (statuses ++ [{ Resource := resourceReference, ComputedStatus := res.1, Status := none }])
      errs

/-- aggregateReady counts the statuses that are Ready and tells whether all are. -/
def aggregateReady (objectStatuses : List ResourceStatus) : Bool × Int :=
  let countReady : Int :=
    objectStatuses.foldl (fun n os => if os.ComputedStatus = StatusReady then n + 1 else n) 0
  if countReady = objectStatuses.length then (true, countReady) else (false, countReady)

/-- The value `utilerrors.NewAggregate` returns: nil for an empty list. -/
def NewAggregate (errlist : List APIError) : Option (List APIError) :=
  if errlist.isEmpty then none else some errlist

/-- The messages of an aggregate without repetitions, in the order of first occurrence. -/
def distinctMessages : List APIError → List String → List String
  | [], seen => seen
  | err :: rest, seen =>
    if seen.contains err.Message then distinctMessages rest seen
    else distinctMessages rest (seen ++ [err.Message])

/-- The text of `Error()` of an aggregate. -/
def aggregateMessage (agg : List APIError) : String :=
  match agg with
  | [] => ""
  | [err] => err.Message
  | _ =>
    match distinctMessages agg [] with
    | [msg] => msg
    | msgs => "[" ++ ", ".intercalate msgs ++ "]"

/-- Modelled from the spec: the helper that writes a condition is not among the sources.
Conditions are keyed by type: the condition of the type takes the status, reason and
message, and is added at the end when the type has no condition yet. -/
def setCondition (conditions : List Condition) (ctype : String) (status : ConditionStatus)
    (reason message : String) : List Condition :=
  if conditions.any (fun cond => cond.Typ = ctype) then
    conditions.map (fun cond =>
      if cond.Typ = ctype then
        { cond with Status := status, Reason := reason, Message := message }
      else cond)
  else conditions ++ [{ Typ := ctype, Status := status, Reason := reason, Message := message }]

/-- Modelled from the spec: setReadyCondition is not among the sources; it sets the
condition Ready to True. -/
def setReadyCondition (st : ApplicationStatus) (reason message : String) : ApplicationStatus :=
  { st with Conditions := setCondition st.Conditions Ready .True reason message }

/-- Modelled from the spec: setNotReadyCondition is not among the sources; it sets the
condition Ready to False. -/
def setNotReadyCondition (st : ApplicationStatus) (reason message : String) :
    ApplicationStatus :=
  { st with Conditions := setCondition st.Conditions Ready .False reason message }

/-- Modelled from the spec: setReadyUnknownCondition is not among the sources; it sets the
condition Ready to Unknown. -/
def setReadyUnknownCondition (st : ApplicationStatus) (reason message : String) :
    ApplicationStatus :=
  { st with Conditions := setCondition st.Conditions Ready .Unknown reason message }

/-- Modelled from the spec: setErrorCondition is not among the sources; it sets the
condition Error (to True) with the given text. -/
def setErrorCondition (st : ApplicationStatus) (reason message : String) : ApplicationStatus :=
  { st with Conditions := setCondition st.Conditions Error .True reason message }

/-- Modelled from the spec: clearErrorCondition is not among the sources; an Error
condition that is present takes the status False and keeps no text of an error, an absent
one stays absent. -/
def clearErrorCondition (st : ApplicationStatus) : ApplicationStatus :=
  if st.Conditions.any (fun cond => cond.Typ = Error) then
    { st with Conditions := setCondition st.Conditions Error .False "NoError" "No error seen" }
  else st

/-- getNewApplicationStatus gets the application status. `errList` is the list the caller
passes by pointer; the second component of the result is that list after the call. -/
def getNewApplicationStatus (status : Unstructured → String × Option APIError)
    (app : Application) (resources : List Unstructured) (errList : List APIError) :
    ApplicationStatus × List APIError :=
  let res := resourceStatuses status resources [] errList
  let objectStatuses := res.1
  let errs := NewAggregate res.2
  let agg := aggregateReady objectStatuses
  let aggReady := agg.1
  let countReady := agg.2
  let newApplicationStatus : ApplicationStatus :=
    { app.Status with
      ResourceStatuses := objectStatuses,
      ComponentsReady := toString countReady ++ "/" ++ toString objectStatuses.length }
  let newApplicationStatus :=
    match errs with
    | some _ =>
      setReadyUnknownCondition newApplicationStatus "ComponentsReadyUnknown"
        "failed to aggregate all components' statuses, check the Error condition for details"
    | none =>
      if aggReady then
        setReadyCondition newApplicationStatus "ComponentsReady" "all components ready"
      else
        setNotReadyCondition newApplicationStatus "ComponentsNotReady"
          (toString ((objectStatuses.length : Int) - countReady) ++ " components not ready")
  let newApplicationStatus :=
    match errs with
    | some agg => setErrorCondition newApplicationStatus "ErrorSeen" (aggregateMessage agg)
    | none => clearErrorCondition newApplicationStatus
  (newApplicationStatus, res.2)

/-- The function `retry.RetryOnConflict` runs in updateApplicationStatus: read the
application, put the status, write it; a conflict is tried again while attempts are left
(`retry.DefaultRetry` makes five). -/
def updateStatusRetry {σ : Type} (c : Client σ) (ns name : String) (status : ApplicationStatus) :
    Nat → World σ → World σ × Option APIError
  | 0, w => (w, some { Reason := .Other, Message := "timed out waiting for the condition" })
  | attempts + 1, w =>
    match w.getApplication c ns name with
    | (w1, .error err) =>
      if IsConflict err && attempts ≠ 0 then updateStatusRetry c ns name status attempts w1
      else (w1, some err)
    | (w1, .ok original) =>
      match w1.updateStatus c { original with Status := status } with
      | (w2, none) => (w2, none)
      | (w2, some err) =>
        if IsConflict err && attempts ≠ 0 then updateStatusRetry c ns name status attempts w2
        else (w2, some err)

/-- updateApplicationStatus updates the application status. -/
def updateApplicationStatus {σ : Type} (c : Client σ) (w : World σ) (ns name : String)
    (status : ApplicationStatus) : World σ × Option APIError :=
  match updateStatusRetry c ns name status 5 w with
  | (w1, some err) =>
    (w1, some { Reason := .Other,
                Message := "failed to update status of Application " ++ ns ++ "/" ++ name
                  ++ ": " ++ err.Message })
  | (w1, none) => (w1, none)

/-- The part of Reconcile before the clean-up of the history. The result `none` says that
Reconcile has returned a nil error (the application is gone, or is being deleted); the
result `some (app, olds)` holds the arguments of the call of cleanupHistory that follows.
The error of constructHistory is dropped: `olds` is then nil. -/
def reconcileApply {σ : Type} (status : Unstructured → String × Option APIError)
    (c : Client σ) (w : World σ) (ns name : String) :
    Outcome σ (Option (Application × List ControllerRevision)) :=
  match w.getApplication c ns name with
  | (w1, .error err) => if IsNotFound err then .ok w1 none else .fail w1 err
  | (w1, .ok app) =>
    if app.DeletionTimestamp.isSome then .ok w1 none
    else
      let history := constructHistory c w1 app
      match history with
      | .panic w2 msg => .panic w2 msg
      | _ =>
        let olds : List ControllerRevision :=
          match history with
          | .ok _ res => res.2
          | _ => []
        let applied := ensureResources c history.world app
        let computed := getNewApplicationStatus status app applied.2.1 applied.2.2
        let newApplicationStatus : ApplicationStatus :=
          { computed.1 with ObservedGeneration := app.Generation }
        if newApplicationStatus ≠ app.Status then
          match updateApplicationStatus c applied.1 ns name newApplicationStatus with
          | (w3, some err) => .fail w3 err
          | (w3, none) => .ok w3 (some (app, olds))
        else .ok applied.1 (some (app, olds))

/-- Reconcile moves the state of the cluster closer to the desired state. The outcome `ok`
is the return of a nil error. `sortFn` is `sort.Sort` on `historiesByRevision`, `status`
the status interpreter. -/
def Reconcile {σ : Type} (sortFn : List ControllerRevision → List ControllerRevision)
    (status : Unstructured → String × Option APIError) (c : Client σ) (w : World σ)
    (ns name : String) : Outcome σ Unit :=
  match reconcileApply status c w ns name with
  | .panic w1 msg => .panic w1 msg
  | .fail w1 err => .fail w1 err
  | .ok w1 none => .ok w1 ()
  | .ok w1 (some (app, olds)) =>
    match cleanupHistory sortFn c w1 app olds with
    | .panic w2 msg => .panic w2 msg
    | .fail w2 err =>
      .fail w2 { Reason := .Other,
                 Message := "failed to clean up revisions of Application: " ++ err.Message }
    | .ok w2 _ => .ok w2 ()

/-- The application with another list of resource templates. -/
def withResources (app : Application) (templates : List ResourceTemplate) : Application :=
  { app with Spec := { app.Spec with Resources := templates } }

/-! ## A store in memory, for examples -/

/-- The objects a store holds. -/
structure Store where
  apps : List Application
  revisions : List ControllerRevision
  resources : List Unstructured

/-- The error of a missing object. -/
def notFound (name : String) : APIError :=
  { Reason := .NotFound, Message := name ++ " not found" }

/-- Whether a revision has this namespace and name. -/
def isRevision (ns name : String) (r : ControllerRevision) : Bool :=
  r.Namespace = ns && r.Name = name

/-- Whether a resource has this kind, namespace and name. -/
def isResource (kind ns name : String) (u : Unstructured) : Bool :=
  u.Kind = kind && u.Namespace = ns && u.Name = name

/-- A client on a store in memory: `Get` and `Delete` of a missing object report
not-found, `Create` of a present object reports already-exists. -/
def memClient : Client Store where
  GetApplication := fun s ns name =>
    match s.apps.find? (fun a => a.Namespace = ns && a.Name = name) with
    | some app => .ok app
    | none => .error (notFound name)
  ListRevisions := fun s ns => .ok (s.revisions.filter (fun r => r.Namespace = ns))
  GetRevision := fun s ns name =>
    match s.revisions.find? (isRevision ns name) with
    | some r => .ok r
    | none => .error (notFound name)
  CreateRevision := fun s r =>
    if s.revisions.any (isRevision r.Namespace r.Name) then
      (s, .error { Reason := .AlreadyExists, Message := r.Name ++ " already exists" })
    else ({ s with revisions := s.revisions ++ [r] }, .ok r)
  UpdateRevision := fun s r =>
    if s.revisions.any (isRevision r.Namespace r.Name) then
      ({ s with revisions :=
          s.revisions.map (fun x => if isRevision r.Namespace r.Name x then r else x) }, none)
    else (s, some (notFound r.Name))
  DeleteRevision := fun s r =>
    if s.revisions.any (isRevision r.Namespace r.Name) then
      ({ s with revisions := s.revisions.filter (fun x => !isRevision r.Namespace r.Name x) },
        none)
    else (s, some (notFound r.Name))
  GetResource := fun s ns name obj =>
    match s.resources.find? (isResource obj.Kind ns name) with
    | some u => .ok u
    | none => .error (notFound name)
  CreateResource := fun s u =>
    if s.resources.any (isResource u.Kind u.Namespace u.Name) then
      (s, .error { Reason := .AlreadyExists, Message := u.Name ++ " already exists" })
    else ({ s with resources := s.resources ++ [u] }, .ok u)
  PatchResource := fun s u =>
    if s.resources.any (isResource u.Kind u.Namespace u.Name) then
      ({ s with resources :=
          s.resources.map (fun x => if isResource u.Kind u.Namespace u.Name x then u else x) },
        .ok u)
    else (s, .error (notFound u.Name))
  UpdateStatus := fun s app =>
    if s.apps.any (fun a => a.Namespace = app.Namespace && a.Name = app.Name) then
      ({ s with apps :=
          s.apps.map (fun a =>
            if a.Namespace = app.Namespace && a.Name = app.Name then
              { a with Status := app.Status }
            else a) }, none)
    else (s, some (notFound app.Name))

/-- The client whose every `Delete` of a revision fails with the given error. -/
def failingDelete {σ : Type} (c : Client σ) (err : APIError) : Client σ :=
  { c with DeleteRevision := fun s _ => (s, some err) }

/-- The world of a store on which no call has been issued. -/
def World.start {σ : Type} (s : σ) : World σ := { st := s, log := [] }

/-- An application with the given name, limit and templates, and nothing else. -/
def exampleApp (name : String) (limit : Option Int) (templates : List ResourceTemplate) :
    Application :=
  { Name := name, Namespace := "ns", UID := "uid-" ++ name, Generation := 1,
    ResourceVersion := "", DeletionTimestamp := none, Labels := none, Annotations := none,
    OwnerReferences := [],
    Spec := { Selector := none, Resources := templates,
              Descriptor := { Typ := "", Version := "", Description := "", Icons := [],
                              Maintainers := [], Owners := [], Keywords := [], Links := [],
                              Notes := "" },
              RevisionHistoryLimit := limit },
    Status := { ObservedGeneration := 0, Conditions := [], ResourceStatuses := [],
                ComponentsReady := "" } }

/-- A revision of the namespace of the examples, with the unique label. -/
def exampleRevision (name : String) (data : String) (revision : Int)
    (owners : List OwnerReference) : ControllerRevision :=
  { Name := name, Namespace := "ns", UID := "", Generation := 0, ResourceVersion := "",
    DeletionTimestamp := none, Labels := some [(ControllerRevisionHashLabelKey, name)],
    Annotations := none, OwnerReferences := owners, Data := data, Revision := revision }

/-- The document of a child resource of the given kind and name. -/
def exampleDocument (kind name : String) : JSON :=
  JSON.obj (JFields.cons "apiVersion" (JSON.str "v1")
    (JFields.cons "kind" (JSON.str kind)
      (JFields.cons "metadata" (JSON.obj (JFields.cons "name" (JSON.str name) JFields.nil))
        JFields.nil)))

/-- A status interpreter that finds every resource Ready. -/
def alwaysReady (_ : Unstructured) : String × Option APIError := (StatusReady, none)

/-- A store that holds one revision, of number 1. -/
def oneRevisionStore : Store :=
  { apps := [], revisions := [exampleRevision "r1" "" 1 []], resources := [] }

/-- The revisions 3, 1, 2, in this order. -/
def threeRevisions : List ControllerRevision :=
  [exampleRevision "r3" "" 3 [], exampleRevision "r1" "" 1 [], exampleRevision "r2" "" 2 []]

/-- A store that holds nothing. -/
def emptyStore : Store := { apps := [], revisions := [], resources := [] }

/-- An application with one template, the pod `a`. -/
def onePodApp : Application :=
  exampleApp "app" (some 10) [{ Raw := some (exampleDocument "Pod" "a") }]

/-- The conditions of a type in a status. -/
def conditionsOf (st : ApplicationStatus) (ctype : String) : List Condition :=
  st.Conditions.filter (fun cond => cond.Typ = ctype)

/-- The errors the status interpreter returns on a list of resources. -/
def interpreterErrors (status : Unstructured → String × Option APIError)
    (resources : List Unstructured) : List APIError :=
  resources.filterMap (fun resource => (status resource).2)

/-- The resource ensureResources makes of a decoded template: the namespace of the
application is set, then the controller reference. -/
def templateResource (app : Application) (u : Unstructured) : Unstructured :=
  SetControllerReference app (SetNamespace u app.Namespace)

/-- The second loop of ensureResources on a store state, with an empty log, no resource
handled and no error yet. -/
def ensureFrom {σ : Type} (c : Client σ) (app : Application) (s : σ)
    (resources : List Unstructured) : World σ × List Unstructured × List APIError :=
  ensureLoop c app (World.start s) resources [] []

/-- The resource as a `Patch` leaves it: the answer of the store, or the resource sent when
the call fails. -/
def patchedOr (sent : Unstructured) : Except APIError Unstructured → Unstructured
  | .ok patched => patched
  | .error _ => sent

/-- The resources the first loop of ensureResources makes of a template list. -/
def resourcesOf (app : Application) (templates : List ResourceTemplate) : List Unstructured :=
  (decodeTemplates app templates [] []).1

/-- The errors the first loop of ensureResources finds in a template list. -/
def decodeErrors (app : Application) (templates : List ResourceTemplate) : List APIError :=
  (decodeTemplates app templates [] []).2

/-- The template of a pod of the given name. -/
def podTemplate (name : String) : ResourceTemplate :=
  { Raw := some (exampleDocument "Pod" name) }

/-- The pod of a template as the store holds it, with the given owner references. -/
def storedPod (name : String) (owners : List OwnerReference) : Unstructured :=
  { APIVersion := "v1", Kind := "Pod", Namespace := "ns", Name := name, ResourceVersion := "7",
    OwnerReferences := owners, Object := JFields.nil }

/-- A controller reference to a deployment. -/
def deploymentRef : OwnerReference :=
  { APIVersion := "apps/v1", Kind := "Deployment", Name := "web", UID := "uid-web",
    Controller := some true, BlockOwnerDeletion := some true }

/-- A store in which the pod `b` exists and is controlled by a deployment. -/
def conflictStore : Store :=
  { apps := [], revisions := [], resources := [storedPod "b" [deploymentRef]] }

/-- A store in which the pod `b` exists and has no owner. -/
def orphanStore : Store :=
  { apps := [], revisions := [], resources := [storedPod "b" []] }

/-- The document of a pod as `UnmarshalJSON` decodes it. -/
def decodedPod (name : String) : Unstructured :=
  { APIVersion := "v1", Kind := "Pod", Namespace := "", Name := name, ResourceVersion := "",
    OwnerReferences := [],
    Object := JFields.cons "apiVersion" (JSON.str "v1")
      (JFields.cons "kind" (JSON.str "Pod")
        (JFields.cons "metadata" (JSON.obj (JFields.cons "name" (JSON.str name) JFields.nil))
          JFields.nil)) }

/-- An application without templates. -/
def bareApp : Application := exampleApp "app" (some 10) []

/-- Whether an outcome is a panic. -/
def Outcome.panicked {σ α : Type} : Outcome σ α → Bool
  | .panic _ _ => true
  | _ => false

/-- The result an outcome returns, if it returns one without error. -/
def Outcome.value {σ α : Type} : Outcome σ α → Option α
  | .ok _ a => some a
  | _ => none

/-- The revisions for which a create was issued, in the order of the calls. -/
def createdRevisions : List Event → List ControllerRevision
  | [] => []
  | Event.createRevision r _ :: rest => r :: createdRevisions rest
  | _ :: rest => createdRevisions rest

/-- A controller reference to a daemon set. -/
def daemonSetRef : OwnerReference :=
  { APIVersion := "apps/v1", Kind := "DaemonSet", Name := "ds", UID := "uid-ds",
    Controller := some true, BlockOwnerDeletion := some true }

/-- An application with retention limit 1 and no template. -/
def limitOneApp : Application := exampleApp "app" (some 1) []

/-- A store in which the namespace of the application holds two revisions of a daemon
set. -/
def sharedNamespaceStore : Store :=
  { apps := [limitOneApp],
    revisions := [exampleRevision "ds-1" "template-1" 1 [daemonSetRef],
                  exampleRevision "ds-2" "template-2" 2 [daemonSetRef]],
    resources := [] }

/-- An error that is not a not-found error. -/
def serverError : APIError := { Reason := .Other, Message := "internal error" }

/-- The application of the examples with another retention limit, other metadata and
another status. -/
def otherLimitApp : Application :=
  { exampleApp "other" (some 2) [] with
    Labels := some [("team", "a")],
    Status := { ObservedGeneration := 4, Conditions := [], ResourceStatuses := [],
                ComponentsReady := "0/0" } }

/-- The application of the examples with other metadata and another status, and the same
spec. -/
def relabelledApp : Application :=
  { limitOneApp with
    Name := "renamed", Labels := some [("team", "a")],
    Status := { ObservedGeneration := 4, Conditions := [], ResourceStatuses := [],
                ComponentsReady := "0/0" } }

/-- A store whose one revision has a negative revision number. -/
def negativeStore : Store :=
  { apps := [limitOneApp], revisions := [exampleRevision "old" "template-0" (-5) []],
    resources := [] }

/-- Four revisions with distinct names; two of them share the greatest number. -/
def duplicateRevisions : List ControllerRevision :=
  [exampleRevision "dup-a" "same" 2 [], exampleRevision "dup-b" "same" 5 [],
   exampleRevision "dup-c" "same" 5 [], exampleRevision "dup-d" "same" 1 []]

/-- A store that holds the four revisions. -/
def duplicateStore : Store :=
  { apps := [], revisions := duplicateRevisions, resources := [] }

/-- Two revisions with distinct names and negative numbers. -/
def negativeDuplicates : List ControllerRevision :=
  [exampleRevision "neg-a" "same" (-1) [], exampleRevision "neg-b" "same" (-2) []]

/-- Three duplicates as a `List` returned them. -/
def staleDuplicates : List ControllerRevision :=
  [exampleRevision "dup-a" "same" 1 [], exampleRevision "dup-b" "same" 2 [],
   exampleRevision "dup-c" "same" 3 []]

/-- A store from which the first of the three duplicates has been deleted since. -/
def staleStore : Store :=
  { apps := [],
    revisions := [exampleRevision "dup-b" "same" 2 [], exampleRevision "dup-c" "same" 3 []],
    resources := [] }

/-- The computed status `InProgress`. -/
def StatusInProgress : String := "InProgress"

/-- The computed status `Unknown`. -/
def StatusUnknown : String := "Unknown"

/-- Modelled from the spec: the status interpreter `status` is not among the sources. It
is pluggable per kind of resource: `interpret` derives the status (Ready, InProgress or
Unknown) of a document, or fails; a failure is returned as the error and contributes the
status Unknown for the child. -/
def status (interpret : Unstructured → Except APIError String) (resource : Unstructured) :
    String × Option APIError :=
  match interpret resource with
  | .ok computed => (computed, none)
  | .error err => (StatusUnknown, some err)

/-- The reference resourceStatuses builds for a resource. -/
def referenceOf (resource : Unstructured) : ResourceReference :=
  { APIVersion := resource.APIVersion, Kind := resource.Kind, Namespace := resource.Namespace,
    Name := resource.Name, ResourceVersion := resource.ResourceVersion }

/-- The text getPatch returns for the application with retention limit 1 and no
template. -/
def limitOnePatch : String :=
  "\x7b\"$patch\":\"replace\",\"spec\":\x7b\"descriptor\":\x7b\x7d,\"revisionHistoryLimit\":1\x7d\x7d"

/-- A store that holds one revision, which the application owns and which matches its
spec. -/
def matchingStore : Store :=
  { apps := [limitOneApp],
    revisions := [exampleRevision "app-1" limitOnePatch 1 [NewControllerRef limitOneApp]],
    resources := [] }

/-- A store that holds the revisions 3, 1, 2. -/
def threeRevisionStore : Store :=
  { apps := [], revisions := threeRevisions, resources := [] }

/-- The document of the pod `a` with the fields `kind` and `apiVersion` in the other
order. -/
def reorderedDocument : JSON :=
  JSON.obj (JFields.cons "kind" (JSON.str "Pod")
    (JFields.cons "apiVersion" (JSON.str "v1")
      (JFields.cons "metadata" (JSON.obj (JFields.cons "name" (JSON.str "a") JFields.nil))
        JFields.nil)))

/-- The application whose one template is the document with the fields reordered. -/
def reorderedPodApp : Application :=
  exampleApp "app" (some 10) [{ Raw := some reorderedDocument }]

/-- A document with numbers that `float64` does not hold exactly, or that `json.Marshal`
writes with an exponent. -/
def bigNumberDocument : JSON :=
  JSON.obj (JFields.cons "apiVersion" (JSON.str "v1")
    (JFields.cons "kind" (JSON.str "ConfigMap")
      (JFields.cons "a" (JSON.num ⟨9007199254740993, by decide⟩)
        (JFields.cons "b" (JSON.num ⟨1000000000000000000000, by decide⟩)
          (JFields.cons "c" (JSON.num ⟨-18446744073709551616, by decide⟩) JFields.nil)))))

/-- The application whose one template is the document with these numbers. -/
def bigNumberApp : Application :=
  exampleApp "app" (some 10) [{ Raw := some bigNumberDocument }]

/-- The document of a pod whose `metadata` is a string. -/
def stringMetadataDocument : JSON :=
  JSON.obj (JFields.cons "apiVersion" (JSON.str "v1")
    (JFields.cons "kind" (JSON.str "Pod")
      (JFields.cons "metadata" (JSON.str "a") JFields.nil)))

/-- The document of a pod whose `apiVersion` has two slashes. -/
def badVersionDocument : JSON :=
  JSON.obj (JFields.cons "apiVersion" (JSON.str "a/b/c")
    (JFields.cons "kind" (JSON.str "Pod") JFields.nil))

/-! ## Theorems -/

/-! ### cleanupHistory -/

theorem deletedRevisions_append (a b : List Event) :
    deletedRevisions (a ++ b) = deletedRevisions a ++ deletedRevisions b := by
  induction a with
  | nil => rfl
  | cons e rest ih => cases e <;> simp [deletedRevisions, ih]

/-- The calls of the loop of cleanupHistory are deletes; when each of them succeeds or
reports not-found, the loop returns nil and has deleted the first `toKill` revisions. -/
theorem cleanupLoop_trace {σ : Type} (c : Client σ) (l : List ControllerRevision) :
    ∀ (w : World σ) (toKill : Int), ∃ evs,
      (cleanupLoop c w toKill l).world.log = w.log ++ evs ∧
      (∀ e ∈ evs, ∃ r err, e = Event.deleteRevision r err) ∧
      ((∀ r err, Event.deleteRevision r (some err) ∈ evs → IsNotFound err = true) →
        cleanupLoop c w toKill l = .ok (cleanupLoop c w toKill l).world () ∧
        deletedRevisions evs = l.take toKill.toNat) := by
  induction l with
  | nil =>
    intro w toKill
    exact ⟨[], by simp [cleanupLoop, Outcome.world], by simp,
      fun _ => by simp [cleanupLoop, Outcome.world, deletedRevisions]⟩
  | cons history rest ih =>
    intro w toKill
    by_cases hk : toKill ≤ 0
    · refine ⟨[], by simp [cleanupLoop, hk, Outcome.world], by simp, fun _ => ?_⟩
      have : toKill.toNat = 0 := by omega
      simp [cleanupLoop, hk, Outcome.world, deletedRevisions, this]
    · have hk1 : (toKill - 1).toNat + 1 = toKill.toNat := by omega
      obtain ⟨evs, hlog, hdel, hok⟩ := ih (w.deleteRevision c history).1 (toKill - 1)
      cases herr : (c.DeleteRevision w.st history).2 with
      | none =>
        have hstep : cleanupLoop c w toKill (history :: rest)
            = cleanupLoop c (w.deleteRevision c history).1 (toKill - 1) rest := by
          simp [cleanupLoop, hk, World.deleteRevision, herr]
        refine ⟨Event.deleteRevision history none :: evs, ?_, ?_, ?_⟩
        · rw [hstep, hlog]; simp [World.deleteRevision, herr]
        · intro e he
          rcases List.mem_cons.mp he with h | h
          · exact ⟨_, _, h⟩
          · exact hdel e h
        · intro hnf
          have := hok (fun r err h => hnf r err (List.mem_cons_of_mem _ h))
          rw [hstep]
          refine ⟨this.1, ?_⟩
          rw [← hk1, List.take_succ_cons, ← this.2]; rfl
      | some err =>
        by_cases hnf : IsNotFound err = true
        · have hstep : cleanupLoop c w toKill (history :: rest)
              = cleanupLoop c (w.deleteRevision c history).1 (toKill - 1) rest := by
            simp [cleanupLoop, hk, World.deleteRevision, herr, hnf]
          refine ⟨Event.deleteRevision history (some err) :: evs, ?_, ?_, ?_⟩
          · rw [hstep, hlog]; simp [World.deleteRevision, herr]
          · intro e he
            rcases List.mem_cons.mp he with h | h
            · exact ⟨_, _, h⟩
            · exact hdel e h
          · intro hnf2
            have := hok (fun r err h => hnf2 r err (List.mem_cons_of_mem _ h))
            rw [hstep]
            refine ⟨this.1, ?_⟩
            rw [← hk1, List.take_succ_cons, ← this.2]; rfl
        · have hstep : cleanupLoop c w toKill (history :: rest)
              = .fail (w.deleteRevision c history).1 err := by
            simp [cleanupLoop, hk, World.deleteRevision, herr, hnf]
          refine ⟨[Event.deleteRevision history (some err)], ?_, ?_, ?_⟩
          · rw [hstep]; simp [World.deleteRevision, herr, Outcome.world]
          · intro e he
            exact ⟨_, _, List.mem_singleton.mp he⟩
          · intro hnf2
            exact absurd (hnf2 history err (List.mem_singleton.mpr rfl)) hnf

/-- C1: for a retention limit `L ≥ 0` and a sort that meets the contract of `sort.Sort`
(a permutation in which no revision is less than one before it), when every delete that
cleanupHistory issues succeeds or reports not-found, cleanupHistory returns nil; the calls
it issues are deletes, of `max 0 (len olds - L)` revisions of `olds`; the revisions left
number `min (len olds) L`; each of them has a revision number at least that of every
deleted one; and when `len olds ≤ L` the world is left as it was (no call is issued). -/
theorem cleanupHistory_retention {σ : Type}
    (sortFn : List ControllerRevision → List ControllerRevision) (c : Client σ) (w : World σ)
    (app : Application) (olds : List ControllerRevision) (L : Int)
    (hlimit : app.Spec.RevisionHistoryLimit = some L) (hL : 0 ≤ L)
    (hperm : (sortFn olds).Perm olds)
    (hsorted : (sortFn olds).Pairwise (fun a b => Less b a = false))
    (hdel : ∀ r err, Event.deleteRevision r (some err)
        ∈ issued w (cleanupHistory sortFn c w app olds) → IsNotFound err = true) :
    ∃ w' evs deleted kept,
      cleanupHistory sortFn c w app olds = .ok w' () ∧
      w'.log = w.log ++ evs ∧
      (∀ e ∈ evs, ∃ r err, e = Event.deleteRevision r err) ∧
      deletedRevisions evs = deleted ∧
      (deleted ++ kept).Perm olds ∧
      (deleted.length : Int) = max 0 ((olds.length : Int) - L) ∧
      (kept.length : Int) = min (olds.length : Int) L ∧
      (∀ d ∈ deleted, ∀ k ∈ kept, d.Revision ≤ k.Revision) ∧
      ((olds.length : Int) ≤ L → w' = w) := by
  by_cases hk : (olds.length : Int) - L ≤ 0
  · refine ⟨w, [], [], olds, ?_, by simp, by simp, rfl, by simp, ?_, ?_, by simp, fun _ => rfl⟩
    · simp [cleanupHistory, hlimit, hk]
    · simp; omega
    · simp; omega
  · have hrun : cleanupHistory sortFn c w app olds
        = cleanupLoop c w ((olds.length : Int) - L) (sortFn olds) := by
      simp [cleanupHistory, hlimit, hk]
    obtain ⟨evs, hlog, hform, hok⟩ :=
      cleanupLoop_trace c (sortFn olds) w ((olds.length : Int) - L)
    have hissued : issued w (cleanupHistory sortFn c w app olds) = evs := by
      simp [issued, hrun, hlog]
    rw [hissued] at hdel
    obtain ⟨hres, hdeleted⟩ := hok hdel
    have hlen : (sortFn olds).length = olds.length := hperm.length_eq
    refine ⟨(cleanupLoop c w ((olds.length : Int) - L) (sortFn olds)).world, evs,
      (sortFn olds).take ((olds.length : Int) - L).toNat,
      (sortFn olds).drop ((olds.length : Int) - L).toNat,
      ?_, hlog, hform, hdeleted, ?_, ?_, ?_, ?_, ?_⟩
    · rw [hrun]; exact hres
    · rw [List.take_append_drop]; exact hperm
    · simp [hlen]; omega
    · simp [hlen]; omega
    · intro d hd k hk'
      have hp : ((sortFn olds).take ((olds.length : Int) - L).toNat
          ++ (sortFn olds).drop ((olds.length : Int) - L).toNat).Pairwise
          (fun a b => Less b a = false) := by
        rw [List.take_append_drop]; exact hsorted
      have := (List.pairwise_append.mp hp).2.2 d hd k hk'
      simpa [Less] using this
    · intro h; omega

/-- The instance of C1 for limit 1 and the revisions 3, 1, 2, of which only revision 1 is
still in the store: revisions 1 and 2 are deleted (the second delete reports not-found),
revision 3 is left. -/
theorem cleanupHistory_retention_witness :
    ∃ w' evs deleted kept,
      cleanupHistory sortByRevision memClient (World.start oneRevisionStore)
          (exampleApp "app" (some 1) []) threeRevisions = .ok w' () ∧
      w'.log = (World.start oneRevisionStore).log ++ evs ∧
      (∀ e ∈ evs, ∃ r err, e = Event.deleteRevision r err) ∧
      deletedRevisions evs = deleted ∧
      (deleted ++ kept).Perm threeRevisions ∧
      (deleted.length : Int) = max 0 ((threeRevisions.length : Int) - 1) ∧
      (kept.length : Int) = min (threeRevisions.length : Int) 1 ∧
      (∀ d ∈ deleted, ∀ k ∈ kept, d.Revision ≤ k.Revision) ∧
      ((threeRevisions.length : Int) ≤ 1 → w' = World.start oneRevisionStore) :=
  cleanupHistory_retention sortByRevision memClient (World.start oneRevisionStore)
    (exampleApp "app" (some 1) []) threeRevisions 1 rfl (by decide) (by decide) (by decide)
    (by
      intro r err h
      have hl : issued (World.start oneRevisionStore)
          (cleanupHistory sortByRevision memClient (World.start oneRevisionStore)
            (exampleApp "app" (some 1) []) threeRevisions)
          = [Event.deleteRevision (exampleRevision "r1" "" 1 []) none,
             Event.deleteRevision (exampleRevision "r2" "" 2 []) (some (notFound "r2"))] := by
        decide
      rw [hl] at h
      simp at h
      rw [h.2]
      decide)

/-! ### ensureResources: a child that is created -/

/-- C2 (the code at the failing input): the application has one template, the pod `a`, the
store is empty. The lookup reports not-found and the create succeeds (the pod is in the
store afterwards), and the error list ensureResources returns holds the not-found error
of the lookup. -/
theorem ensureResources_created_child_keeps_lookup_error :
    (ensureResources memClient (World.start emptyStore) onePodApp).2.2 = [notFound "a"] ∧
    IsNotFound (notFound "a") = true ∧
    (ensureResources memClient (World.start emptyStore) onePodApp).1.log
      = (decodeTemplates onePodApp onePodApp.Spec.Resources [] []).1.flatMap (fun r =>
          [Event.getResource "ns" "a" r (some (notFound "a")), Event.createResource r none]) ∧
    (ensureResources memClient (World.start emptyStore) onePodApp).1.st.resources
      = (decodeTemplates onePodApp onePodApp.Spec.Resources [] []).1 ∧
    ((decodeTemplates onePodApp onePodApp.Spec.Resources [] []).1.map (fun r => r.Name))
      = ["a"] := by
  decide

/-! ### getNewApplicationStatus: the Ready condition -/

theorem setCondition_filter_other (cs : List Condition) (t t' : String) (s : ConditionStatus)
    (r m : String) (h : t ≠ t') :
    (setCondition cs t' s r m).filter (fun cond => cond.Typ = t)
      = cs.filter (fun cond => cond.Typ = t) := by
  unfold setCondition
  split
  · clear * - h
    induction cs with
    | nil => rfl
    | cons c rest ih =>
      by_cases hc : c.Typ = t'
      · have hne : ¬ c.Typ = t := fun e => h (e.symm.trans hc)
        have hne' : ¬ t' = t := fun e => h e.symm
        simp [List.filter_cons, hc, hne', ih]
      · simp [List.filter_cons, hc, ih]
  · simp [List.filter_append, List.filter_cons, Ne.symm h]

theorem setCondition_filter_same (cs : List Condition) (t : String) (s : ConditionStatus)
    (r m : String) :
    (setCondition cs t s r m).filter (fun cond => cond.Typ = t) ≠ [] ∧
    ∀ cond ∈ (setCondition cs t s r m).filter (fun cond => cond.Typ = t),
      cond.Status = s ∧ cond.Reason = r ∧ cond.Message = m := by
  unfold setCondition
  split
  · rename_i hany
    constructor
    · obtain ⟨c, hc, ht⟩ := List.any_eq_true.mp hany
      intro hnil
      have hmem : ({ c with Status := s, Reason := r, Message := m } : Condition)
          ∈ (cs.map (fun cond => if cond.Typ = t then
              { cond with Status := s, Reason := r, Message := m } else cond)).filter
              (fun cond => cond.Typ = t) := by
        rw [List.mem_filter]
        refine ⟨List.mem_map.mpr ⟨c, hc, ?_⟩, ?_⟩
        · simp at ht; simp [ht]
        · simpa using ht
      rw [hnil] at hmem
      exact absurd hmem (List.not_mem_nil _)
    · intro cond hcond
      rw [List.mem_filter] at hcond
      obtain ⟨c, _, hc⟩ := List.mem_map.mp hcond.1
      have ht : cond.Typ = t := by simpa using hcond.2
      by_cases hct : c.Typ = t
      · simp [hct] at hc; subst hc; simp
      · simp [hct] at hc; subst hc; exact absurd ht hct
  · rename_i hany
    have hnone : cs.filter (fun cond => cond.Typ = t) = [] := by
      rw [List.filter_eq_nil_iff]
      intro c hc ht
      exact hany (List.any_eq_true.mpr ⟨c, hc, ht⟩)
    simp [List.filter_append, hnone, List.filter_cons]

theorem resourceStatuses_errors (status : Unstructured → String × Option APIError)
    (resources : List Unstructured) :
    ∀ (statuses : List ResourceStatus) (errs : List APIError),
      (resourceStatuses status resources statuses errs).2
        = errs ++ interpreterErrors status resources := by
  induction resources with
  | nil => intro statuses errs; simp [resourceStatuses, interpreterErrors]
  | cons r rest ih =>
    intro statuses errs
    cases h : (status r).2 with
    | none => simp [resourceStatuses, interpreterErrors, h, ih, List.filterMap_cons]
    | some e => simp [resourceStatuses, interpreterErrors, h, ih, List.filterMap_cons]

theorem conditionsOf_setErrorCondition (st : ApplicationStatus) (r m : String) :
    conditionsOf (setErrorCondition st r m) Ready = conditionsOf st Ready := by
  unfold conditionsOf setErrorCondition
  exact setCondition_filter_other st.Conditions Ready Error .True r m (by decide)

theorem conditionsOf_clearErrorCondition (st : ApplicationStatus) :
    conditionsOf (clearErrorCondition st) Ready = conditionsOf st Ready := by
  unfold clearErrorCondition
  split
  · unfold conditionsOf
    exact setCondition_filter_other st.Conditions Ready Error .False _ _ (by decide)
  · rfl

theorem countReady_foldl (l : List ResourceStatus) :
    ∀ n : Int,
      l.foldl (fun n os => if os.ComputedStatus = StatusReady then n + 1 else n) n
        = n + ((l.filter (fun os => os.ComputedStatus = StatusReady)).length : Int) := by
  induction l with
  | nil => intro n; simp
  | cons os rest ih =>
    intro n
    by_cases h : os.ComputedStatus = StatusReady
    · simp [List.foldl_cons, List.filter_cons, h, ih]; omega
    · simp [List.foldl_cons, List.filter_cons, h, ih]

/-- The count aggregateReady returns is the number of statuses that are Ready, and its
flag tells whether all are. -/
theorem aggregateReady_spec (l : List ResourceStatus) :
    (aggregateReady l).2 = ((l.filter (fun os => os.ComputedStatus = StatusReady)).length : Int) ∧
    ((aggregateReady l).1 = true ↔ ∀ os ∈ l, os.ComputedStatus = StatusReady) := by
  have hc := countReady_foldl l 0
  simp only [zero_add] at hc
  have hle : (l.filter (fun os => os.ComputedStatus = StatusReady)).length ≤ l.length :=
    List.length_filter_le _ _
  have hall : (l.filter (fun os => os.ComputedStatus = StatusReady)).length = l.length
      ↔ ∀ os ∈ l, os.ComputedStatus = StatusReady := by
    rw [List.filter_length_eq_length]
    simp
  unfold aggregateReady
  simp only [hc]
  split
  · rename_i heq
    refine ⟨rfl, ?_⟩
    simp only [true_iff]
    exact hall.mp (by exact_mod_cast heq)
  · rename_i hne
    refine ⟨rfl, ?_⟩
    simp only [Bool.false_eq_true, false_iff]
    intro h
    exact hne (by exact_mod_cast hall.mpr h)

/-- C3 (as amended): the error list after the call is the list passed in (the apply
errors) followed by the errors of the status interpreter. There is a Ready condition.
When that list is not empty the Ready condition is Unknown, with reason
ComponentsReadyUnknown, whatever the ready count; when it is empty the Ready condition is
True if every computed status is Ready, and else False, with reason ComponentsNotReady and
a message that gives the number of statuses that are not Ready. -/
theorem getNewApplicationStatus_ready_condition
    (status : Unstructured → String × Option APIError) (app : Application)
    (resources : List Unstructured) (errList : List APIError) :
    (getNewApplicationStatus status app resources errList).2
      = errList ++ interpreterErrors status resources ∧
    conditionsOf (getNewApplicationStatus status app resources errList).1 Ready ≠ [] ∧
    ((getNewApplicationStatus status app resources errList).2 ≠ [] →
      ∀ cond ∈ conditionsOf (getNewApplicationStatus status app resources errList).1 Ready,
        cond.Status = ConditionStatus.Unknown ∧ cond.Reason = "ComponentsReadyUnknown") ∧
    ((getNewApplicationStatus status app resources errList).2 = [] →
      (∀ os ∈ (getNewApplicationStatus status app resources errList).1.ResourceStatuses,
        os.ComputedStatus = StatusReady) →
      ∀ cond ∈ conditionsOf (getNewApplicationStatus status app resources errList).1 Ready,
        cond.Status = ConditionStatus.True) ∧
    ((getNewApplicationStatus status app resources errList).2 = [] →
      ¬ (∀ os ∈ (getNewApplicationStatus status app resources errList).1.ResourceStatuses,
        os.ComputedStatus = StatusReady) →
      ∀ cond ∈ conditionsOf (getNewApplicationStatus status app resources errList).1 Ready,
        cond.Status = ConditionStatus.False ∧ cond.Reason = "ComponentsNotReady" ∧
        cond.Message = toString
          (((getNewApplicationStatus status app resources errList).1.ResourceStatuses.length : Int)
            - (((getNewApplicationStatus status app resources errList).1.ResourceStatuses.filter
                (fun os => os.ComputedStatus = StatusReady)).length : Int))
          ++ " components not ready") := by
  have herrs := resourceStatuses_errors status resources [] errList
  have hagg := aggregateReady_spec (resourceStatuses status resources [] errList).1
  cases hres : (resourceStatuses status resources [] errList).2 with
  | nil =>
    have hstat : (getNewApplicationStatus status app resources errList).1.ResourceStatuses
        = (resourceStatuses status resources [] errList).1 := by
      simp only [getNewApplicationStatus, hres, NewAggregate, List.isEmpty_nil, if_true]
      split <;> (unfold clearErrorCondition; split <;> rfl)
    by_cases hall : (aggregateReady (resourceStatuses status resources [] errList).1).1 = true
    · have hcond : conditionsOf (getNewApplicationStatus status app resources errList).1 Ready
          = (setCondition app.Status.Conditions Ready .True "ComponentsReady"
              "all components ready").filter (fun cond => cond.Typ = Ready) := by
        simp only [getNewApplicationStatus, hres, NewAggregate, List.isEmpty_nil, if_true, hall]
        rw [conditionsOf_clearErrorCondition]
        rfl
      have hsame := setCondition_filter_same app.Status.Conditions Ready .True
        "ComponentsReady" "all components ready"
      refine ⟨by rw [← herrs]; simp [getNewApplicationStatus], ?_, ?_, ?_, ?_⟩
      · rw [hcond]; exact hsame.1
      · intro hne; exact absurd (by simp [getNewApplicationStatus, hres]) hne
      · intro _ _ cond hc
        rw [hcond] at hc
        exact (hsame.2 cond hc).1
      · intro _ hnot
        rw [hstat] at hnot
        exact absurd (hagg.2.mp hall) hnot
    · have hcond : conditionsOf (getNewApplicationStatus status app resources errList).1 Ready
          = (setCondition app.Status.Conditions Ready .False "ComponentsNotReady"
              (toString (((resourceStatuses status resources [] errList).1.length : Int)
                - (aggregateReady (resourceStatuses status resources [] errList).1).2)
                ++ " components not ready")).filter (fun cond => cond.Typ = Ready) := by
        simp only [getNewApplicationStatus, hres, NewAggregate, List.isEmpty_nil, if_true, hall]
        rw [conditionsOf_clearErrorCondition]
        rfl
      have hsame := setCondition_filter_same app.Status.Conditions Ready .False
        "ComponentsNotReady"
        (toString (((resourceStatuses status resources [] errList).1.length : Int)
          - (aggregateReady (resourceStatuses status resources [] errList).1).2)
          ++ " components not ready")
      refine ⟨by rw [← herrs]; simp [getNewApplicationStatus], ?_, ?_, ?_, ?_⟩
      · rw [hcond]; exact hsame.1
      · intro hne; exact absurd (by simp [getNewApplicationStatus, hres]) hne
      · intro _ hyes
        rw [hstat] at hyes
        exact absurd (hagg.2.mpr hyes) hall
      · intro _ _ cond hc
        rw [hcond] at hc
        obtain ⟨h1, h2, h3⟩ := hsame.2 cond hc
        refine ⟨h1, h2, ?_⟩
        rw [h3, hstat, hagg.1]
  | cons e rest =>
    have hcond : conditionsOf (getNewApplicationStatus status app resources errList).1 Ready
        = (setCondition app.Status.Conditions Ready .Unknown "ComponentsReadyUnknown"
            "failed to aggregate all components' statuses, check the Error condition for details").filter
            (fun cond => cond.Typ = Ready) := by
      simp only [getNewApplicationStatus, hres, NewAggregate, List.isEmpty_cons,
        Bool.false_eq_true, if_false]
      rw [conditionsOf_setErrorCondition]
      rfl
    have hsame := setCondition_filter_same app.Status.Conditions Ready .Unknown
      "ComponentsReadyUnknown"
      "failed to aggregate all components' statuses, check the Error condition for details"
    refine ⟨by rw [← herrs]; simp [getNewApplicationStatus], ?_, ?_, ?_, ?_⟩
    · rw [hcond]; exact hsame.1
    · intro _ cond hc
      rw [hcond] at hc
      exact ⟨(hsame.2 cond hc).1, (hsame.2 cond hc).2.1⟩
    · intro hnil; exact absurd hnil (by simp [getNewApplicationStatus, hres])
    · intro hnil; exact absurd hnil (by simp [getNewApplicationStatus, hres])

/-- C3 (counterexample): the status interpreter returns no error and finds the one child
Ready, and the list of apply errors holds one error; the Ready condition is Unknown, not
True. -/
theorem ready_unknown_without_interpreter_error :
    interpreterErrors alwaysReady (decodeTemplates onePodApp onePodApp.Spec.Resources [] []).1
      = [] ∧
    (∀ os ∈ (getNewApplicationStatus alwaysReady onePodApp
        (decodeTemplates onePodApp onePodApp.Spec.Resources [] []).1
        [notFound "a"]).1.ResourceStatuses, os.ComputedStatus = StatusReady) ∧
    (getNewApplicationStatus alwaysReady onePodApp
        (decodeTemplates onePodApp onePodApp.Spec.Resources [] []).1
        [notFound "a"]).1.ComponentsReady = "1/1" ∧
    (conditionsOf (getNewApplicationStatus alwaysReady onePodApp
        (decodeTemplates onePodApp onePodApp.Spec.Resources [] []).1
        [notFound "a"]).1 Ready).map (fun cond => cond.Status) = [ConditionStatus.Unknown] := by
  decide

/-! ### ensureResources: a child that another controller owns -/

theorem decodeTemplates_acc (app : Application) (ts : List ResourceTemplate) :
    ∀ (rs : List Unstructured) (es : List APIError),
      decodeTemplates app ts rs es
        = (rs ++ (decodeTemplates app ts [] []).1, es ++ (decodeTemplates app ts [] []).2) := by
  induction ts with
  | nil => intro rs es; simp [decodeTemplates]
  | cons t rest ih =>
    intro rs es
    cases h : UnmarshalJSON t.Raw with
    | error e =>
      simp only [decodeTemplates, h]
      rw [ih rs (es ++ [e]), ih [] ([] ++ [e])]
      simp
    | ok u =>
      simp only [decodeTemplates, h]
      rw [ih (rs ++ _) es, ih ([] ++ _) []]
      simp

theorem decodeTemplates_append_acc (app : Application) (a b : List ResourceTemplate) :
    ∀ (rs : List Unstructured) (es : List APIError),
      decodeTemplates app (a ++ b) rs es
        = decodeTemplates app b (decodeTemplates app a rs es).1 (decodeTemplates app a rs es).2 := by
  induction a with
  | nil => intro rs es; rfl
  | cons t rest ih =>
    intro rs es
    cases h : UnmarshalJSON t.Raw with
    | error e => simp only [List.cons_append, decodeTemplates, h]; exact ih _ _
    | ok u => simp only [List.cons_append, decodeTemplates, h]; exact ih _ _

theorem decodeTemplates_append (app : Application) (a b : List ResourceTemplate) :
    decodeTemplates app (a ++ b) [] []
      = ((decodeTemplates app a [] []).1 ++ (decodeTemplates app b [] []).1,
         (decodeTemplates app a [] []).2 ++ (decodeTemplates app b [] []).2) := by
  rw [decodeTemplates_append_acc, decodeTemplates_acc app b]

theorem decodeTemplates_cons_ok (app : Application) (t : ResourceTemplate)
    (rest : List ResourceTemplate) (u : Unstructured) (h : UnmarshalJSON t.Raw = .ok u) :
    decodeTemplates app (t :: rest) [] []
      = (templateResource app u :: (decodeTemplates app rest [] []).1,
         (decodeTemplates app rest [] []).2) := by
  simp only [decodeTemplates, h]
  rw [decodeTemplates_acc app rest]
  simp [templateResource]

theorem decodeTemplates_withResources (app : Application) (ts : List ResourceTemplate)
    (l : List ResourceTemplate) :
    ∀ (rs : List Unstructured) (es : List APIError),
      decodeTemplates (withResources app ts) l rs es = decodeTemplates app l rs es := by
  induction l with
  | nil => intro rs es; rfl
  | cons t rest ih =>
    intro rs es
    cases h : UnmarshalJSON t.Raw with
    | error e => simp only [decodeTemplates, h, ih]
    | ok u => simp only [decodeTemplates, h, ih]; rfl

theorem ensureLoop_withResources {σ : Type} (c : Client σ) (app : Application)
    (ts : List ResourceTemplate) (l : List Unstructured) :
    ∀ (w : World σ) (done : List Unstructured) (errs : List APIError),
      ensureLoop c (withResources app ts) w l done errs = ensureLoop c app w l done errs := by
  induction l with
  | nil => intro w done errs; rfl
  | cons r rest ih =>
    intro w done errs
    have hc : ∀ refs, IsControlledBy refs (withResources app ts) = IsControlledBy refs app :=
      fun _ => rfl
    simp only [ensureLoop, ih, hc]

/-- The loop of ensureResources adds to the log, to the resources handled and to the
errors; what it adds depends on the store state it starts from only. -/
theorem ensureLoop_frame {σ : Type} (c : Client σ) (app : Application)
    (l : List Unstructured) :
    ∀ (w : World σ) (done : List Unstructured) (errs : List APIError),
      ensureLoop c app w l done errs
        = ({ st := (ensureFrom c app w.st l).1.st, log := w.log ++ (ensureFrom c app w.st l).1.log },
           done ++ (ensureFrom c app w.st l).2.1, errs ++ (ensureFrom c app w.st l).2.2) := by
  induction l with
  | nil => intro w done errs; simp [ensureLoop, ensureFrom, World.start]
  | cons r rest ih =>
    intro w done errs
    unfold ensureFrom
    simp only [ensureLoop, World.getResource, World.createResource, World.patchResource,
      World.start]
    cases hget : c.GetResource w.st r.Namespace r.Name r with
    | error err =>
      by_cases hnf : IsNotFound err = true
      · cases hcr : (c.CreateResource w.st r).2 with
        | error cerr =>
          simp only [hnf, hcr, if_true]
          simp only [ih]
          simp [errorOf, List.append_assoc]
        | ok created =>
          simp only [hnf, hcr, if_true]
          simp only [ih]
          simp [errorOf, List.append_assoc]
      · simp only [hnf, if_false, ↓reduceIte]
        simp only [ih]
        simp [errorOf, List.append_assoc]
    | ok applied =>
      by_cases hcf : (!IsControlledBy applied.OwnerReferences app
          && decide (applied.OwnerReferences.length > 0)) = true
      · simp only [hcf, if_true]
        simp only [ih]
        simp [errorOf, List.append_assoc]
      · cases hp : (c.PatchResource w.st (SetResourceVersion r applied.ResourceVersion)).2 with
        | error perr =>
          simp only [hcf, hp, if_false, ↓reduceIte]
          simp only [ih]
          simp [errorOf, List.append_assoc]
        | ok patched =>
          simp only [hcf, hp, if_false, ↓reduceIte]
          simp only [ih]
          simp [errorOf, List.append_assoc]

theorem ensureLoop_append {σ : Type} (c : Client σ) (app : Application)
    (a b : List Unstructured) :
    ∀ (w : World σ) (done : List Unstructured) (errs : List APIError),
      ensureLoop c app w (a ++ b) done errs
        = ensureLoop c app (ensureLoop c app w a done errs).1 b
            (ensureLoop c app w a done errs).2.1 (ensureLoop c app w a done errs).2.2 := by
  induction a with
  | nil => intro w done errs; rfl
  | cons r rest ih =>
    intro w done errs
    simp only [List.cons_append, ensureLoop]
    split
    · split
      · split <;> exact ih _ _ _
      · exact ih _ _ _
    · split
      · exact ih _ _ _
      · split <;> exact ih _ _ _

theorem ensureFrom_cons_conflict {σ : Type} (c : Client σ) (app : Application) (s : σ)
    (r applied : Unstructured) (rest : List Unstructured)
    (hget : c.GetResource s r.Namespace r.Name r = .ok applied)
    (hcf : (!IsControlledBy applied.OwnerReferences app
        && decide (applied.OwnerReferences.length > 0)) = true) :
    ensureFrom c app s (r :: rest)
      = ({ st := (ensureFrom c app s rest).1.st,
           log := [Event.getResource r.Namespace r.Name r none] ++ (ensureFrom c app s rest).1.log },
         [r] ++ (ensureFrom c app s rest).2.1,
         [conflictError applied] ++ (ensureFrom c app s rest).2.2) := by
  unfold ensureFrom
  simp only [ensureLoop, World.getResource, World.start, hget, hcf, if_true]
  conv_lhs => rw [ensureLoop_frame]
  simp [errorOf, ensureFrom, World.start]

theorem ensureFrom_cons_patch {σ : Type} (c : Client σ) (app : Application) (s : σ)
    (r applied : Unstructured) (rest : List Unstructured)
    (hget : c.GetResource s r.Namespace r.Name r = .ok applied)
    (hcf : ¬ (!IsControlledBy applied.OwnerReferences app
        && decide (applied.OwnerReferences.length > 0)) = true) :
    ensureFrom c app s (r :: rest)
      = ({ st := (ensureFrom c app
              (c.PatchResource s (SetResourceVersion r applied.ResourceVersion)).1 rest).1.st,
           log := [Event.getResource r.Namespace r.Name r none,
                   Event.patchResource (SetResourceVersion r applied.ResourceVersion)
                     (errorOf (c.PatchResource s
                       (SetResourceVersion r applied.ResourceVersion)).2)]
             ++ (ensureFrom c app
              (c.PatchResource s (SetResourceVersion r applied.ResourceVersion)).1 rest).1.log },
         [patchedOr (SetResourceVersion r applied.ResourceVersion)
            (c.PatchResource s (SetResourceVersion r applied.ResourceVersion)).2]
           ++ (ensureFrom c app
              (c.PatchResource s (SetResourceVersion r applied.ResourceVersion)).1 rest).2.1,
         (errorOf (c.PatchResource s
            (SetResourceVersion r applied.ResourceVersion)).2).toList
           ++ (ensureFrom c app
              (c.PatchResource s (SetResourceVersion r applied.ResourceVersion)).1 rest).2.2) := by
  unfold ensureFrom
  simp only [ensureLoop, World.getResource, World.patchResource, World.start, hget, hcf,
    Bool.false_eq_true, if_false]
  cases hp : (c.PatchResource s (SetResourceVersion r applied.ResourceVersion)).2 with
  | error perr =>
    simp only [hp]
    conv_lhs => rw [ensureLoop_frame]
    simp [errorOf, ensureFrom, World.start, patchedOr]
  | ok patched =>
    simp only [hp]
    conv_lhs => rw [ensureLoop_frame]
    simp [errorOf, ensureFrom, World.start, patchedOr]

/-- C4: the template `t` decodes and, when its turn comes (after the templates `pre`), the
lookup of its child returns the object `applied`. If `applied` has a controller other than
the application, the only call ensureResources issues for the child is the lookup (no
create, no patch), the error recorded for it is the conflict error, whose text names the
kind and name of the child, and the calls, resources and errors of the other templates
are those of the run on `pre ++ post`; the store is left in the same state. If `applied`
has no owner, or is controlled by the application, the lookup is followed by a patch of
the resource, on which the resource version of `applied` has been set before
(`SetResourceVersion`), and the error recorded for the child is the error of the patch, if
any. -/
theorem ensureResources_conflict_isolated {σ : Type} (c : Client σ) (w : World σ)
    (app : Application) (pre post : List ResourceTemplate) (t : ResourceTemplate)
    (u applied : Unstructured)
    (hdec : UnmarshalJSON t.Raw = .ok u)
    (hget : c.GetResource (ensureFrom c app w.st (resourcesOf app pre)).1.st
        (templateResource app u).Namespace (templateResource app u).Name (templateResource app u) = .ok applied) :
    ((∃ ref, GetControllerOf applied.OwnerReferences = some ref ∧ ref.UID ≠ app.UID) →
      ensureResources c w (withResources app (pre ++ post))
        = ({ st := (ensureFrom c app (ensureFrom c app w.st (resourcesOf app pre)).1.st (resourcesOf app post)).1.st,
             log := w.log ++ (ensureFrom c app w.st (resourcesOf app pre)).1.log ++ (ensureFrom c app (ensureFrom c app w.st (resourcesOf app pre)).1.st (resourcesOf app post)).1.log },
           (ensureFrom c app w.st (resourcesOf app pre)).2.1 ++ (ensureFrom c app (ensureFrom c app w.st (resourcesOf app pre)).1.st (resourcesOf app post)).2.1,
           (decodeErrors app pre ++ decodeErrors app post) ++ (ensureFrom c app w.st (resourcesOf app pre)).2.2 ++ (ensureFrom c app (ensureFrom c app w.st (resourcesOf app pre)).1.st (resourcesOf app post)).2.2) ∧
      ensureResources c w (withResources app (pre ++ t :: post))
        = ({ st := (ensureFrom c app (ensureFrom c app w.st (resourcesOf app pre)).1.st (resourcesOf app post)).1.st,
             log := w.log ++ (ensureFrom c app w.st (resourcesOf app pre)).1.log
               ++ [Event.getResource (templateResource app u).Namespace (templateResource app u).Name (templateResource app u) none]
               ++ (ensureFrom c app (ensureFrom c app w.st (resourcesOf app pre)).1.st (resourcesOf app post)).1.log },
           (ensureFrom c app w.st (resourcesOf app pre)).2.1 ++ [(templateResource app u)] ++ (ensureFrom c app (ensureFrom c app w.st (resourcesOf app pre)).1.st (resourcesOf app post)).2.1,
           (decodeErrors app pre ++ decodeErrors app post) ++ (ensureFrom c app w.st (resourcesOf app pre)).2.2 ++ [conflictError applied] ++ (ensureFrom c app (ensureFrom c app w.st (resourcesOf app pre)).1.st (resourcesOf app post)).2.2) ∧
      (conflictError applied).Message
        = "the resource " ++ applied.Kind ++ "/" ++ applied.Name
            ++ " is controlled by other resource") ∧
    ((applied.OwnerReferences = [] ∨ IsControlledBy applied.OwnerReferences app = true) →
      ensureResources c w (withResources app (pre ++ t :: post))
        = ({ st := (ensureFrom c app (c.PatchResource (ensureFrom c app w.st (resourcesOf app pre)).1.st (SetResourceVersion (templateResource app u) applied.ResourceVersion)).1 (resourcesOf app post)).1.st,
             log := w.log ++ (ensureFrom c app w.st (resourcesOf app pre)).1.log
               ++ [Event.getResource (templateResource app u).Namespace (templateResource app u).Name (templateResource app u) none,
                   Event.patchResource (SetResourceVersion (templateResource app u) applied.ResourceVersion) (errorOf (c.PatchResource (ensureFrom c app w.st (resourcesOf app pre)).1.st (SetResourceVersion (templateResource app u) applied.ResourceVersion)).2)]
               ++ (ensureFrom c app (c.PatchResource (ensureFrom c app w.st (resourcesOf app pre)).1.st (SetResourceVersion (templateResource app u) applied.ResourceVersion)).1 (resourcesOf app post)).1.log },
           (ensureFrom c app w.st (resourcesOf app pre)).2.1 ++ [patchedOr (SetResourceVersion (templateResource app u) applied.ResourceVersion) (c.PatchResource (ensureFrom c app w.st (resourcesOf app pre)).1.st (SetResourceVersion (templateResource app u) applied.ResourceVersion)).2] ++ (ensureFrom c app (c.PatchResource (ensureFrom c app w.st (resourcesOf app pre)).1.st (SetResourceVersion (templateResource app u) applied.ResourceVersion)).1 (resourcesOf app post)).2.1,
           (decodeErrors app pre ++ decodeErrors app post) ++ (ensureFrom c app w.st (resourcesOf app pre)).2.2 ++ (errorOf (c.PatchResource (ensureFrom c app w.st (resourcesOf app pre)).1.st (SetResourceVersion (templateResource app u) applied.ResourceVersion)).2).toList ++ (ensureFrom c app (c.PatchResource (ensureFrom c app w.st (resourcesOf app pre)).1.st (SetResourceVersion (templateResource app u) applied.ResourceVersion)).1 (resourcesOf app post)).2.2)) := by
  have hrun : ∀ ts, ensureResources c w (withResources app ts)
      = ({ st := (ensureFrom c app w.st (resourcesOf app ts)).1.st,
           log := w.log ++ (ensureFrom c app w.st (resourcesOf app ts)).1.log },
         (ensureFrom c app w.st (resourcesOf app ts)).2.1,
         decodeErrors app ts ++ (ensureFrom c app w.st (resourcesOf app ts)).2.2) := by
    intro ts
    have h1 : (withResources app ts).Spec.Resources = ts := rfl
    simp only [ensureResources, h1, decodeTemplates_withResources, ensureLoop_withResources]
    rw [ensureLoop_frame]
    simp [resourcesOf, decodeErrors]
  have hres : ∀ l, resourcesOf app (pre ++ l) = resourcesOf app pre ++ resourcesOf app l := by
    intro l; simp [resourcesOf, decodeTemplates_append]
  have herr : ∀ l, decodeErrors app (pre ++ l) = decodeErrors app pre ++ decodeErrors app l := by
    intro l; simp [decodeErrors, decodeTemplates_append]
  have hrt : resourcesOf app (t :: post) = (templateResource app u) :: resourcesOf app post := by
    simp [resourcesOf, decodeTemplates_cons_ok app t post u hdec]
  have het : decodeErrors app (t :: post) = decodeErrors app post := by
    simp [decodeErrors, decodeTemplates_cons_ok app t post u hdec]
  have hsplit : ∀ l, ensureFrom c app w.st (resourcesOf app pre ++ l)
      = ({ st := (ensureFrom c app (ensureFrom c app w.st (resourcesOf app pre)).1.st l).1.st,
           log := (ensureFrom c app w.st (resourcesOf app pre)).1.log ++ (ensureFrom c app (ensureFrom c app w.st (resourcesOf app pre)).1.st l).1.log },
         (ensureFrom c app w.st (resourcesOf app pre)).2.1 ++ (ensureFrom c app (ensureFrom c app w.st (resourcesOf app pre)).1.st l).2.1,
         (ensureFrom c app w.st (resourcesOf app pre)).2.2 ++ (ensureFrom c app (ensureFrom c app w.st (resourcesOf app pre)).1.st l).2.2) := by
    intro l
    unfold ensureFrom
    rw [ensureLoop_append, ensureLoop_frame c app l]
    rfl
  refine ⟨?_, ?_⟩
  · rintro ⟨ref, href, huid⟩
    have hcf : (!IsControlledBy applied.OwnerReferences app
        && decide (applied.OwnerReferences.length > 0)) = true := by
      have h1 : IsControlledBy applied.OwnerReferences app = false := by
        simp [IsControlledBy, href, huid]
      have h2 : applied.OwnerReferences ≠ [] := by
        intro h; rw [h] at href; simp [GetControllerOf] at href
      have h3 : 0 < applied.OwnerReferences.length := List.length_pos.mpr h2
      simp [h1, h3]
    have hstep := ensureFrom_cons_conflict c app _ _ _ (resourcesOf app post) hget hcf
    refine ⟨?_, ?_, rfl⟩
    · rw [hrun, hres, herr, hsplit]
      simp [List.append_assoc]
    · rw [hrun, hres, herr, hrt, het, hsplit, hstep]
      simp [List.append_assoc]
  · intro hown
    have hcf : ¬ (!IsControlledBy applied.OwnerReferences app
        && decide (applied.OwnerReferences.length > 0)) = true := by
      rcases hown with h | h
      · simp [h]
      · simp [h]
    have hstep := ensureFrom_cons_patch c app _ _ _ (resourcesOf app post) hget hcf
    rw [hrun, hres, herr, hrt, het, hsplit, hstep]
    simp [List.append_assoc]

/-- The instance of C4 for the templates of the pods `a`, `b`, `c`: in a store where the
pod `b` is controlled by a deployment (the conflict), and in a store where the pod `b` has
no owner (the patch). -/
theorem ensureResources_conflict_isolated_witness :
    (ensureResources memClient (World.start conflictStore) (withResources bareApp ([podTemplate "a"] ++ [podTemplate "c"]))
        = ({ st := (ensureFrom memClient bareApp (ensureFrom memClient bareApp (World.start conflictStore).st (resourcesOf bareApp [podTemplate "a"])).1.st (resourcesOf bareApp [podTemplate "c"])).1.st,
             log := (World.start conflictStore).log ++ (ensureFrom memClient bareApp (World.start conflictStore).st (resourcesOf bareApp [podTemplate "a"])).1.log ++ (ensureFrom memClient bareApp (ensureFrom memClient bareApp (World.start conflictStore).st (resourcesOf bareApp [podTemplate "a"])).1.st (resourcesOf bareApp [podTemplate "c"])).1.log },
           (ensureFrom memClient bareApp (World.start conflictStore).st (resourcesOf bareApp [podTemplate "a"])).2.1 ++ (ensureFrom memClient bareApp (ensureFrom memClient bareApp (World.start conflictStore).st (resourcesOf bareApp [podTemplate "a"])).1.st (resourcesOf bareApp [podTemplate "c"])).2.1,
           (decodeErrors bareApp [podTemplate "a"] ++ decodeErrors bareApp [podTemplate "c"]) ++ (ensureFrom memClient bareApp (World.start conflictStore).st (resourcesOf bareApp [podTemplate "a"])).2.2 ++ (ensureFrom memClient bareApp (ensureFrom memClient bareApp (World.start conflictStore).st (resourcesOf bareApp [podTemplate "a"])).1.st (resourcesOf bareApp [podTemplate "c"])).2.2) ∧
      ensureResources memClient (World.start conflictStore) (withResources bareApp ([podTemplate "a"] ++ podTemplate "b" :: [podTemplate "c"]))
        = ({ st := (ensureFrom memClient bareApp (ensureFrom memClient bareApp (World.start conflictStore).st (resourcesOf bareApp [podTemplate "a"])).1.st (resourcesOf bareApp [podTemplate "c"])).1.st,
             log := (World.start conflictStore).log ++ (ensureFrom memClient bareApp (World.start conflictStore).st (resourcesOf bareApp [podTemplate "a"])).1.log
               ++ [Event.getResource (templateResource bareApp (decodedPod "b")).Namespace (templateResource bareApp (decodedPod "b")).Name (templateResource bareApp (decodedPod "b")) none]
               ++ (ensureFrom memClient bareApp (ensureFrom memClient bareApp (World.start conflictStore).st (resourcesOf bareApp [podTemplate "a"])).1.st (resourcesOf bareApp [podTemplate "c"])).1.log },
           (ensureFrom memClient bareApp (World.start conflictStore).st (resourcesOf bareApp [podTemplate "a"])).2.1 ++ [(templateResource bareApp (decodedPod "b"))] ++ (ensureFrom memClient bareApp (ensureFrom memClient bareApp (World.start conflictStore).st (resourcesOf bareApp [podTemplate "a"])).1.st (resourcesOf bareApp [podTemplate "c"])).2.1,
           (decodeErrors bareApp [podTemplate "a"] ++ decodeErrors bareApp [podTemplate "c"]) ++ (ensureFrom memClient bareApp (World.start conflictStore).st (resourcesOf bareApp [podTemplate "a"])).2.2 ++ [conflictError (storedPod "b" [deploymentRef])] ++ (ensureFrom memClient bareApp (ensureFrom memClient bareApp (World.start conflictStore).st (resourcesOf bareApp [podTemplate "a"])).1.st (resourcesOf bareApp [podTemplate "c"])).2.2) ∧
      (conflictError (storedPod "b" [deploymentRef])).Message
        = "the resource " ++ (storedPod "b" [deploymentRef]).Kind ++ "/" ++ (storedPod "b" [deploymentRef]).Name
            ++ " is controlled by other resource") ∧
    (ensureResources memClient (World.start orphanStore) (withResources bareApp ([podTemplate "a"] ++ podTemplate "b" :: [podTemplate "c"]))
        = ({ st := (ensureFrom memClient bareApp (memClient.PatchResource (ensureFrom memClient bareApp (World.start orphanStore).st (resourcesOf bareApp [podTemplate "a"])).1.st (SetResourceVersion (templateResource bareApp (decodedPod "b")) (storedPod "b" []).ResourceVersion)).1 (resourcesOf bareApp [podTemplate "c"])).1.st,
             log := (World.start orphanStore).log ++ (ensureFrom memClient bareApp (World.start orphanStore).st (resourcesOf bareApp [podTemplate "a"])).1.log
               ++ [Event.getResource (templateResource bareApp (decodedPod "b")).Namespace (templateResource bareApp (decodedPod "b")).Name (templateResource bareApp (decodedPod "b")) none,
                   Event.patchResource (SetResourceVersion (templateResource bareApp (decodedPod "b")) (storedPod "b" []).ResourceVersion) (errorOf (memClient.PatchResource (ensureFrom memClient bareApp (World.start orphanStore).st (resourcesOf bareApp [podTemplate "a"])).1.st (SetResourceVersion (templateResource bareApp (decodedPod "b")) (storedPod "b" []).ResourceVersion)).2)]
               ++ (ensureFrom memClient bareApp (memClient.PatchResource (ensureFrom memClient bareApp (World.start orphanStore).st (resourcesOf bareApp [podTemplate "a"])).1.st (SetResourceVersion (templateResource bareApp (decodedPod "b")) (storedPod "b" []).ResourceVersion)).1 (resourcesOf bareApp [podTemplate "c"])).1.log },
           (ensureFrom memClient bareApp (World.start orphanStore).st (resourcesOf bareApp [podTemplate "a"])).2.1 ++ [patchedOr (SetResourceVersion (templateResource bareApp (decodedPod "b")) (storedPod "b" []).ResourceVersion) (memClient.PatchResource (ensureFrom memClient bareApp (World.start orphanStore).st (resourcesOf bareApp [podTemplate "a"])).1.st (SetResourceVersion (templateResource bareApp (decodedPod "b")) (storedPod "b" []).ResourceVersion)).2] ++ (ensureFrom memClient bareApp (memClient.PatchResource (ensureFrom memClient bareApp (World.start orphanStore).st (resourcesOf bareApp [podTemplate "a"])).1.st (SetResourceVersion (templateResource bareApp (decodedPod "b")) (storedPod "b" []).ResourceVersion)).1 (resourcesOf bareApp [podTemplate "c"])).2.1,
           (decodeErrors bareApp [podTemplate "a"] ++ decodeErrors bareApp [podTemplate "c"]) ++ (ensureFrom memClient bareApp (World.start orphanStore).st (resourcesOf bareApp [podTemplate "a"])).2.2 ++ (errorOf (memClient.PatchResource (ensureFrom memClient bareApp (World.start orphanStore).st (resourcesOf bareApp [podTemplate "a"])).1.st (SetResourceVersion (templateResource bareApp (decodedPod "b")) (storedPod "b" []).ResourceVersion)).2).toList ++ (ensureFrom memClient bareApp (memClient.PatchResource (ensureFrom memClient bareApp (World.start orphanStore).st (resourcesOf bareApp [podTemplate "a"])).1.st (SetResourceVersion (templateResource bareApp (decodedPod "b")) (storedPod "b" []).ResourceVersion)).1 (resourcesOf bareApp [podTemplate "c"])).2.2)) :=
  ⟨(ensureResources_conflict_isolated memClient (World.start conflictStore) bareApp
      [podTemplate "a"] [podTemplate "c"] (podTemplate "b") (decodedPod "b")
      (storedPod "b" [deploymentRef]) (by decide) (by decide)).1
      ⟨deploymentRef, by decide, by decide⟩,
   (ensureResources_conflict_isolated memClient (World.start orphanStore) bareApp
      [podTemplate "a"] [podTemplate "c"] (podTemplate "b") (decodedPod "b")
      (storedPod "b" []) (by decide) (by decide)).2 (Or.inl rfl)⟩

/-! ### Reconcile: the revisions that are cleaned up -/

/-- C5 (the code at the failing input): the namespace of the application holds two
revisions that a daemon set controls. constructHistory returns both in `olds`, and
Reconcile, with retention limit 1, deletes the older one, which the application does not
control, and returns nil. -/
theorem reconcile_deletes_foreign_revision :
    ((constructHistory memClient (World.start sharedNamespaceStore) limitOneApp).value.map
        (fun res => res.2))
      = some [exampleRevision "ds-1" "template-1" 1 [daemonSetRef],
              exampleRevision "ds-2" "template-2" 2 [daemonSetRef]] ∧
    IsControlledBy (exampleRevision "ds-1" "template-1" 1 [daemonSetRef]).OwnerReferences
      limitOneApp = false ∧
    deletedRevisions (Reconcile sortByRevision alwaysReady memClient
        (World.start sharedNamespaceStore) "ns" "app").world.log
      = [exampleRevision "ds-1" "template-1" 1 [daemonSetRef]] ∧
    (Reconcile sortByRevision alwaysReady memClient
        (World.start sharedNamespaceStore) "ns" "app").error = none ∧
    (Reconcile sortByRevision alwaysReady memClient
        (World.start sharedNamespaceStore) "ns" "app").panicked = false ∧
    ((Reconcile sortByRevision alwaysReady memClient
        (World.start sharedNamespaceStore) "ns" "app").world.st.revisions.map
        (fun r => (r.Name, r.Revision)))
      = [("ds-2", 2), ("app-" ++ ComputeHash limitOneApp.Spec, 3)] := by
  decide

/-! ### Reconcile: a clean-up that fails -/

/-- A loop of cleanupHistory that ends with an error has issued a delete that returned
this error, and the error is not a not-found error. -/
theorem cleanupLoop_fail {σ : Type} (c : Client σ) (l : List ControllerRevision) :
    ∀ (w w' : World σ) (toKill : Int) (err : APIError),
      cleanupLoop c w toKill l = .fail w' err →
      IsNotFound err = false ∧ ∃ r, Event.deleteRevision r (some err) ∈ w'.log := by
  induction l with
  | nil => intro w w' toKill err h; simp [cleanupLoop] at h
  | cons history rest ih =>
    intro w w' toKill err h
    by_cases hk : toKill ≤ 0
    · simp [cleanupLoop, hk] at h
    · cases herr : (c.DeleteRevision w.st history).2 with
      | none =>
        simp only [cleanupLoop, hk, if_false, World.deleteRevision, herr] at h
        exact ih _ _ _ _ h
      | some e =>
        by_cases hnf : IsNotFound e = true
        · simp only [cleanupLoop, hk, if_false, World.deleteRevision, herr, hnf,
            Bool.not_true, Bool.false_eq_true] at h
          exact ih _ _ _ _ h
        · simp only [cleanupLoop, hk, if_false, World.deleteRevision, herr, hnf,
            Bool.not_false, if_true, Outcome.fail.injEq] at h
          obtain ⟨hw, he⟩ := h
          subst he
          refine ⟨by simpa using hnf, history, ?_⟩
          rw [← hw]
          simp

/-- C6 (as amended): when the cycle reaches the clean-up of the history and cleanupHistory
fails, Reconcile returns an error to the caller: the text of the error of the delete that
failed (an error other than not-found), after the words "failed to clean up revisions of
Application: ". -/
theorem reconcile_cleanup_failure_is_returned {σ : Type}
    (sortFn : List ControllerRevision → List ControllerRevision)
    (status : Unstructured → String × Option APIError) (c : Client σ) (w w1 w2 : World σ)
    (ns name : String) (app : Application) (olds : List ControllerRevision) (err : APIError)
    (hcycle : reconcileApply status c w ns name = .ok w1 (some (app, olds)))
    (hfail : cleanupHistory sortFn c w1 app olds = .fail w2 err) :
    Reconcile sortFn status c w ns name
      = .fail w2 { Reason := .Other,
                   Message := "failed to clean up revisions of Application: " ++ err.Message } ∧
    IsNotFound err = false ∧
    ∃ r, Event.deleteRevision r (some err) ∈ w2.log := by
  refine ⟨by simp [Reconcile, hcycle, hfail], ?_⟩
  unfold cleanupHistory at hfail
  split at hfail
  · simp at hfail
  · simp only at hfail
    split at hfail
    · simp at hfail
    · exact cleanupLoop_fail c _ _ _ _ _ hfail

/-- The instance of C6 in the store of two foreign revisions, with a client whose deletes
fail with an internal error. -/
theorem reconcile_cleanup_failure_is_returned_witness :
    Reconcile sortByRevision alwaysReady (failingDelete memClient serverError)
        (World.start sharedNamespaceStore) "ns" "app"
      = .fail (cleanupHistory sortByRevision (failingDelete memClient serverError)
            (reconcileApply alwaysReady (failingDelete memClient serverError)
              (World.start sharedNamespaceStore) "ns" "app").world limitOneApp
            [exampleRevision "ds-1" "template-1" 1 [daemonSetRef],
             exampleRevision "ds-2" "template-2" 2 [daemonSetRef]]).world
          { Reason := .Other,
            Message := "failed to clean up revisions of Application: " ++ serverError.Message } ∧
    IsNotFound serverError = false ∧
    ∃ r, Event.deleteRevision r (some serverError)
      ∈ (cleanupHistory sortByRevision (failingDelete memClient serverError)
            (reconcileApply alwaysReady (failingDelete memClient serverError)
              (World.start sharedNamespaceStore) "ns" "app").world limitOneApp
            [exampleRevision "ds-1" "template-1" 1 [daemonSetRef],
             exampleRevision "ds-2" "template-2" 2 [daemonSetRef]]).world.log :=
  reconcile_cleanup_failure_is_returned sortByRevision alwaysReady
    (failingDelete memClient serverError) (World.start sharedNamespaceStore)
    (reconcileApply alwaysReady (failingDelete memClient serverError)
      (World.start sharedNamespaceStore) "ns" "app").world
    (cleanupHistory sortByRevision (failingDelete memClient serverError)
      (reconcileApply alwaysReady (failingDelete memClient serverError)
        (World.start sharedNamespaceStore) "ns" "app").world limitOneApp
      [exampleRevision "ds-1" "template-1" 1 [daemonSetRef],
       exampleRevision "ds-2" "template-2" 2 [daemonSetRef]]).world
    "ns" "app" limitOneApp
    [exampleRevision "ds-1" "template-1" 1 [daemonSetRef],
     exampleRevision "ds-2" "template-2" 2 [daemonSetRef]]
    serverError rfl rfl

/-- C6 (counterexample): a delete of the clean-up returns an internal error, and Reconcile
returns an error; the status had been written before. -/
theorem reconcile_returns_cleanup_error :
    (Reconcile sortByRevision alwaysReady (failingDelete memClient serverError)
        (World.start sharedNamespaceStore) "ns" "app").error
      = some { Reason := .Other,
               Message := "failed to clean up revisions of Application: internal error" } ∧
    (Reconcile sortByRevision alwaysReady (failingDelete memClient serverError)
        (World.start sharedNamespaceStore) "ns" "app").world.log.getLast?
      = some (Event.deleteRevision (exampleRevision "ds-1" "template-1" 1 [daemonSetRef])
          (some serverError)) ∧
    IsNotFound serverError = false ∧
    ((Reconcile sortByRevision alwaysReady (failingDelete memClient serverError)
        (World.start sharedNamespaceStore) "ns" "app").world.st.apps.map
        (fun a => a.Status.ComponentsReady)) = ["0/0"] := by
  decide

/-! ### getPatch, Match and ComputeHash -/

/-- The patch of an application is the text of the map with the keys `$patch` and `spec`,
where `spec` holds the decoded spec; getPatch returns no error. -/
theorem getPatch_eq (ds : Application) :
    getPatch ds = .ok (JSON.marshal (JSON.obj
      (JFields.cons "$patch" (JSON.str "replace")
        (JFields.cons "spec" (JSON.normalize ds.Spec.toJSON) JFields.nil)))) := by
  have h1 : strLess "metadata" "spec" = true := by decide
  have h2 : strLess "spec" "status" = true := by decide
  have h3 : strLess "metadata" "status" = true := by decide
  have h4 : strLess "spec" "$patch" = false := by decide
  have h5 : ("spec" == "metadata") = false := by decide
  have h6 : ("status" == "metadata") = false := by decide
  have h7 : ("status" == "spec") = false := by decide
  have h8 : ¬ ("status" = "spec") := by decide
  have h9 : ¬ ("metadata" = "spec") := by decide
  simp [getPatch, Application.toJSON, JFields.ofList, JFields.normalize, JFields.hasKey,
    JFields.insertSorted, JFields.lookup, h1, h2, h3, h4, h5, h6, h7, h8, h9]

/-- C7 (as amended): two applications whose specs are equal (templates, selector,
descriptor and revisionHistoryLimit) get the same patch from getPatch and the same hash
from ComputeHash, whatever their metadata and their status are, and Match gives the same
answer for both against every revision. -/
theorem getPatch_depends_on_spec_only (a b : Application) (h : a.Spec = b.Spec) :
    getPatch a = getPatch b ∧
    ComputeHash a.Spec = ComputeHash b.Spec ∧
    ∀ history : ControllerRevision, Match a history = Match b history := by
  have hp : getPatch a = getPatch b := by rw [getPatch_eq, getPatch_eq, h]
  refine ⟨hp, by rw [h], ?_⟩
  intro history
  simp [Match, hp]

/-- The instance of C7 for an application and its copy with another name, other labels and
another status. -/
theorem getPatch_depends_on_spec_only_witness :
    getPatch limitOneApp = getPatch relabelledApp ∧
    ComputeHash limitOneApp.Spec = ComputeHash relabelledApp.Spec ∧
    ∀ history : ControllerRevision, Match limitOneApp history = Match relabelledApp history :=
  getPatch_depends_on_spec_only limitOneApp relabelledApp rfl

/-- C7 (counterexample): two applications with the same (empty) list of templates and
retention limits 1 and 2 get different patches and different hashes, and the revision
that stores the patch of the first matches the first and not the second. -/
theorem getPatch_differs_on_other_spec_fields :
    limitOneApp.Spec.Resources = otherLimitApp.Spec.Resources ∧
    getPatch limitOneApp
      = .ok "\x7b\"$patch\":\"replace\",\"spec\":\x7b\"descriptor\":\x7b\x7d,\"revisionHistoryLimit\":1\x7d\x7d" ∧
    getPatch otherLimitApp
      = .ok "\x7b\"$patch\":\"replace\",\"spec\":\x7b\"descriptor\":\x7b\x7d,\"revisionHistoryLimit\":2\x7d\x7d" ∧
    getPatch limitOneApp ≠ getPatch otherLimitApp ∧
    ComputeHash limitOneApp.Spec ≠ ComputeHash otherLimitApp.Spec ∧
    Match limitOneApp (exampleRevision "app-1"
        "\x7b\"$patch\":\"replace\",\"spec\":\x7b\"descriptor\":\x7b\x7d,\"revisionHistoryLimit\":1\x7d\x7d"
        1 []) = .ok true ∧
    Match otherLimitApp (exampleRevision "app-1"
        "\x7b\"$patch\":\"replace\",\"spec\":\x7b\"descriptor\":\x7b\x7d,\"revisionHistoryLimit\":1\x7d\x7d"
        1 []) = .ok false := by
  decide

/-! ### constructHistory: the revision number of a new revision -/

theorem Match_eq (app : Application) (history : ControllerRevision) :
    Match app history = .ok (decide (JSON.marshal (JSON.obj
      (JFields.cons "$patch" (JSON.str "replace")
        (JFields.cons "spec" (JSON.normalize app.Spec.toJSON) JFields.nil))) = history.Data)) := by
  simp [Match, getPatch_eq]

/-- The call addUniqueLabel may issue is an update of a revision. -/
theorem addUniqueLabel_trace {σ : Type} (c : Client σ) (w : World σ)
    (history : ControllerRevision) :
    ∃ evs, (addUniqueLabel c w history).world.log = w.log ++ evs ∧
      ∀ e ∈ evs, ∃ r err, e = Event.updateRevision r err := by
  unfold addUniqueLabel
  split
  · exact ⟨[], by simp [Outcome.world], by simp⟩
  · split
    · exact ⟨[], by simp [Outcome.world], by simp⟩
    · simp only [World.updateRevision]
      split
      · rename_i heq
        simp only [Prod.mk.injEq] at heq
        exact ⟨_, by rw [← heq.1]; rfl, fun e he => ⟨_, _, List.mem_singleton.mp he⟩⟩
      · rename_i heq
        simp only [Prod.mk.injEq] at heq
        exact ⟨_, by rw [← heq.1]; rfl, fun e he => ⟨_, _, List.mem_singleton.mp he⟩⟩

/-- The calls of the loop of constructHistory are updates of revisions. -/
theorem classifyLoop_trace {σ : Type} (c : Client σ) (app : Application)
    (items : List ControllerRevision) :
    ∀ (w : World σ) (olds curs : List ControllerRevision), ∃ evs,
      (classifyLoop c app w items olds curs).world.log = w.log ++ evs ∧
      ∀ e ∈ evs, ∃ r err, e = Event.updateRevision r err := by
  induction items with
  | nil => intro w olds curs; exact ⟨[], by simp [classifyLoop, Outcome.world], by simp⟩
  | cons history rest ih =>
    intro w olds curs
    obtain ⟨evs1, hlog1, hup1⟩ := addUniqueLabel_trace c w history
    simp only [classifyLoop, Match_eq]
    cases hlab : addUniqueLabel c w history with
    | panic w1 msg =>
      rw [hlab] at hlog1
      exact ⟨evs1, by simpa [Outcome.world] using hlog1, hup1⟩
    | fail w1 err =>
      rw [hlab] at hlog1
      exact ⟨evs1, by simpa [Outcome.world] using hlog1, hup1⟩
    | ok w1 u =>
      rw [hlab] at hlog1
      simp only [Outcome.world] at hlog1
      simp only []
      split
      · obtain ⟨evs, h1, h2⟩ := ih w1 olds (curs ++ [history])
        refine ⟨evs1 ++ evs, by rw [h1, hlog1, List.append_assoc], ?_⟩
        intro e he
        rcases List.mem_append.mp he with h | h
        · exact hup1 e h
        · exact h2 e h
      · obtain ⟨evs, h1, h2⟩ := ih w1 (olds ++ [history]) curs
        refine ⟨evs1 ++ evs, by rw [h1, hlog1, List.append_assoc], ?_⟩
        intro e he
        rcases List.mem_append.mp he with h | h
        · exact hup1 e h
        · exact h2 e h

/-- When the loop of constructHistory completes, the old histories are the listed revisions
that do not match, the current ones those that match, each in the order of the list. -/
theorem classifyLoop_ok {σ : Type} (c : Client σ) (app : Application)
    (items : List ControllerRevision) :
    ∀ (w w' : World σ) (olds curs : List ControllerRevision)
      (res : List ControllerRevision × List ControllerRevision),
      classifyLoop c app w items olds curs = .ok w' res →
      res.1 = olds ++ items.filter (fun h => decide (Match app h = .ok false)) ∧
      res.2 = curs ++ items.filter (fun h => decide (Match app h = .ok true)) := by
  induction items with
  | nil =>
    intro w w' olds curs res h
    simp only [classifyLoop, Outcome.ok.injEq] at h
    rw [← h.2]; simp
  | cons history rest ih =>
    intro w w' olds curs res h
    simp only [classifyLoop] at h
    cases hlab : addUniqueLabel c w history with
    | panic w1 msg => rw [hlab] at h; simp at h
    | fail w1 err => rw [hlab] at h; simp at h
    | ok w1 u =>
      rw [hlab] at h
      simp only [Match_eq] at h
      by_cases hm : (JSON.marshal (JSON.obj (JFields.cons "$patch" (JSON.str "replace")
          (JFields.cons "spec" (JSON.normalize app.Spec.toJSON) JFields.nil)))) = history.Data
      · simp only [hm, decide_True, if_true] at h
        have := ih _ _ _ _ _ h
        simp [List.filter_cons, Match_eq, hm, this.1, this.2]
      · simp only [hm, decide_False, Bool.false_eq_true, if_false] at h
        have := ih _ _ _ _ _ h
        simp [List.filter_cons, Match_eq, hm, this.1, this.2]

/-- The value of maxRevision is not negative, bounds every revision number, and is 0 or
the number of one of the revisions. -/
theorem maxRevision_spec (l : List ControllerRevision) :
    0 ≤ maxRevision l ∧ (∀ h ∈ l, h.Revision ≤ maxRevision l) ∧
    (maxRevision l = 0 ∨ ∃ h ∈ l, maxRevision l = h.Revision) := by
  have key : ∀ (l : List ControllerRevision) (acc : Int),
      acc ≤ l.foldl (fun max history => if history.Revision > max then history.Revision else max) acc ∧
      (∀ h ∈ l, h.Revision
        ≤ l.foldl (fun max history => if history.Revision > max then history.Revision else max) acc) ∧
      (l.foldl (fun max history => if history.Revision > max then history.Revision else max) acc = acc
        ∨ ∃ h ∈ l, l.foldl (fun max history =>
            if history.Revision > max then history.Revision else max) acc = h.Revision) := by
    intro l
    induction l with
    | nil => intro acc; simp
    | cons x rest ih =>
      intro acc
      simp only [List.foldl_cons]
      obtain ⟨h1, h2, h3⟩ := ih (if x.Revision > acc then x.Revision else acc)
      by_cases hx : x.Revision > acc
      · simp only [hx, if_true] at h1 h2 h3 ⊢
        refine ⟨by omega, ?_, ?_⟩
        · intro y hy
          rcases List.mem_cons.mp hy with rfl | hr
          · exact h1
          · exact h2 y hr
        · rcases h3 with h3 | ⟨y, hr, h3⟩
          · right; exact ⟨x, List.mem_cons_self _ _, h3⟩
          · right; exact ⟨y, List.mem_cons_of_mem _ hr, h3⟩
      · simp only [hx, if_false] at h1 h2 h3 ⊢
        refine ⟨h1, ?_, ?_⟩
        · intro y hy
          rcases List.mem_cons.mp hy with rfl | hr
          · omega
          · exact h2 y hr
        · rcases h3 with h3 | ⟨y, hr, h3⟩
          · left; exact h3
          · right; exact ⟨y, List.mem_cons_of_mem _ hr, h3⟩
  exact key l 0

/-- The calls of snapshot are a create, of a revision with the number given, and, after an
already-exists answer, a get. -/
theorem snapshot_trace {σ : Type} (c : Client σ) (w : World σ) (app : Application)
    (revision : Int) :
    ∃ patch err gets,
      (snapshot c w app revision).world.log
        = w.log ++ Event.createRevision (newHistory app patch revision) err :: gets ∧
      ∀ e ∈ gets, ∃ ns n er, e = Event.getRevision ns n er := by
  refine ⟨JSON.marshal (JSON.obj (JFields.cons "$patch" (JSON.str "replace")
      (JFields.cons "spec" (JSON.normalize app.Spec.toJSON) JFields.nil))),
    errorOf (c.CreateRevision w.st (newHistory app (JSON.marshal (JSON.obj
      (JFields.cons "$patch" (JSON.str "replace")
        (JFields.cons "spec" (JSON.normalize app.Spec.toJSON) JFields.nil)))) revision)).2, ?_⟩
  simp only [snapshot, getPatch_eq, World.createRevision, World.getRevision, Match_eq]
  cases hc : (c.CreateRevision w.st (newHistory app (JSON.marshal (JSON.obj
      (JFields.cons "$patch" (JSON.str "replace")
        (JFields.cons "spec" (JSON.normalize app.Spec.toJSON) JFields.nil)))) revision)).2 with
  | ok created => exact ⟨[], by simp [Outcome.world], by simp⟩
  | error outerErr =>
    simp only []
    by_cases hae : IsAlreadyExists outerErr = true
    · simp only [hae, if_true]
      refine ⟨[Event.getRevision app.Namespace (app.Name ++ "-" ++ ComputeHash app.Spec)
        (errorOf (c.GetRevision (c.CreateRevision w.st (newHistory app (JSON.marshal (JSON.obj
          (JFields.cons "$patch" (JSON.str "replace")
            (JFields.cons "spec" (JSON.normalize app.Spec.toJSON) JFields.nil)))) revision)).1
          app.Namespace (app.Name ++ "-" ++ ComputeHash app.Spec)))], ?_, ?_⟩
      · split
        · rename_i heq
          simp only [Prod.mk.injEq] at heq
          rw [← heq.1]; simp [Outcome.world]
        · rename_i heq
          simp only [Prod.mk.injEq] at heq
          split <;> (rw [← heq.1]; simp [Outcome.world])
      · intro e he; exact ⟨_, _, _, List.mem_singleton.mp he⟩
    · simp only [hae, Bool.false_eq_true, if_false]
      exact ⟨[], by simp [Outcome.world], by simp⟩

/-- The revision constructHistory creates when it gets as far as the create. The list of
the revisions succeeds, no listed revision matches the current spec, and the loop over the
listed revisions completes. Then all listed revisions are old, and constructHistory issues,
after the list and the updates that add the unique label, the create of a revision whose
number is the `int64` value of `maxRevision olds + 1` (maxRevision is the greatest of 0 and
the numbers of the old revisions). When every old revision has a number from 0 to
`2^63 - 2`, the number of the new revision is 1 for no old revision, and else the greatest
number of an old revision plus 1. -/
theorem constructHistory_creates_next_revision {σ : Type} (c : Client σ) (w w2 : World σ)
    (app : Application) (items : List ControllerRevision)
    (res : List ControllerRevision × List ControllerRevision)
    (hlist : c.ListRevisions w.st app.Namespace = .ok items)
    (hnomatch : ∀ h ∈ items, Match app h = .ok false)
    (hloop : classifyLoop c app (w.listRevisions c app.Namespace).1 items [] [] = .ok w2 res) :
    res = (items, []) ∧
    ∃ patch err ups gets,
      (constructHistory c w app).world.log
        = w.log ++ [Event.listRevisions app.Namespace none] ++ ups
            ++ [Event.createRevision (newHistory app patch (wrap64 (maxRevision items + 1))) err]
            ++ gets ∧
      (∀ e ∈ ups, ∃ r er, e = Event.updateRevision r er) ∧
      (∀ e ∈ gets, ∃ ns n er, e = Event.getRevision ns n er) ∧
      ((∀ h ∈ items, 0 ≤ h.Revision ∧ h.Revision < 2 ^ 63 - 1) →
        (newHistory app patch (wrap64 (maxRevision items + 1))).Revision = maxRevision items + 1 ∧
        (items = [] → (newHistory app patch (wrap64 (maxRevision items + 1))).Revision = 1) ∧
        (∀ h ∈ items,
          h.Revision < (newHistory app patch (wrap64 (maxRevision items + 1))).Revision) ∧
        (items ≠ [] → ∃ h ∈ items,
          (newHistory app patch (wrap64 (maxRevision items + 1))).Revision = h.Revision + 1)) := by
  have hres := classifyLoop_ok c app items _ _ _ _ _ hloop
  have hf1 : items.filter (fun h => decide (Match app h = .ok false)) = items := by
    rw [List.filter_eq_self]
    intro h hh; simp [hnomatch h hh]
  have hf2 : items.filter (fun h => decide (Match app h = .ok true)) = [] := by
    rw [List.filter_eq_nil_iff]
    intro h hh; simp [hnomatch h hh]
  have hres' : res = (items, []) := by
    rw [hf1, hf2] at hres
    exact Prod.ext (by simpa using hres.1) (by simpa using hres.2)
  refine ⟨hres', ?_⟩
  obtain ⟨ups, hups, hupform⟩ :=
    classifyLoop_trace c app items (w.listRevisions c app.Namespace).1 [] []
  rw [hloop] at hups
  simp only [Outcome.world] at hups
  obtain ⟨patch, err, gets, hsnap, hgets⟩ :=
    snapshot_trace c w2 app (wrap64 (maxRevision items + 1))
  have hworld : (constructHistory c w app).world
      = (snapshot c w2 app (wrap64 (maxRevision items + 1))).world := by
    have hl : w.listRevisions c app.Namespace
        = ((w.listRevisions c app.Namespace).1, .ok items) := by
      simp [World.listRevisions, hlist]
    unfold constructHistory
    rw [hl]
    simp only [hloop, hres']
    cases snapshot c w2 app (wrap64 (maxRevision items + 1)) <;> rfl
  have hlog1 : (w.listRevisions c app.Namespace).1.log
      = w.log ++ [Event.listRevisions app.Namespace none] := by
    simp [World.listRevisions, hlist, errorOf]
  refine ⟨patch, err, ups, gets, ?_, hupform, hgets, ?_⟩
  · rw [hworld, hsnap, hups, hlog1]; simp
  · intro hrange
    obtain ⟨hm0, hmle, hmex⟩ := maxRevision_spec items
    have hlt : maxRevision items < 2 ^ 63 - 1 := by
      rcases hmex with h0 | ⟨h, hh, heq⟩
      · rw [h0]; norm_num
      · rw [heq]; exact (hrange h hh).2
    have hwrap : wrap64 (maxRevision items + 1) = maxRevision items + 1 := by
      unfold wrap64
      norm_num at hlt ⊢
      omega
    have hrev : (newHistory app patch (wrap64 (maxRevision items + 1))).Revision
        = maxRevision items + 1 := by
      simp [newHistory, hwrap]
    refine ⟨hrev, ?_, ?_, ?_⟩
    · intro hnil; rw [hrev, hnil]; rfl
    · intro h hh; rw [hrev]; have := hmle h hh; omega
    · intro hne
      rcases hmex with h0 | ⟨h, hh, heq⟩
      · obtain ⟨x, hx⟩ := List.exists_mem_of_ne_nil items hne
        refine ⟨x, hx, ?_⟩
        have h1 := hmle x hx
        have h2 := (hrange x hx).1
        rw [hrev]; omega
      · exact ⟨h, hh, by rw [hrev, heq]⟩

/-- An instance: in the store of two revisions of a daemon set, of numbers 1 and 2, the
new revision has number 3. -/
theorem constructHistory_creates_next_revision_witness :
    (classifyLoop memClient limitOneApp
        ((World.start sharedNamespaceStore).listRevisions memClient limitOneApp.Namespace).1
        sharedNamespaceStore.revisions [] []).value
      = some (sharedNamespaceStore.revisions, []) ∧
    (createdRevisions (constructHistory memClient (World.start sharedNamespaceStore)
        limitOneApp).world.log).map (fun r => r.Revision) = [3] ∧
    ∃ patch err ups gets,
      (constructHistory memClient (World.start sharedNamespaceStore) limitOneApp).world.log
        = (World.start sharedNamespaceStore).log
            ++ [Event.listRevisions limitOneApp.Namespace none] ++ ups
            ++ [Event.createRevision (newHistory limitOneApp patch
                  (wrap64 (maxRevision sharedNamespaceStore.revisions + 1))) err]
            ++ gets ∧
      (∀ e ∈ ups, ∃ r er, e = Event.updateRevision r er) ∧
      (∀ e ∈ gets, ∃ ns n er, e = Event.getRevision ns n er) ∧
      ((∀ h ∈ sharedNamespaceStore.revisions, 0 ≤ h.Revision ∧ h.Revision < 2 ^ 63 - 1) →
        (newHistory limitOneApp patch
          (wrap64 (maxRevision sharedNamespaceStore.revisions + 1))).Revision
            = maxRevision sharedNamespaceStore.revisions + 1 ∧
        (sharedNamespaceStore.revisions = [] →
          (newHistory limitOneApp patch
            (wrap64 (maxRevision sharedNamespaceStore.revisions + 1))).Revision = 1) ∧
        (∀ h ∈ sharedNamespaceStore.revisions,
          h.Revision < (newHistory limitOneApp patch
            (wrap64 (maxRevision sharedNamespaceStore.revisions + 1))).Revision) ∧
        (sharedNamespaceStore.revisions ≠ [] → ∃ h ∈ sharedNamespaceStore.revisions,
          (newHistory limitOneApp patch
            (wrap64 (maxRevision sharedNamespaceStore.revisions + 1))).Revision
              = h.Revision + 1)) :=
  ⟨by decide, by decide,
    (constructHistory_creates_next_revision memClient (World.start sharedNamespaceStore)
      (classifyLoop memClient limitOneApp
        ((World.start sharedNamespaceStore).listRevisions memClient limitOneApp.Namespace).1
        sharedNamespaceStore.revisions [] []).world
      limitOneApp sharedNamespaceStore.revisions (sharedNamespaceStore.revisions, [])
      rfl (by decide) rfl).2⟩

/-- C8 (the code at the failing input): the store works, and its one revision has the
number -5 and does not match the spec. maxRevision returns 0 for the list of this one
revision, not its greatest number -5, and the revision constructHistory creates has the
number 1, not -5 + 1. -/
theorem constructHistory_negative_revision :
    negativeStore.revisions.map (fun r => r.Revision) = [-5] ∧
    (∀ h ∈ negativeStore.revisions, Match limitOneApp h = .ok false) ∧
    ((constructHistory memClient (World.start negativeStore) limitOneApp).value.map
        (fun res => res.2.map (fun r => r.Revision))) = some [-5] ∧
    maxRevision negativeStore.revisions = 0 ∧
    (createdRevisions (constructHistory memClient (World.start negativeStore)
        limitOneApp).world.log).map (fun r => r.Revision) = [1] ∧
    ((constructHistory memClient (World.start negativeStore) limitOneApp).value.map
        (fun res => res.1.map (fun r => r.Revision))) = some (some 1) ∧
    (1 : Int) ≠ -5 + 1 := by
  decide
/-! ### dedupCurHistories -/

/-- The first loop of dedupCurHistories either leaves `maxRevision` and `keepCur` as they
were, every number being below `maxRevision`, or ends with the last revision whose number
is the greatest. -/
theorem keepStep_foldl (l : List ControllerRevision) :
    ∀ acc : Int × Option ControllerRevision,
      (l.foldl keepStep acc = acc ∧ ∀ h ∈ l, h.Revision < acc.1) ∨
      (∃ pre keep post, l = pre ++ keep :: post ∧
        l.foldl keepStep acc = (keep.Revision, some keep) ∧ acc.1 ≤ keep.Revision ∧
        (∀ h ∈ pre, h.Revision ≤ keep.Revision) ∧ (∀ h ∈ post, h.Revision < keep.Revision)) := by
  induction l with
  | nil => intro acc; left; simp
  | cons x rest ih =>
    intro acc
    simp only [List.foldl_cons]
    by_cases hx : x.Revision ≥ acc.1
    · have hstep : keepStep acc x = (x.Revision, some x) := by simp [keepStep, hx]
      rw [hstep]
      rcases ih (x.Revision, some x) with ⟨heq, hlt⟩ | ⟨pre, keep, post, hl, heq, hle, hpre, hpost⟩
      · right
        exact ⟨[], x, rest, rfl, heq, hx, by simp, hlt⟩
      · right
        refine ⟨x :: pre, keep, post, by rw [hl]; rfl, heq, ?_, ?_, hpost⟩
        · simp only at hle; omega
        · intro h hh
          rcases List.mem_cons.mp hh with rfl | hr
          · exact hle
          · exact hpre h hr
    · have hstep : keepStep acc x = acc := by simp [keepStep, hx]
      rw [hstep]
      rcases ih acc with ⟨heq, hlt⟩ | ⟨pre, keep, post, hl, heq, hle, hpre, hpost⟩
      · left
        refine ⟨heq, ?_⟩
        intro h hh
        rcases List.mem_cons.mp hh with rfl | hr
        · omega
        · exact hlt h hr
      · right
        refine ⟨x :: pre, keep, post, by rw [hl]; rfl, heq, hle, ?_, hpost⟩
        intro h hh
        rcases List.mem_cons.mp hh with rfl | hr
        · omega
        · exact hpre h hr

/-- The calls of the second loop of dedupCurHistories are deletes; when none of them
returns an error, the loop returns nil and has deleted the revisions whose name is not the
name of the revision kept. -/
theorem dedupLoop_trace {σ : Type} (c : Client σ) (keep : ControllerRevision)
    (l : List ControllerRevision) :
    ∀ w : World σ, ∃ evs,
      (dedupLoop c (some keep) w l).world.log = w.log ++ evs ∧
      (∀ e ∈ evs, ∃ r err, e = Event.deleteRevision r err) ∧
      ((∀ r err, Event.deleteRevision r (some err) ∈ evs → False) →
        dedupLoop c (some keep) w l = .ok (dedupLoop c (some keep) w l).world () ∧
        (∀ e ∈ evs, ∃ r, e = Event.deleteRevision r none) ∧
        deletedRevisions evs = l.filter (fun h => decide (h.Name ≠ keep.Name))) := by
  induction l with
  | nil =>
    intro w
    exact ⟨[], by simp [dedupLoop, Outcome.world], by simp,
      fun _ => by simp [dedupLoop, Outcome.world, deletedRevisions]⟩
  | cons cur rest ih =>
    intro w
    by_cases hn : cur.Name = keep.Name
    · obtain ⟨evs, hlog, hform, hok⟩ := ih w
      have hstep : dedupLoop c (some keep) w (cur :: rest) = dedupLoop c (some keep) w rest := by
        simp [dedupLoop, hn]
      refine ⟨evs, by rw [hstep, hlog], hform, ?_⟩
      intro hnone
      obtain ⟨h1, h2, h3⟩ := hok hnone
      rw [hstep]
      refine ⟨h1, h2, ?_⟩
      rw [h3]; simp [List.filter_cons, hn]
    · cases herr : (c.DeleteRevision w.st cur).2 with
      | some err =>
        have hstep : dedupLoop c (some keep) w (cur :: rest)
            = .fail (w.deleteRevision c cur).1 err := by
          simp [dedupLoop, hn, World.deleteRevision, herr]
        refine ⟨[Event.deleteRevision cur (some err)], ?_, ?_, ?_⟩
        · rw [hstep]; simp [World.deleteRevision, herr, Outcome.world]
        · intro e he; exact ⟨_, _, List.mem_singleton.mp he⟩
        · intro hnone
          exact absurd (List.mem_singleton.mpr rfl) (fun h => hnone cur err h)
      | none =>
        obtain ⟨evs, hlog, hform, hok⟩ := ih (w.deleteRevision c cur).1
        have hstep : dedupLoop c (some keep) w (cur :: rest)
            = dedupLoop c (some keep) (w.deleteRevision c cur).1 rest := by
          simp [dedupLoop, hn, World.deleteRevision, herr]
        refine ⟨Event.deleteRevision cur none :: evs, ?_, ?_, ?_⟩
        · rw [hstep, hlog]; simp [World.deleteRevision, herr]
        · intro e he
          rcases List.mem_cons.mp he with h | h
          · exact ⟨_, _, h⟩
          · exact hform e h
        · intro hnone
          obtain ⟨h1, h2, h3⟩ := hok (fun r err h => hnone r err (List.mem_cons_of_mem _ h))
          rw [hstep]
          refine ⟨h1, ?_, ?_⟩
          · intro e he
            rcases List.mem_cons.mp he with h | h
            · exact ⟨_, h⟩
            · exact h2 e h
          · simp [deletedRevisions, h3, List.filter_cons, hn]

/-- The revision dedupCurHistories keeps when a revision number is not negative. For two
or more matching revisions with distinct names, one of which has a revision number that is
not negative, when every delete that is issued succeeds, dedupCurHistories returns without
error a member `keep` of the list whose revision number is the greatest; of the members
with this number it is the last one in list order; the calls issued are the deletes of all
the other members, in list order, and there is none for `keep`. -/
theorem dedupCurHistories_keeps_last_max {σ : Type} (c : Client σ) (w : World σ)
    (curHistories : List ControllerRevision)
    (hlen : 2 ≤ curHistories.length)
    (hnonneg : ∃ h ∈ curHistories, 0 ≤ h.Revision)
    (hnames : (curHistories.map (fun h => h.Name)).Nodup)
    (hdel : ∀ r err, Event.deleteRevision r (some err)
        ∈ issued w (dedupCurHistories c w curHistories) → False) :
    ∃ w' keep pre post evs,
      dedupCurHistories c w curHistories = .ok w' (some keep) ∧
      curHistories = pre ++ keep :: post ∧
      (∀ h ∈ pre, h.Revision ≤ keep.Revision) ∧
      (∀ h ∈ post, h.Revision < keep.Revision) ∧
      w'.log = w.log ++ evs ∧
      (∀ e ∈ evs, ∃ r, e = Event.deleteRevision r none) ∧
      deletedRevisions evs = pre ++ post := by
  rcases keepStep_foldl curHistories (0, none) with ⟨_, hlt⟩ | ⟨pre, keep, post, hl, heq, _, hpre, hpost⟩
  · obtain ⟨x, hx, h2⟩ := hnonneg
    have h1 := hlt x hx
    simp only at h1
    omega
  · have hrun : dedupCurHistories c w curHistories
        = match dedupLoop c (some keep) w curHistories with
          | .ok w1 _ => .ok w1 (some keep)
          | .fail w1 err => .fail w1 err
          | .panic w1 msg => .panic w1 msg := by
      match curHistories, hlen, heq with
      | [], hlen, _ => simp at hlen
      | [_], hlen, _ => simp at hlen
      | a :: b :: rest, _, heq => simp only [dedupCurHistories, heq]
    obtain ⟨evs, hlog, hform, hok⟩ := dedupLoop_trace c keep curHistories w
    have hworld : (dedupCurHistories c w curHistories).world
        = (dedupLoop c (some keep) w curHistories).world := by
      rw [hrun]; cases dedupLoop c (some keep) w curHistories <;> rfl
    have hissued : issued w (dedupCurHistories c w curHistories) = evs := by
      simp [issued, hworld, hlog]
    rw [hissued] at hdel
    obtain ⟨hres, hnoerr, hdeleted⟩ := hok hdel
    have hfilter : curHistories.filter (fun h => decide (h.Name ≠ keep.Name)) = pre ++ post := by
      rw [hl] at hnames ⊢
      rw [List.map_append, List.map_cons, List.nodup_append] at hnames
      obtain ⟨_, hkp, hdisj⟩ := hnames
      rw [List.nodup_cons] at hkp
      have hpre' : ∀ h ∈ pre, h.Name ≠ keep.Name := by
        intro h hh heq'
        exact hdisj (List.mem_map.mpr ⟨h, hh, rfl⟩) (by rw [heq']; exact List.mem_cons_self _ _)
      have hpost' : ∀ h ∈ post, h.Name ≠ keep.Name := by
        intro h hh heq'
        exact hkp.1 (by rw [← heq']; exact List.mem_map.mpr ⟨h, hh, rfl⟩)
      have e1 : pre.filter (fun h => decide (h.Name ≠ keep.Name)) = pre := by
        rw [List.filter_eq_self]; intro h hh; simpa using hpre' h hh
      have e2 : post.filter (fun h => decide (h.Name ≠ keep.Name)) = post := by
        rw [List.filter_eq_self]; intro h hh; simpa using hpost' h hh
      rw [List.filter_append, List.filter_cons, e1, e2]
      simp
    refine ⟨(dedupLoop c (some keep) w curHistories).world, keep, pre, post, evs,
      ?_, hl, hpre, hpost, hlog, hnoerr, ?_⟩
    · rw [hrun]
      cases hd : dedupLoop c (some keep) w curHistories with
      | ok w1 u => rfl
      | fail w1 err => rw [hd] at hres; simp at hres
      | panic w1 msg => rw [hd] at hres; simp at hres
    · rw [hdeleted, hfilter]

/-- An instance: of four revisions of numbers 2, 5, 5, 1 the second of the two revisions
of number 5 is kept, the three others are deleted. -/
theorem dedupCurHistories_keeps_last_max_witness :
    (dedupCurHistories memClient (World.start duplicateStore) duplicateRevisions).value
      = some (some (exampleRevision "dup-c" "same" 5 [])) ∧
    ∃ w' keep pre post evs,
      dedupCurHistories memClient (World.start duplicateStore) duplicateRevisions
        = .ok w' (some keep) ∧
      duplicateRevisions = pre ++ keep :: post ∧
      (∀ h ∈ pre, h.Revision ≤ keep.Revision) ∧
      (∀ h ∈ post, h.Revision < keep.Revision) ∧
      w'.log = (World.start duplicateStore).log ++ evs ∧
      (∀ e ∈ evs, ∃ r, e = Event.deleteRevision r none) ∧
      deletedRevisions evs = pre ++ post :=
  ⟨by decide,
   dedupCurHistories_keeps_last_max memClient (World.start duplicateStore) duplicateRevisions
    (by decide) (by decide) (by decide)
    (by
      intro r err h
      have hl : issued (World.start duplicateStore)
          (dedupCurHistories memClient (World.start duplicateStore) duplicateRevisions)
          = [Event.deleteRevision (exampleRevision "dup-a" "same" 2 []) none,
             Event.deleteRevision (exampleRevision "dup-b" "same" 5 []) none,
             Event.deleteRevision (exampleRevision "dup-d" "same" 1 []) none] := by
        decide
      rw [hl] at h
      simp at h)⟩

/-- C9 (the code at the failing input): two matching revisions with distinct names have
the numbers -1 and -2, and the store holds both, so every delete would succeed. No
revision number reaches the initial `maxRevision` of 0, `keepCur` stays nil, and
dedupCurHistories ends in a nil dereference at the first comparison of names: it issues no
delete and returns no member of the list, where the revision of number -1 is the one of
the greatest number. -/
theorem dedupCurHistories_negative_numbers :
    2 ≤ negativeDuplicates.length ∧
    (negativeDuplicates.map (fun h => h.Name)).Nodup ∧
    negativeDuplicates.map (fun h => h.Revision) = [-1, -2] ∧
    negativeDuplicates.foldl keepStep (0, none) = (0, none) ∧
    (dedupCurHistories memClient
        (World.start { apps := [], revisions := negativeDuplicates, resources := [] })
        negativeDuplicates).panicked = true ∧
    (dedupCurHistories memClient
        (World.start { apps := [], revisions := negativeDuplicates, resources := [] })
        negativeDuplicates).value = none ∧
    (dedupCurHistories memClient
        (World.start { apps := [], revisions := negativeDuplicates, resources := [] })
        negativeDuplicates).world.log = [] := by
  decide

/-- C10 (the code at the failing input): of three duplicates that were listed, the first
is gone from the store when dedupCurHistories runs. The delete of it reports not-found,
and dedupCurHistories returns this error: it returns no revision, and the other duplicate
is not deleted. -/
theorem dedupCurHistories_not_found_is_returned :
    (dedupCurHistories memClient (World.start staleStore) staleDuplicates).error
      = some (notFound "dup-a") ∧
    IsNotFound (notFound "dup-a") = true ∧
    (dedupCurHistories memClient (World.start staleStore) staleDuplicates).value = none ∧
    (dedupCurHistories memClient (World.start staleStore) staleDuplicates).world.log
      = [Event.deleteRevision (exampleRevision "dup-a" "same" 1 [])
          (some (notFound "dup-a"))] ∧
    (dedupCurHistories memClient (World.start staleStore) staleDuplicates).world.st.revisions
      = staleStore.revisions := by
  decide

/-! ### constructHistory: the current revision it returns -/

/-- C11 (the code at the failing input): the store holds one revision, which the
application owns and which matches its spec. constructHistory returns without error, and
its first result is nil: the revision kept by dedupCurHistories is bound to a variable of
the `default` branch, not to the variable that is returned. In an empty store, where the
snapshot is created, the first result is not nil. -/
theorem constructHistory_returns_nil_current :
    (∀ h ∈ matchingStore.revisions, Match limitOneApp h = .ok true) ∧
    (dedupCurHistories memClient (World.start matchingStore) matchingStore.revisions).value
      = some (some (exampleRevision "app-1" limitOnePatch 1 [NewControllerRef limitOneApp])) ∧
    (constructHistory memClient (World.start matchingStore) limitOneApp).value
      = some (none, []) ∧
    (constructHistory memClient (World.start matchingStore) limitOneApp).error = none ∧
    (constructHistory memClient (World.start matchingStore) limitOneApp).panicked = false ∧
    ((constructHistory memClient (World.start emptyStore) limitOneApp).value.map
        (fun res => res.1.isSome)) = some true := by
  decide

/-! ### resourceStatuses -/

theorem resourceStatuses_statuses (st : Unstructured → String × Option APIError)
    (resources : List Unstructured) :
    ∀ (statuses : List ResourceStatus) (errs : List APIError),
      (resourceStatuses st resources statuses errs).1
        = statuses ++ resources.map (fun r =>
            { Resource := referenceOf r, ComputedStatus := (st r).1, Status := none }) := by
  induction resources with
  | nil => intro statuses errs; simp [resourceStatuses]
  | cons r rest ih =>
    intro statuses errs
    simp only [resourceStatuses, ih, List.map_cons, List.append_assoc, List.singleton_append]
    rfl

/-- C12: resourceStatuses returns one status per child, in input order, made of the
reference of the child and of the computed status the interpreter returned for it, and
the error list it leaves is the list it was given followed by the errors of the
interpreter, in input order. With the status interpreter of the specification, the
computed status recorded for a child on which the interpreter fails is Unknown, and the
children after it get their statuses like the others. -/
theorem resourceStatuses_one_per_child (st : Unstructured → String × Option APIError)
    (interpret : Unstructured → Except APIError String)
    (resources : List Unstructured) (errs : List APIError) :
    (resourceStatuses st resources [] errs).1
      = resources.map (fun r =>
          { Resource := referenceOf r, ComputedStatus := (st r).1, Status := none }) ∧
    (resourceStatuses st resources [] errs).1.length = resources.length ∧
    (resourceStatuses st resources [] errs).2 = errs ++ interpreterErrors st resources ∧
    (resourceStatuses (status interpret) resources [] errs).1.map (fun os => os.ComputedStatus)
      = resources.map (fun r =>
          match interpret r with
          | .ok computed => computed
          | .error _ => StatusUnknown) ∧
    (resourceStatuses (status interpret) resources [] errs).2
      = errs ++ resources.filterMap (fun r =>
          match interpret r with
          | .ok _ => none
          | .error err => some err) := by
  have h1 := resourceStatuses_statuses st resources [] errs
  simp only [List.nil_append] at h1
  refine ⟨h1, by rw [h1, List.length_map], resourceStatuses_errors st resources [] errs, ?_, ?_⟩
  · rw [resourceStatuses_statuses, List.nil_append, List.map_map]
    apply List.map_congr_left
    intro r _
    simp only [Function.comp, status]
    cases interpret r <;> rfl
  · rw [resourceStatuses_errors]
    congr 1
    unfold interpreterErrors
    apply List.filterMap_congr
    intro r _
    simp only [status]
    cases interpret r <;> rfl

/-! ### getNewApplicationStatus: the Error condition -/

/-- The conditions of a type after setCondition on this type: the ones there were, with
the new status, reason and message, or the one new condition when there was none. -/
theorem setCondition_filter_eq (cs : List Condition) (t : String) (s : ConditionStatus)
    (r m : String) :
    (setCondition cs t s r m).filter (fun cond => cond.Typ = t)
      = if cs.filter (fun cond => cond.Typ = t) = [] then
          [{ Typ := t, Status := s, Reason := r, Message := m }]
        else (cs.filter (fun cond => cond.Typ = t)).map (fun cond =>
          { cond with Status := s, Reason := r, Message := m }) := by
  have hmap : ∀ l : List Condition,
      (l.map (fun cond => if cond.Typ = t then
          { cond with Status := s, Reason := r, Message := m } else cond)).filter
          (fun cond => cond.Typ = t)
        = (l.filter (fun cond => cond.Typ = t)).map (fun cond =>
            { cond with Status := s, Reason := r, Message := m }) := by
    intro l
    induction l with
    | nil => rfl
    | cons c rest ih =>
      by_cases hc : c.Typ = t
      · simp [List.filter_cons, hc, ih]
      · simp [List.filter_cons, hc, ih]
  unfold setCondition
  split
  · rename_i hany
    have hne : cs.filter (fun cond => cond.Typ = t) ≠ [] := by
      obtain ⟨c, hc, ht⟩ := List.any_eq_true.mp hany
      intro hnil
      have : c ∈ cs.filter (fun cond => cond.Typ = t) := List.mem_filter.mpr ⟨hc, ht⟩
      rw [hnil] at this
      exact absurd this (List.not_mem_nil _)
    rw [if_neg hne, hmap]
  · rename_i hany
    have hnil : cs.filter (fun cond => cond.Typ = t) = [] := by
      rw [List.filter_eq_nil_iff]
      intro c hc ht
      exact hany (List.any_eq_true.mpr ⟨c, hc, ht⟩)
    rw [if_pos hnil, List.filter_append, hnil]
    simp [List.filter_cons]

theorem any_eq_filter_ne_nil (cs : List Condition) (t : String) :
    cs.any (fun cond => cond.Typ = t) = true ↔ cs.filter (fun cond => cond.Typ = t) ≠ [] := by
  constructor
  · intro hany hnil
    obtain ⟨c, hc, ht⟩ := List.any_eq_true.mp hany
    have : c ∈ cs.filter (fun cond => cond.Typ = t) := List.mem_filter.mpr ⟨hc, ht⟩
    rw [hnil] at this
    exact absurd this (List.not_mem_nil _)
  · intro hne
    obtain ⟨c, hc⟩ := List.exists_mem_of_ne_nil _ hne
    obtain ⟨h1, h2⟩ := List.mem_filter.mp hc
    exact List.any_eq_true.mpr ⟨c, h1, h2⟩

/-- The Error conditions after clearErrorCondition: the ones there were, with the status
False. -/
theorem conditionsOf_clearErrorCondition_error (st : ApplicationStatus) :
    conditionsOf (clearErrorCondition st) Error
      = (conditionsOf st Error).map (fun cond =>
          { cond with Status := ConditionStatus.False, Reason := "NoError",
                      Message := "No error seen" }) := by
  unfold clearErrorCondition
  split
  · rename_i hany
    have hne := (any_eq_filter_ne_nil st.Conditions Error).mp hany
    unfold conditionsOf
    simp only []
    rw [setCondition_filter_eq, if_neg hne]
  · rename_i hany
    have hnil : st.Conditions.filter (fun cond => cond.Typ = Error) = [] := by
      by_contra hne
      exact hany ((any_eq_filter_ne_nil st.Conditions Error).mpr hne)
    unfold conditionsOf
    rw [hnil]; rfl

/-- The Error conditions of a status are those of its list of conditions whatever the
Ready condition has been set to. -/
theorem conditionsOf_error_setReady (st : ApplicationStatus) (s : ConditionStatus)
    (r m : String) :
    ({ st with Conditions := setCondition st.Conditions Ready s r m } : ApplicationStatus).Conditions.filter
        (fun cond => cond.Typ = Error)
      = st.Conditions.filter (fun cond => cond.Typ = Error) :=
  setCondition_filter_other st.Conditions Error Ready s r m (by decide)

/-- C13: the error list after the call is the list passed in (the apply errors) followed
by the errors of the status interpreter. When this list is not empty, the status has an
Error condition, and every Error condition is True with reason ErrorSeen and the text of
the aggregate of the list as its message. When the list is empty, the Error conditions
are the ones the application had, each with the status False, and there is none if there
was none. In both cases the Error conditions are those that setting or clearing the Error
condition gives on the status the application had: they do not depend on the resources
and their computed statuses. -/
theorem getNewApplicationStatus_error_condition
    (st : Unstructured → String × Option APIError) (app : Application)
    (resources : List Unstructured) (errList : List APIError) :
    (getNewApplicationStatus st app resources errList).2
      = errList ++ interpreterErrors st resources ∧
    ((getNewApplicationStatus st app resources errList).2 ≠ [] →
      conditionsOf (getNewApplicationStatus st app resources errList).1 Error ≠ [] ∧
      ∀ cond ∈ conditionsOf (getNewApplicationStatus st app resources errList).1 Error,
        cond.Status = ConditionStatus.True ∧ cond.Reason = "ErrorSeen" ∧
        cond.Message = aggregateMessage (getNewApplicationStatus st app resources errList).2) ∧
    ((getNewApplicationStatus st app resources errList).2 = [] →
      (conditionsOf (getNewApplicationStatus st app resources errList).1 Error).length
        = (conditionsOf app.Status Error).length ∧
      ∀ cond ∈ conditionsOf (getNewApplicationStatus st app resources errList).1 Error,
        cond.Status = ConditionStatus.False) ∧
    conditionsOf (getNewApplicationStatus st app resources errList).1 Error
      = conditionsOf
          (if (getNewApplicationStatus st app resources errList).2 = [] then
            clearErrorCondition app.Status
          else setErrorCondition app.Status "ErrorSeen"
            (aggregateMessage (getNewApplicationStatus st app resources errList).2)) Error := by
  have herrs := resourceStatuses_errors st resources [] errList
  have hsnd : (getNewApplicationStatus st app resources errList).2
      = (resourceStatuses st resources [] errList).2 := by
    simp [getNewApplicationStatus]
  cases hres : (resourceStatuses st resources [] errList).2 with
  | nil =>
    have hcond : conditionsOf (getNewApplicationStatus st app resources errList).1 Error
        = (conditionsOf app.Status Error).map (fun cond =>
            { cond with Status := ConditionStatus.False, Reason := "NoError",
                        Message := "No error seen" }) := by
      simp only [getNewApplicationStatus, hres, NewAggregate, List.isEmpty_nil, if_true]
      rw [conditionsOf_clearErrorCondition_error]
      congr 1
      split
      · exact conditionsOf_error_setReady _ _ _ _
      · exact conditionsOf_error_setReady _ _ _ _
    refine ⟨by rw [hsnd, herrs], ?_, ?_, ?_⟩
    · intro hne; exact absurd (by rw [hsnd, hres]) hne
    · intro _
      refine ⟨by rw [hcond, List.length_map], ?_⟩
      intro cond hc
      rw [hcond] at hc
      obtain ⟨c0, _, rfl⟩ := List.mem_map.mp hc
      rfl
    · rw [hsnd, hres, if_pos rfl, hcond, conditionsOf_clearErrorCondition_error]
  | cons e rest =>
    have hcond : conditionsOf (getNewApplicationStatus st app resources errList).1 Error
        = (setCondition app.Status.Conditions Error .True "ErrorSeen"
            (aggregateMessage (e :: rest))).filter (fun cond => cond.Typ = Error) := by
      simp only [getNewApplicationStatus, hres, NewAggregate, List.isEmpty_cons,
        Bool.false_eq_true, if_false]
      unfold conditionsOf setErrorCondition setReadyUnknownCondition
      simp only []
      rw [setCondition_filter_eq, setCondition_filter_eq,
        setCondition_filter_other _ Error Ready _ _ _ (by decide)]
    have hsame := setCondition_filter_same app.Status.Conditions Error .True "ErrorSeen"
      (aggregateMessage (e :: rest))
    refine ⟨by rw [hsnd, herrs], ?_, ?_, ?_⟩
    · intro _
      rw [hcond, hsnd, hres]
      exact ⟨hsame.1, hsame.2⟩
    · intro hnil; rw [hsnd, hres] at hnil; exact absurd hnil (List.cons_ne_nil _ _)
    · rw [hsnd, hres, if_neg (List.cons_ne_nil _ _), hcond]
      rfl

/-! ### aggregateReady and the componentsReady text -/

theorem toString_natCast (n : Nat) : toString (n : Int) = toString n := rfl

/-- The setters of conditions leave the resource statuses and the componentsReady text of
getNewApplicationStatus as it wrote them. -/
theorem getNewApplicationStatus_fields (st : Unstructured → String × Option APIError)
    (app : Application) (resources : List Unstructured) (errList : List APIError) :
    (getNewApplicationStatus st app resources errList).1.ResourceStatuses
      = (resourceStatuses st resources [] errList).1 ∧
    (getNewApplicationStatus st app resources errList).1.ComponentsReady
      = toString (aggregateReady (resourceStatuses st resources [] errList).1).2 ++ "/"
          ++ toString (resourceStatuses st resources [] errList).1.length := by
  cases hres : (resourceStatuses st resources [] errList).2 with
  | nil =>
    simp only [getNewApplicationStatus, hres, NewAggregate, List.isEmpty_nil, if_true]
    split <;> (unfold clearErrorCondition; split <;> exact ⟨rfl, rfl⟩)
  | cons e rest =>
    simp only [getNewApplicationStatus, hres, NewAggregate, List.isEmpty_cons,
      Bool.false_eq_true, if_false]
    exact ⟨rfl, rfl⟩

/-- C14: for a list of resource statuses of length `n`, with `c` the number of entries
whose computed status is Ready, aggregateReady returns `(c == n, c)`, and `0 ≤ c ≤ n`;
for the empty list it returns `(true, 0)`. The componentsReady text getNewApplicationStatus
writes is the decimal text of the number of Ready statuses, a slash, and the decimal text
of the number of statuses, which is the number of resources: `N/N` when all `N` children
are Ready, and `0/0` when there is no child. -/
theorem aggregateReady_components_ready (l : List ResourceStatus)
    (st : Unstructured → String × Option APIError) (app : Application)
    (resources : List Unstructured) (errList : List APIError) :
    aggregateReady l
      = (decide ((l.filter (fun os => os.ComputedStatus = StatusReady)).length = l.length),
         ((l.filter (fun os => os.ComputedStatus = StatusReady)).length : Int)) ∧
    (l.filter (fun os => os.ComputedStatus = StatusReady)).length ≤ l.length ∧
    aggregateReady [] = (true, 0) ∧
    (getNewApplicationStatus st app resources errList).1.ResourceStatuses.length
      = resources.length ∧
    (getNewApplicationStatus st app resources errList).1.ComponentsReady
      = toString (((getNewApplicationStatus st app resources errList).1.ResourceStatuses.filter
            (fun os => os.ComputedStatus = StatusReady)).length)
          ++ "/" ++ toString resources.length ∧
    ((∀ os ∈ (getNewApplicationStatus st app resources errList).1.ResourceStatuses,
        os.ComputedStatus = StatusReady) →
      (getNewApplicationStatus st app resources errList).1.ComponentsReady
        = toString resources.length ++ "/" ++ toString resources.length) ∧
    (resources = [] →
      (getNewApplicationStatus st app resources errList).1.ComponentsReady = "0/0") := by
  obtain ⟨hcount, hflag⟩ := aggregateReady_spec l
  obtain ⟨hstat, htext⟩ := getNewApplicationStatus_fields st app resources errList
  have hlen : (resourceStatuses st resources [] errList).1.length = resources.length := by
    rw [resourceStatuses_statuses]; simp
  have htext' : (getNewApplicationStatus st app resources errList).1.ComponentsReady
      = toString (((getNewApplicationStatus st app resources errList).1.ResourceStatuses.filter
            (fun os => os.ComputedStatus = StatusReady)).length)
          ++ "/" ++ toString resources.length := by
    rw [htext, hstat, (aggregateReady_spec _).1, toString_natCast, hlen]
  refine ⟨?_, List.length_filter_le _ _, by decide, by rw [hstat, hlen], htext', ?_, ?_⟩
  · apply Prod.ext
    · simp only []
      by_cases hall : (l.filter (fun os => os.ComputedStatus = StatusReady)).length = l.length
      · rw [decide_eq_true hall]
        exact hflag.mpr (List.filter_length_eq_length.mp hall |> fun h os hos => by
          simpa using h os hos)
      · rw [decide_eq_false hall]
        cases hb : (aggregateReady l).1 with
        | false => rfl
        | true =>
          exfalso
          apply hall
          rw [List.filter_length_eq_length]
          intro os hos
          simpa using hflag.mp hb os hos
    · exact hcount
  · intro hall
    rw [htext']
    have : ((getNewApplicationStatus st app resources errList).1.ResourceStatuses.filter
        (fun os => os.ComputedStatus = StatusReady)).length
        = (getNewApplicationStatus st app resources errList).1.ResourceStatuses.length := by
      rw [List.filter_length_eq_length]
      intro os hos
      simpa using hall os hos
    rw [this, hstat, hlen]
  · intro hnil
    rw [htext', hstat, hnil]
    simp [resourceStatuses]
    rfl

/-! ### cleanupHistory: retention limit 1 and three old revisions -/

/-- C15 (as amended): with retention limit 1 and three old revisions with the numbers 1, 2
and 3, for a sort that meets the contract of `sort.Sort`, when every delete that is issued
succeeds or reports not-found, cleanupHistory returns nil and deletes the revisions with
the numbers 1 and 2, in this order; the revision with the number 3 is not deleted. -/
theorem cleanupHistory_limit_one_of_three {σ : Type}
    (sortFn : List ControllerRevision → List ControllerRevision) (c : Client σ) (w : World σ)
    (app : Application) (olds : List ControllerRevision)
    (hlimit : app.Spec.RevisionHistoryLimit = some 1)
    (holds : (olds.map (fun r => r.Revision)).Perm [1, 2, 3])
    (hperm : (sortFn olds).Perm olds)
    (hsorted : (sortFn olds).Pairwise (fun a b => Less b a = false))
    (hdel : ∀ r err, Event.deleteRevision r (some err)
        ∈ issued w (cleanupHistory sortFn c w app olds) → IsNotFound err = true) :
    ∃ w' evs,
      cleanupHistory sortFn c w app olds = .ok w' () ∧
      w'.log = w.log ++ evs ∧
      (∀ e ∈ evs, ∃ r err, e = Event.deleteRevision r err) ∧
      (deletedRevisions evs).map (fun r => r.Revision) = [1, 2] ∧
      ∀ r ∈ deletedRevisions evs, r.Revision ≠ 3 := by
  have hlen : olds.length = 3 := by
    have := holds.length_eq
    simpa using this
  have hrun : cleanupHistory sortFn c w app olds = cleanupLoop c w 2 (sortFn olds) := by
    simp [cleanupHistory, hlimit, hlen]
  obtain ⟨evs, hlog, hform, hok⟩ := cleanupLoop_trace c (sortFn olds) w 2
  have hissued : issued w (cleanupHistory sortFn c w app olds) = evs := by
    simp [issued, hrun, hlog]
  rw [hissued] at hdel
  obtain ⟨hres, hdeleted⟩ := hok hdel
  have hnums : (sortFn olds).map (fun r => r.Revision) = [1, 2, 3] := by
    apply List.eq_of_perm_of_sorted (r := LE.le) ((hperm.map _).trans holds)
    · rw [List.Sorted, List.pairwise_map]
      exact hsorted.imp (fun {a b} h => by simpa [Less] using h)
    · decide
  have htake : (deletedRevisions evs).map (fun r => r.Revision) = [1, 2] := by
    rw [hdeleted, List.map_take, hnums]
    rfl
  refine ⟨(cleanupLoop c w 2 (sortFn olds)).world, evs, ?_, hlog, hform, htake, ?_⟩
  · rw [hrun]; exact hres
  · intro r hr h3
    have : r.Revision ∈ (deletedRevisions evs).map (fun r => r.Revision) :=
      List.mem_map.mpr ⟨r, hr, rfl⟩
    rw [htake, h3] at this
    simp at this

/-- The instance of C15 in the store that holds the three revisions. -/
theorem cleanupHistory_limit_one_of_three_witness :
    ∃ w' evs,
      cleanupHistory sortByRevision memClient (World.start threeRevisionStore) limitOneApp
        threeRevisions = .ok w' () ∧
      w'.log = (World.start threeRevisionStore).log ++ evs ∧
      (∀ e ∈ evs, ∃ r err, e = Event.deleteRevision r err) ∧
      (deletedRevisions evs).map (fun r => r.Revision) = [1, 2] ∧
      ∀ r ∈ deletedRevisions evs, r.Revision ≠ 3 :=
  cleanupHistory_limit_one_of_three sortByRevision memClient (World.start threeRevisionStore)
    limitOneApp threeRevisions rfl (by decide) (by decide) (by decide)
    (by
      intro r err h
      have hl : issued (World.start threeRevisionStore)
          (cleanupHistory sortByRevision memClient (World.start threeRevisionStore) limitOneApp
            threeRevisions)
          = [Event.deleteRevision (exampleRevision "r1" "" 1 []) none,
             Event.deleteRevision (exampleRevision "r2" "" 2 []) none] := by
        decide
      rw [hl] at h
      simp at h)

/-- C15 (counterexample): with retention limit 1 and the old revisions 1, 2 and 3,
cleanupHistory deletes the revisions 1 and 2 only; revision 3 is left in the store. -/
theorem cleanupHistory_keeps_newest_old_revision :
    limitOneApp.Spec.RevisionHistoryLimit = some 1 ∧
    (threeRevisions.map (fun r => r.Revision)).Perm [1, 2, 3] ∧
    (deletedRevisions (cleanupHistory sortByRevision memClient (World.start threeRevisionStore)
        limitOneApp threeRevisions).world.log).map (fun r => r.Revision) = [1, 2] ∧
    ((cleanupHistory sortByRevision memClient (World.start threeRevisionStore)
        limitOneApp threeRevisions).world.st.revisions.map (fun r => r.Revision)) = [3] ∧
    (cleanupHistory sortByRevision memClient (World.start threeRevisionStore)
        limitOneApp threeRevisions).error = none := by
  decide

/-! ### ComputeHash and the order of fields -/

theorem JList.normalize_ofList (xs : List JSON) :
    JList.normalize (JList.ofList xs) = JList.ofList (xs.map JSON.normalize) := by
  induction xs with
  | nil => simp [JList.ofList, JList.normalize]
  | cons x rest ih => simp [JList.ofList, JList.normalize, ih]

theorem JFields.hasKey_ofList (key : String) (l : List (String × JSON)) :
    JFields.hasKey key (JFields.ofList l) = l.any (fun kv => kv.1 == key) := by
  induction l with
  | nil => simp [JFields.ofList, JFields.hasKey]
  | cons kv rest ih =>
    obtain ⟨k, v⟩ := kv
    simp [JFields.ofList, JFields.hasKey, ih]

/-- No string is less than itself. -/
theorem strLess_irrefl (a : String) : strLess a a = false := by
  simp [strLess]

/-- The order of the keys is transitive. -/
theorem strLess_trans (a b c : String) (h1 : strLess a b = true) (h2 : strLess b c = true) :
    strLess a c = true := by
  simp only [strLess, decide_eq_true_eq] at *
  exact lt_trans h1 h2

/-- Of two different strings one is less than the other. -/
theorem strLess_total (a b : String) (hne : a ≠ b) (h : strLess a b = false) :
    strLess b a = true := by
  simp only [strLess, decide_eq_true_eq, decide_eq_false_iff_not] at *
  rcases lt_trichotomy a.data b.data with h1 | h1 | h1
  · exact absurd h1 h
  · exact absurd (String.ext h1) hne
  · exact h1

/-- Of two strings at most one is less than the other. -/
theorem strLess_asymm (a b : String) (h : strLess a b = true) : strLess b a = false := by
  simp only [strLess, decide_eq_true_eq, decide_eq_false_iff_not] at *
  exact lt_asymm h

/-- Two fields of different keys can be put into a field list in either order. -/
theorem JFields.insertSorted_comm (k₁ k₂ : String) (v₁ v₂ : JSON) (hne : k₁ ≠ k₂) :
    ∀ f : JFields,
      JFields.insertSorted k₁ v₁ (JFields.insertSorted k₂ v₂ f)
        = JFields.insertSorted k₂ v₂ (JFields.insertSorted k₁ v₁ f)
  | .nil => by
    by_cases h12 : strLess k₁ k₂ = true
    · have h21 := strLess_asymm _ _ h12
      simp [JFields.insertSorted, h12, h21]
    · have h12' : strLess k₁ k₂ = false := by simpa using h12
      have h21 := strLess_total _ _ hne h12'
      simp [JFields.insertSorted, h12', h21]
  | .cons k v t => by
    have ih := JFields.insertSorted_comm k₁ k₂ v₁ v₂ hne t
    by_cases h1 : strLess k₁ k = true <;> by_cases h2 : strLess k₂ k = true
    · by_cases h12 : strLess k₁ k₂ = true
      · have h21 := strLess_asymm _ _ h12
        simp [JFields.insertSorted, h1, h2, h12, h21]
      · have h12' : strLess k₁ k₂ = false := by simpa using h12
        have h21 := strLess_total _ _ hne h12'
        simp [JFields.insertSorted, h1, h2, h12', h21]
    · have h2' : strLess k₂ k = false := by simpa using h2
      have h12 : strLess k₁ k₂ = true := by
        by_contra hc
        have hc' : strLess k₁ k₂ = false := by simpa using hc
        have := strLess_trans _ _ _ (strLess_total _ _ hne hc') h1
        rw [this] at h2'; exact absurd h2' (by simp)
      have h21 := strLess_asymm _ _ h12
      simp [JFields.insertSorted, h1, h2', h12, h21]
    · have h1' : strLess k₁ k = false := by simpa using h1
      have h21 : strLess k₂ k₁ = true := by
        by_contra hc
        have hc' : strLess k₂ k₁ = false := by simpa using hc
        have := strLess_trans _ _ _ (strLess_total _ _ (Ne.symm hne) hc') h2
        rw [this] at h1'; exact absurd h1' (by simp)
      have h12 := strLess_asymm _ _ h21
      simp [JFields.insertSorted, h1', h2, h21, h12]
    · have h1' : strLess k₁ k = false := by simpa using h1
      have h2' : strLess k₂ k = false := by simpa using h2
      simp [JFields.insertSorted, h1', h2', ih]

/-- The map of the fields of an object whose keys are distinct does not depend on the
order in which the fields are written. -/
theorem JFields.normalize_perm {l₁ l₂ : List (String × JSON)} (hperm : l₁.Perm l₂)
    (hkeys : (l₁.map (fun kv => kv.1)).Nodup) :
    JFields.normalize (JFields.ofList l₁) = JFields.normalize (JFields.ofList l₂) := by
  induction hperm with
  | nil => rfl
  | cons x hp ih =>
    obtain ⟨k, v⟩ := x
    rename_i la lb
    simp only [List.map_cons, List.nodup_cons] at hkeys
    have ha : la.any (fun kv => kv.1 == k) = false := by
      rw [List.any_eq_false]
      intro kv hkv heq
      exact hkeys.1 (List.mem_map.mpr ⟨kv, hkv, by simpa using heq⟩)
    have hb : lb.any (fun kv => kv.1 == k) = false := by
      rw [List.any_eq_false]
      intro kv hkv heq
      exact hkeys.1 (List.mem_map.mpr ⟨kv, hp.mem_iff.mpr hkv, by simpa using heq⟩)
    simp only [JFields.ofList, JFields.normalize, JFields.hasKey_ofList, ha, hb,
      ih hkeys.2]
  | swap x y l =>
    obtain ⟨k₁, v₁⟩ := x
    obtain ⟨k₂, v₂⟩ := y
    simp only [List.map_cons, List.nodup_cons, List.mem_cons, not_or] at hkeys
    obtain ⟨⟨hne, h2⟩, h1, _⟩ := hkeys
    have a1 : l.any (fun kv => kv.1 == k₁) = false := by
      rw [List.any_eq_false]
      intro kv hkv heq
      exact h1 (List.mem_map.mpr ⟨kv, hkv, by simpa using heq⟩)
    have a2 : l.any (fun kv => kv.1 == k₂) = false := by
      rw [List.any_eq_false]
      intro kv hkv heq
      exact h2 (List.mem_map.mpr ⟨kv, hkv, by simpa using heq⟩)
    have e1 : (k₁ == k₂) = false := by simpa using Ne.symm hne
    have e2 : (k₂ == k₁) = false := by simpa using hne
    simp only [JFields.ofList, JFields.normalize, JFields.hasKey, JFields.hasKey_ofList, a1, a2,
      e1, e2, Bool.or_self, Bool.false_eq_true, if_false]
    exact JFields.insertSorted_comm k₂ k₁ _ _ hne _
  | trans hp₁ hp₂ ih₁ ih₂ =>
    rw [ih₁ hkeys, ih₂ ((hp₁.map _).nodup_iff.mp hkeys)]

/-- Two documents that are objects with the same fields of distinct keys, written in
different orders, are equal once decoded. -/
theorem JSON.normalize_obj_perm {l₁ l₂ : List (String × JSON)} (hperm : l₁.Perm l₂)
    (hkeys : (l₁.map (fun kv => kv.1)).Nodup) :
    JSON.normalize (JSON.obj (JFields.ofList l₁))
      = JSON.normalize (JSON.obj (JFields.ofList l₂)) := by
  simp only [JSON.normalize, JFields.normalize_perm hperm hkeys]

/-- The map of the fields of an object depends on the keys and on the decoded values
only. -/
theorem JFields.normalize_congr (l₁ : List (String × JSON)) :
    ∀ l₂ : List (String × JSON),
      l₁.map (fun kv => (kv.1, JSON.normalize kv.2))
        = l₂.map (fun kv => (kv.1, JSON.normalize kv.2)) →
      JFields.normalize (JFields.ofList l₁) = JFields.normalize (JFields.ofList l₂) := by
  induction l₁ with
  | nil =>
    intro l₂ h
    cases l₂ with
    | nil => rfl
    | cons _ _ => simp at h
  | cons kv₁ rest₁ ih =>
    intro l₂ h
    cases l₂ with
    | nil => simp at h
    | cons kv₂ rest₂ =>
      obtain ⟨k₁, v₁⟩ := kv₁
      obtain ⟨k₂, v₂⟩ := kv₂
      simp only [List.map_cons, List.cons.injEq, Prod.mk.injEq] at h
      obtain ⟨⟨hk, hv⟩, hrest⟩ := h
      subst hk
      have hkeys : rest₁.any (fun kv => kv.1 == k₁) = rest₂.any (fun kv => kv.1 == k₁) := by
        have h1 : rest₁.map (fun kv => kv.1) = rest₂.map (fun kv => kv.1) := by
          have := congrArg (List.map (fun p : String × JSON => p.1)) hrest
          simpa [List.map_map, Function.comp] using this
        have h2 : ∀ l : List (String × JSON),
            l.any (fun kv => kv.1 == k₁) = (l.map (fun kv => kv.1)).any (fun k => k == k₁) := by
          intro l
          induction l with
          | nil => rfl
          | cons x xs ihx => simp only [List.any_cons, List.map_cons, ihx]
        rw [h2, h2, h1]
      simp only [JFields.ofList, JFields.normalize, JFields.hasKey_ofList, hkeys, hv,
        ih rest₂ hrest]

/-- The character of a digit is one of the ten digits and writes the digit. -/
theorem digitChar_decimal (k : Nat) (hk : k < 10) :
    Nat.digitChar k ∈ decimalDigits ∧ (Nat.digitChar k).toNat - 48 = k := by
  interval_cases k <;> exact ⟨by decide, by decide⟩

/-- The digits `Nat.toDigitsCore` puts before a list are decimal digits and write the
number. -/
theorem toDigitsCore_decimal (fuel : Nat) :
    ∀ (n : Nat) (ds : List Char), n < fuel →
      ∃ pre, Nat.toDigitsCore 10 fuel n ds = pre ++ ds ∧
        (∀ ch ∈ pre, ch ∈ decimalDigits) ∧ readDigits 0 pre = n := by
  induction fuel with
  | zero => intro n ds h; omega
  | succ fuel ih =>
    intro n ds hn
    obtain ⟨hd1, hd2⟩ := digitChar_decimal (n % 10) (Nat.mod_lt _ (by norm_num))
    by_cases h0 : n / 10 = 0
    · refine ⟨[Nat.digitChar (n % 10)], by simp [Nat.toDigitsCore, h0], ?_, ?_⟩
      · intro ch hch; rw [List.mem_singleton.mp hch]; exact hd1
      · simp only [readDigits, List.foldl_cons, List.foldl_nil, hd2]; omega
    · obtain ⟨pre, hpre, hdig, hval⟩ := ih (n / 10) (Nat.digitChar (n % 10) :: ds) (by omega)
      refine ⟨pre ++ [Nat.digitChar (n % 10)], by simp [Nat.toDigitsCore, h0, hpre], ?_, ?_⟩
      · intro ch hch
        rcases List.mem_append.mp hch with h | h
        · exact hdig ch h
        · rw [List.mem_singleton.mp h]; exact hd1
      · simp only [readDigits, List.foldl_append, List.foldl_cons, List.foldl_nil, hd2] at hval ⊢
        rw [hval]; omega

/-- The decimal text of a natural number consists of digits and writes the number. -/
theorem toString_nat_decimal (n : Nat) :
    (∀ ch ∈ (toString n).data, ch ∈ decimalDigits) ∧ readDigits 0 (toString n).data = n := by
  obtain ⟨pre, hpre, hdig, hval⟩ := toDigitsCore_decimal (n + 1) n [] (by omega)
  have : (toString n).data = pre := by
    show (Nat.repr n).data = pre
    simp [Nat.repr, Nat.toDigits, hpre, List.asString]
  rw [this]; exact ⟨hdig, hval⟩

/-- The letters `rand.SafeEncodeString` puts for the ten digits are distinct, so two lists
of digits with the same encoding are equal. -/
theorem SafeEncodeString_digits_injective :
    ∀ l₁ l₂ : List Char, (∀ ch ∈ l₁, ch ∈ decimalDigits) → (∀ ch ∈ l₂, ch ∈ decimalDigits) →
      l₁.map (fun ch => alphanums.getD (ch.toNat % alphanums.length) 'b')
        = l₂.map (fun ch => alphanums.getD (ch.toNat % alphanums.length) 'b') → l₁ = l₂ := by
  have key : ∀ c ∈ decimalDigits, ∀ d ∈ decimalDigits,
      alphanums.getD (c.toNat % alphanums.length) 'b'
        = alphanums.getD (d.toNat % alphanums.length) 'b' → c = d := by decide
  intro l₁
  induction l₁ with
  | nil => intro l₂ _ _ h; cases l₂ with
    | nil => rfl
    | cons _ _ => simp at h
  | cons x xs ih =>
    intro l₂ h1 h2 h
    cases l₂ with
    | nil => simp at h
    | cons y ys =>
      simp only [List.map_cons, List.cons.injEq] at h
      have hxy := key x (h1 x (List.mem_cons_self _ _)) y (h2 y (List.mem_cons_self _ _)) h.1
      have hrest := ih ys (fun ch hch => h1 ch (List.mem_cons_of_mem _ hch))
        (fun ch hch => h2 ch (List.mem_cons_of_mem _ hch)) h.2
      rw [hxy, hrest]

/-- The encoding of the decimal text of a number determines the number. -/
theorem SafeEncodeString_toString_injective (m n : Nat)
    (h : SafeEncodeString (toString m) = SafeEncodeString (toString n)) : m = n := by
  obtain ⟨hm1, hm2⟩ := toString_nat_decimal m
  obtain ⟨hn1, hn2⟩ := toString_nat_decimal n
  have hl : (toString m).data = (toString n).data := by
    apply SafeEncodeString_digits_injective _ _ hm1 hn1
    exact congrArg String.data h
  rw [← hm2, ← hn2, hl]

theorem omitEmptyList_congr (key : String) (xs ys : List JSON)
    (h : xs.map JSON.normalize = ys.map JSON.normalize) :
    (omitEmptyList key xs).map (fun kv => (kv.1, JSON.normalize kv.2))
      = (omitEmptyList key ys).map (fun kv => (kv.1, JSON.normalize kv.2)) := by
  cases xs with
  | nil =>
    cases ys with
    | nil => rfl
    | cons _ _ => simp at h
  | cons x xs' =>
    cases ys with
    | nil => simp at h
    | cons y ys' =>
      simp only [omitEmptyList, List.isEmpty_cons, Bool.false_eq_true, if_false, List.map_cons,
        List.map_nil, JSON.normalize, JList.normalize_ofList]
      rw [← List.map_cons, ← List.map_cons, h]

/-- The decoded spec depends on the resource templates through the decoded documents
only. -/
theorem specJSON_normalize_congr (s₁ s₂ : ApplicationSpec)
    (hsel : s₁.Selector = s₂.Selector) (hdesc : s₁.Descriptor = s₂.Descriptor)
    (hlim : s₁.RevisionHistoryLimit = s₂.RevisionHistoryLimit)
    (hdocs : s₁.Resources.map (fun t => JSON.normalize t.toJSON)
      = s₂.Resources.map (fun t => JSON.normalize t.toJSON)) :
    JSON.normalize s₁.toJSON = JSON.normalize s₂.toJSON := by
  unfold ApplicationSpec.toJSON
  simp only [JSON.normalize, JSON.obj.injEq]
  apply JFields.normalize_congr
  have hres := omitEmptyList_congr "resources" (s₁.Resources.map ResourceTemplate.toJSON)
    (s₂.Resources.map ResourceTemplate.toJSON)
    (by simpa [List.map_map, Function.comp] using hdocs)
  simp only [List.map_append, hres, hsel, hdesc, hlim]

/-- C16 (as amended): the hash string of ComputeHash encodes, without loss, the FNV-1a sum
of the marshalled text of the spec, in which every resource-template document stands as
it is written: two specs get the same hash exactly when the sums of their marshalled texts
are equal, so equal specs, and specs with the same marshalled text, get the same hash on
every call. For two applications that agree on selector, descriptor and retention limit
and whose template documents are equal once decoded (they differ in the order of their
fields only, see `JSON.normalize_obj_perm`), the payload of getPatch, which is marshalled
from a map, and the answer of Match are the same; the marshalled texts, and with them the
hashes, need not be. -/
theorem ComputeHash_of_marshalled_text (a b : Application)
    (hsel : a.Spec.Selector = b.Spec.Selector)
    (hdesc : a.Spec.Descriptor = b.Spec.Descriptor)
    (hlim : a.Spec.RevisionHistoryLimit = b.Spec.RevisionHistoryLimit)
    (hdocs : a.Spec.Resources.map (fun t => JSON.normalize t.toJSON)
      = b.Spec.Resources.map (fun t => JSON.normalize t.toJSON)) :
    (ComputeHash a.Spec = ComputeHash b.Spec ↔
      fnv32a (utf8Bytes (JSON.render a.Spec.toJSON))
        = fnv32a (utf8Bytes (JSON.render b.Spec.toJSON))) ∧
    (JSON.render a.Spec.toJSON = JSON.render b.Spec.toJSON →
      ComputeHash a.Spec = ComputeHash b.Spec) ∧
    getPatch a = getPatch b ∧
    ∀ history : ControllerRevision, Match a history = Match b history := by
  have hp : getPatch a = getPatch b := by
    rw [getPatch_eq, getPatch_eq, specJSON_normalize_congr a.Spec b.Spec hsel hdesc hlim hdocs]
  have hiff : ComputeHash a.Spec = ComputeHash b.Spec ↔
      fnv32a (utf8Bytes (JSON.render a.Spec.toJSON))
        = fnv32a (utf8Bytes (JSON.render b.Spec.toJSON)) := by
    constructor
    · intro h
      exact SafeEncodeString_toString_injective _ _ h
    · intro h
      simp only [ComputeHash, DeepHashObject, h]
  refine ⟨hiff, ?_, hp, ?_⟩
  · intro h; exact hiff.mpr (by rw [h])
  · intro history
    simp [Match, hp]

/-- The instance of C16 for the pod `a` written with `apiVersion` first and with `kind`
first: the patches are the same, and the hashes are equal exactly when the sums are. -/
theorem ComputeHash_of_marshalled_text_witness :
    (ComputeHash onePodApp.Spec = ComputeHash reorderedPodApp.Spec ↔
      fnv32a (utf8Bytes (JSON.render onePodApp.Spec.toJSON))
        = fnv32a (utf8Bytes (JSON.render reorderedPodApp.Spec.toJSON))) ∧
    (JSON.render onePodApp.Spec.toJSON = JSON.render reorderedPodApp.Spec.toJSON →
      ComputeHash onePodApp.Spec = ComputeHash reorderedPodApp.Spec) ∧
    getPatch onePodApp = getPatch reorderedPodApp ∧
    ∀ history : ControllerRevision, Match onePodApp history = Match reorderedPodApp history :=
  ComputeHash_of_marshalled_text onePodApp reorderedPodApp rfl rfl rfl (by decide)

set_option maxRecDepth 20000 in
/-- C16 (counterexample): two specs whose one template is the same pod, written with the
fields `apiVersion`, `kind` in one and `kind`, `apiVersion` in the other, and equal
otherwise, get different hashes: the sums of the two marshalled texts are 1578061511 and
2798455865. -/
theorem ComputeHash_changes_with_field_order :
    onePodApp.Spec.Resources.map (fun t => JSON.normalize t.toJSON)
      = reorderedPodApp.Spec.Resources.map (fun t => JSON.normalize t.toJSON) ∧
    onePodApp.Spec.Selector = reorderedPodApp.Spec.Selector ∧
    onePodApp.Spec.Descriptor = reorderedPodApp.Spec.Descriptor ∧
    onePodApp.Spec.RevisionHistoryLimit = reorderedPodApp.Spec.RevisionHistoryLimit ∧
    JSON.render onePodApp.Spec.toJSON
      = "\x7b\"resources\":[\x7b\"apiVersion\":\"v1\",\"kind\":\"Pod\",\"metadata\":\x7b\"name\":\"a\"\x7d\x7d],\"descriptor\":\x7b\x7d,\"revisionHistoryLimit\":10\x7d" ∧
    JSON.render reorderedPodApp.Spec.toJSON
      = "\x7b\"resources\":[\x7b\"kind\":\"Pod\",\"apiVersion\":\"v1\",\"metadata\":\x7b\"name\":\"a\"\x7d\x7d],\"descriptor\":\x7b\x7d,\"revisionHistoryLimit\":10\x7d" ∧
    fnv32a (utf8Bytes (JSON.render onePodApp.Spec.toJSON)) = 1578061511 ∧
    fnv32a (utf8Bytes (JSON.render reorderedPodApp.Spec.toJSON)) = 2798455865 ∧
    ComputeHash onePodApp.Spec = "59cd4b5955" ∧
    ComputeHash reorderedPodApp.Spec = "6cfd899db9" ∧
    ComputeHash onePodApp.Spec ≠ ComputeHash reorderedPodApp.Spec := by
  refine ⟨by decide, rfl, rfl, rfl, by rfl, by rfl, by decide, by decide, by decide, by decide,
    by decide⟩
/-! ### The models of the libraries at examples -/

set_option maxRecDepth 20000 in
/-- The text `json.Marshal` writes for the `float64` of an integer literal: an integer
below `2 ^ 53` as it is, one above rounded to 53 binary digits and written with the
shortest digits that read back, and from `1e21` on with an exponent. -/
theorem floatText_examples :
    floatText 10 = "10" ∧ floatText (-3) = "-3" ∧
    floatText 9007199254740992 = "9007199254740992" ∧
    floatText 9007199254740993 = "9007199254740992" ∧
    floatText 9223372036854775807 = "9223372036854776000" ∧
    floatText (-18446744073709551616) = "-18446744073709552000" ∧
    floatText 999999999999999999999 = "1e+21" ∧
    floatText 123456789012345678901234567890 = "1.2345678901234568e+29" := by
  decide

set_option maxRecDepth 20000 in
/-- The hash is taken of the numbers as they are written, the patch holds them as
`float64` writes them. -/
theorem getPatch_writes_numbers_as_float64 :
    JSON.render bigNumberApp.Spec.toJSON
      = "\x7b\"resources\":[\x7b\"apiVersion\":\"v1\",\"kind\":\"ConfigMap\",\"a\":9007199254740993,\"b\":1000000000000000000000,\"c\":-18446744073709551616\x7d],\"descriptor\":\x7b\x7d,\"revisionHistoryLimit\":10\x7d" ∧
    getPatch bigNumberApp
      = .ok "\x7b\"$patch\":\"replace\",\"spec\":\x7b\"descriptor\":\x7b\x7d,\"resources\":[\x7b\"a\":9007199254740992,\"apiVersion\":\"v1\",\"b\":1e+21,\"c\":-18446744073709552000,\"kind\":\"ConfigMap\"\x7d],\"revisionHistoryLimit\":10\x7d\x7d" := by
  refine ⟨by rfl, by decide⟩

/-- The errors of `UnmarshalJSON`: no bytes, a value that is not an object, an
`apiVersion` that does not parse, and no kind. -/
theorem UnmarshalJSON_errors :
    (errorOf (UnmarshalJSON none)).map (fun err => err.Message)
      = some "unexpected end of JSON input" ∧
    (errorOf (UnmarshalJSON (some (JSON.arr JList.nil)))).map (fun err => err.Message)
      = some "json: cannot unmarshal array into Go value of type map[string]interface \x7b\x7d" ∧
    (errorOf (UnmarshalJSON (some badVersionDocument))).map (fun err => err.Message)
      = some "Object 'Kind' is missing in '\x7b\"apiVersion\":\"a/b/c\",\"kind\":\"Pod\"\x7d'" ∧
    (errorOf (UnmarshalJSON (some JSON.null))).map (fun err => err.Message)
      = some "Object 'Kind' is missing in 'null'" := by
  decide

/-- A template whose `metadata` is not a map decodes, and the setters leave it as it is:
the resource has no name, no namespace and no owner reference. A template whose `metadata`
is a map gets the namespace and the controller reference of the application. -/
theorem decodeTemplates_metadata :
    (decodeTemplates bareApp [{ Raw := some stringMetadataDocument }] [] []).1.map
        (fun r => (r.Namespace, r.Name, r.OwnerReferences))
      = [("", "", [])] ∧
    (decodeTemplates bareApp [{ Raw := some stringMetadataDocument }] [] []).2 = [] ∧
    (decodeTemplates bareApp [podTemplate "a"] [] []).1.map
        (fun r => (r.Namespace, r.Name, r.OwnerReferences))
      = [("ns", "a", [NewControllerRef bareApp])] := by
  decide

end AppController
